import Mathlib

/-!
# Wire codec of `core/serialization_adapters.h`

A shallow embedding of the serialization adapters: every `save` overload becomes a
function into a byte list, every `load` overload a reader over a byte cursor that
either fails with a typed error or returns the decoded value together with the bytes
it did not consume.  Objects whose decoder leaves some fields untouched (kernels,
outputs, inner-product arrays) take the destination object as an argument.

Machine integers are natural numbers with explicit reduction modulo the width.
Constants and types that `block_crypt.h`, the ECC library and the archive declare
are collected in `Consts` or modelled from the specification, and are marked so.
-/

namespace Grimm

/-! ## Errors, byte cursor, reader -/

/-- Decode failures.  `OutOfFuel` is not an error of the program: it marks the
exhaustion of the structural recursion budget of `TxKernel.load_Recursive`, which
`TxKernel.load_Recursive_fuel` shows is never reached from `TxKernel.load`. -/
inductive Err where
  | InvalidScalar
  | RecursionLimitExceeded
  | Truncated
  | OutOfFuel
  deriving DecidableEq, Repr

abbrev Bytes := List Nat

/-- A decoder: consumes a front part of the cursor or fails. -/
def Reader (α : Type) : Type := Bytes → Except Err (α × Bytes)

def Reader.pure {α : Type} (x : α) : Reader α := fun s => .ok (x, s)

def Reader.bind {α β : Type} (m : Reader α) (f : α → Reader β) : Reader β :=
  fun s => match m s with
    | .ok (x, s1) => f x s1
    | .error e => .error e

def Reader.fail {α : Type} (e : Err) : Reader α := fun _ => .error e

instance : Monad Reader where
  pure := Reader.pure
  bind := Reader.bind

/-- Constants of the protocol that are declared outside the serialization adapters
(`ECC::Scalar` group order, `TxKernel::s_MaxRecursionDepth`,
`ECC::InnerProduct::nCycles`, length of `ECC::InnerProduct::m_pCondensed`). -/
structure Consts where
  groupOrder : Nat
  s_MaxRecursionDepth : Nat
  nCycles : Nat
  nCondensed : Nat

/-! ## Archive primitives -/

/-- Big-endian digits: `w` bytes of `n` (reduced modulo `256 ^ w`). -/
def putBE : Nat → Nat → Bytes
  | 0, _ => []
  | w + 1, n => (n / 256 ^ w % 256) :: putBE w n

/-- Big-endian value of a byte string. -/
def beValue (bs : Bytes) : Nat := bs.foldl (fun acc b => acc * 256 + b) 0

/-- Modelled from the spec: the archive's sequential read of a fixed number of raw
bytes (`utility/serialize.h` is not part of the sources); an exhausted cursor is the
`Truncated` failure. -/
def load_bytes (n : Nat) : Reader Bytes := fun s =>
  if s.length < n then .error .Truncated else .ok (s.take n, s.drop n)

/-- Modelled from the spec: the archive's fixed-width encoding of a `uint8_t`. -/
def save_u8 (n : Nat) : Bytes := [n % 256]

/-- Modelled from the spec: the archive's read of a `uint8_t`. -/
def load_u8 : Reader Nat := fun s =>
  match s with
  | [] => .error .Truncated
  | b :: r => .ok (b, r)

/-- Modelled from the spec: the archive's encoding of a `bool`, one byte. -/
def save_bool (b : Bool) : Bytes := [if b then 1 else 0]

/-- Modelled from the spec: the archive's read of a `bool`. -/
def load_bool : Reader Bool := do
  let b ← load_u8
  pure (decide (b ≠ 0))

/-- Modelled from the spec: the archive's fixed-width encoding of a `uint32_t`, in
the codec's single byte order. -/
def save_u32 (n : Nat) : Bytes := putBE 4 n

/-- Modelled from the spec: the archive's read of a `uint32_t`. -/
def load_u32 : Reader Nat := do
  let bs ← load_bytes 4
  pure (beValue bs)

/-- Modelled from the spec: the archive's fixed-width encoding of a 64-bit integer
(`Height`, `Amount`), in the codec's single byte order. -/
def save_u64 (n : Nat) : Bytes := putBE 8 n

/-- Modelled from the spec: the archive's read of a 64-bit integer. -/
def load_u64 : Reader Nat := do
  let bs ← load_bytes 8
  pure (beValue bs)

/-! ## `uintBig_t<nBytes>` -/

/-- `save(Archive&, const uintBig_t<nBytes>&)`: the raw bytes of `m_pData`. -/
def uintBig.save (val : Bytes) : Bytes := val

/-- `load(Archive&, uintBig_t<nBytes>&)`: `nBytes` raw bytes into `m_pData`. -/
def uintBig.load (nBytes : Nat) : Reader Bytes := load_bytes nBytes

/-- Modelled from the spec: `uintBigFrom` on a `uint32_t` (declared in the missing
`uintBig.h`): the 4-byte big-endian image of the value. -/
def uintBigFrom (n : Nat) : Bytes := putBE 4 (n % 2 ^ 32)

/-- Modelled from the spec: `uintBig_t<4>::Export` into a `uint32_t`. -/
def uintBig.Export (x : Bytes) : Nat := beValue x % 2 ^ 32

/-- The all-zero `uintBig_t<nBytes>` (`Zero`, `ZeroObject`). -/
def uintBig.zero (nBytes : Nat) : Bytes := List.replicate nBytes 0

/-- Comparison with `grimm::Zero`. -/
def uintBig.isZero (v : Bytes) : Bool := v.all (fun b => b == 0)

/-- Byte width of `ECC::uintBig` (X coordinates, scalars, hash values). -/
def nBytes : Nat := 32

/-- Constants used to evaluate the codec on concrete inputs: the secp256k1 group
order, recursion limit 2, six inner-product rounds, two condensed scalars. -/
def exampleConsts : Consts where
  groupOrder := 0xFFFFFFFFFFFFFFFFFFFFFFFFFFFFFFFEBAAEDCE6AF48A03BBFD25E8CD0364141
  s_MaxRecursionDepth := 2
  nCycles := 6
  nCondensed := 2

/-! ## ECC primitives -/

/-- `ECC::Point`: X coordinate and the `uint8_t` Y sign. -/
structure Point where
  m_X : Bytes
  m_Y : Nat
  deriving DecidableEq, Repr

/-- `ZeroObject` on a point. -/
def Point.zero : Point := ⟨uintBig.zero nBytes, 0⟩

/-- Structural validity of a point: 32-byte X, Y sign 0 or 1. -/
def Point.Valid (p : Point) : Prop := p.m_X.length = nBytes ∧ p.m_Y < 2

instance (p : Point) : Decidable p.Valid := by
  unfold Point.Valid; infer_instance

/-- `save(Archive&, const ECC::Point&)`. -/
def Point.save (point : Point) : Bytes :=
  uintBig.save point.m_X ++ save_u8 point.m_Y

/-- `load(Archive&, ECC::Point&)`. -/
def Point.load : Reader Point := do
  let x ← uintBig.load nBytes
  let y ← load_u8
  pure ⟨x, y⟩

/-- `ECC::Scalar`: the 256-bit value. -/
structure Scalar where
  m_Value : Bytes
  deriving DecidableEq, Repr

/-- `ZeroObject` on a scalar. -/
def Scalar.zero : Scalar := ⟨uintBig.zero nBytes⟩

/-- Modelled from the spec: `ECC::Scalar::IsValid` (ECC library, not in the
sources): the value is within the group order. -/
def Scalar.IsValid (c : Consts) (s : Scalar) : Prop := beValue s.m_Value < c.groupOrder

instance (c : Consts) (s : Scalar) : Decidable (s.IsValid c) := by
  unfold Scalar.IsValid; infer_instance

/-- Modelled from the spec: `ECC::Scalar::TestValid` (ECC library, not in the
sources): fails with `InvalidScalar` when the value is not within the group order. -/
def Scalar.TestValid (c : Consts) (s : Scalar) : Reader Unit :=
  if s.IsValid c then pure () else Reader.fail .InvalidScalar

/-- Structural validity of a scalar: 32 bytes, value below the group order. -/
def Scalar.Valid (c : Consts) (s : Scalar) : Prop :=
  s.m_Value.length = nBytes ∧ s.IsValid c

instance (c : Consts) (s : Scalar) : Decidable (s.Valid c) := by
  unfold Scalar.Valid; infer_instance

/-- `save(Archive&, const ECC::Scalar&)`. -/
def Scalar.save (scalar : Scalar) : Bytes := uintBig.save scalar.m_Value

/-- `load(Archive&, ECC::Scalar&)`. -/
def Scalar.load (c : Consts) : Reader Scalar := do
  let v ← uintBig.load nBytes
  Scalar.TestValid c ⟨v⟩
  pure ⟨v⟩

/-- `ECC::Signature`. -/
structure Signature where
  m_NoncePub : Point
  m_k : Scalar
  deriving DecidableEq, Repr

def Signature.zero : Signature := ⟨Point.zero, Scalar.zero⟩

def Signature.Valid (c : Consts) (s : Signature) : Prop :=
  s.m_NoncePub.Valid ∧ s.m_k.Valid c

instance (c : Consts) (s : Signature) : Decidable (s.Valid c) := by
  unfold Signature.Valid; infer_instance

/-- `save(Archive&, const ECC::Signature&)`. -/
def Signature.save (val : Signature) : Bytes :=
  Point.save val.m_NoncePub ++ Scalar.save val.m_k

/-- `load(Archive&, ECC::Signature&)`. -/
def Signature.load (c : Consts) : Reader Signature := do
  let p ← Point.load
  let k ← Scalar.load c
  pure ⟨p, k⟩

/-- `grimm::FourCC`: the 32-bit code `V`. -/
structure FourCC where
  V : Nat
  deriving DecidableEq, Repr

/-- `save(Archive&, const grimm::FourCC&)`. -/
def FourCC.save (val : FourCC) : Bytes := uintBig.save (uintBigFrom val.V)

/-- `load(Archive&, grimm::FourCC&)`. -/
def FourCC.load : Reader FourCC := do
  let x ← uintBig.load 4
  pure ⟨uintBig.Export x⟩

/-! ## Generic loops -/

/-- A counted loop `for (i = 0; i < n; i++)` that decodes one element per round. -/
def loadN {α : Type} (ld : Reader α) : Nat → Reader (List α)
  | 0 => pure []
  | n + 1 => do
    let x ← ld
    let xs ← loadN ld n
    pure (x :: xs)

/-- A counted loop `for (i = 0; i < n; i++)` that encodes `v[i]`. -/
def saveN {α : Type} (sv : α → Bytes) : Nat → List α → Bytes
  | 0, _ => []
  | _ + 1, [] => []
  | n + 1, x :: xs => sv x ++ saveN sv n xs

/-! ## `ECC::InnerProduct` and the bitfield packer -/

/-- `ECC::InnerProduct`: `m_pLR[nCycles][2]` and `m_pCondensed[]`. -/
structure InnerProduct where
  m_pLR : List (Point × Point)
  m_pCondensed : List Scalar
  deriving DecidableEq, Repr

/-- A default-constructed inner product: arrays of the declared size. -/
def InnerProduct.fresh (c : Consts) : InnerProduct :=
  ⟨List.replicate c.nCycles (Point.zero, Point.zero), List.replicate c.nCondensed Scalar.zero⟩

/-- `ZeroObject` on an inner product: every array cell zeroed. -/
def InnerProduct.zeroed (v : InnerProduct) : InnerProduct :=
  ⟨v.m_pLR.map (fun _ => (Point.zero, Point.zero)), v.m_pCondensed.map (fun _ => Scalar.zero)⟩

def InnerProduct.Valid (c : Consts) (v : InnerProduct) : Prop :=
  v.m_pLR.length = c.nCycles ∧ v.m_pCondensed.length = c.nCondensed ∧
    (∀ lr ∈ v.m_pLR, lr.1.Valid ∧ lr.2.Valid) ∧ (∀ s ∈ v.m_pCondensed, s.Valid c)

instance (c : Consts) (v : InnerProduct) : Decidable (v.Valid c) := by
  unfold InnerProduct.Valid; infer_instance

namespace InnerProductFlags

/-- `static const uint32_t N = ECC::InnerProduct::nCycles * 2`. -/
def N (c : Consts) : Nat := (c.nCycles * 2) % 2 ^ 32

/-- `static const uint32_t N_Max = (N + 7) & ~7`. -/
def N_Max (c : Consts) : Nat := ((N c + 7) % 2 ^ 32) &&& 0xFFFFFFF8

/-- `ZeroObject(ipf)`: the array `m_pF[N_Max >> 3]` zeroed. -/
def zero (c : Consts) : Bytes := List.replicate (N_Max c >>> 3) 0

/-- `InnerProductFlags::get`.  The `assert(i < N_Max)` is not modelled: an index
outside the array reads 0. -/
def get (m_pF : Bytes) (i : Nat) : Nat :=
  let x := m_pF.getD (i >>> 3) 0
  let msk := (1 <<< (i &&& 7)) % 256
  if x &&& msk ≠ 0 then 1 else 0

/-- `InnerProductFlags::set`.  The `assert(i < N_Max)` is not modelled: an index
outside the array writes nothing. -/
def set (m_pF : Bytes) (i : Nat) (b : Nat) : Bytes :=
  if b ≠ 0 then
    let x := m_pF.getD (i >>> 3) 0
    let msk := (1 <<< (i &&& 7)) % 256
    m_pF.set (i >>> 3) (x ||| msk)
  else m_pF

/-- The loop of `InnerProductFlags::save`, from bit `iBit` on. -/
def saveLoop : Bytes → Nat → List (Point × Point) → Bytes
  | m_pF, _, [] => m_pF
  | m_pF, iBit, lr :: rest =>
    saveLoop (set (set m_pF iBit lr.1.m_Y) ((iBit + 1) % 2 ^ 32) lr.2.m_Y)
      ((iBit + 2) % 2 ^ 32) rest

/-- `InnerProductFlags::save`. -/
def save (m_pF : Bytes) (v : InnerProduct) : Bytes := saveLoop m_pF 0 v.m_pLR

/-- The loop of `InnerProductFlags::load`, from bit `iBit` on. -/
def loadLoop (m_pF : Bytes) : Nat → List (Point × Point) → List (Point × Point)
  | _, [] => []
  | iBit, lr :: rest =>
    (⟨lr.1.m_X, get m_pF iBit⟩, ⟨lr.2.m_X, get m_pF ((iBit + 1) % 2 ^ 32)⟩) ::
      loadLoop m_pF ((iBit + 2) % 2 ^ 32) rest

/-- `InnerProductFlags::load`. -/
def load (m_pF : Bytes) (v : InnerProduct) : InnerProduct :=
  ⟨loadLoop m_pF 0 v.m_pLR, v.m_pCondensed⟩

end InnerProductFlags

/-- The constants fit their C++ types and satisfy the codec's static assertion:
`++nRecusion` cannot wrap below the recursion limit, the bit count `nCycles * 2`
fits a `uint32_t`, and `static_assert(ipf.N_Max - ipf.N == 4)` holds. -/
def Consts.WF (c : Consts) : Prop :=
  c.s_MaxRecursionDepth + 1 < 2 ^ 32 ∧ c.nCycles * 2 < 2 ^ 32 ∧
    InnerProductFlags.N_Max c - InnerProductFlags.N c = 4

instance (c : Consts) : Decidable c.WF := by
  unfold Consts.WF; infer_instance

/-- The first loop of `save_nobits`: the X coordinates of `m_pLR`. -/
def save_LR_X : List (Point × Point) → Bytes
  | [] => []
  | lr :: rest => uintBig.save lr.1.m_X ++ uintBig.save lr.2.m_X ++ save_LR_X rest

/-- The second loop of `save_nobits`: the condensed scalars. -/
def save_Condensed : List Scalar → Bytes
  | [] => []
  | s :: rest => Scalar.save s ++ save_Condensed rest

/-- `save_nobits(Archive&, const ECC::InnerProduct&)`. -/
def save_nobits (v : InnerProduct) : Bytes :=
  save_LR_X v.m_pLR ++ save_Condensed v.m_pCondensed

/-- The first loop of `load_nobits`, over the cells of the destination array: the
X coordinate of each cell is read, its Y is left as it was. -/
def load_LR_X : List (Point × Point) → Reader (List (Point × Point))
  | [] => pure []
  | lr :: rest => do
    let lx ← uintBig.load nBytes
    let rx ← uintBig.load nBytes
    let rest1 ← load_LR_X rest
    pure ((⟨lx, lr.1.m_Y⟩, ⟨rx, lr.2.m_Y⟩) :: rest1)

/-- The second loop of `load_nobits`, over the cells of the destination array. -/
def load_Condensed (c : Consts) : List Scalar → Reader (List Scalar)
  | [] => pure []
  | _ :: rest => do
    let s ← Scalar.load c
    let rest1 ← load_Condensed c rest
    pure (s :: rest1)

/-- `load_nobits(Archive&, ECC::InnerProduct&)`. -/
def load_nobits (c : Consts) (v : InnerProduct) : Reader InnerProduct := do
  let lr ← load_LR_X v.m_pLR
  let cs ← load_Condensed c v.m_pCondensed
  pure ⟨lr, cs⟩

/-- `save(Archive&, const ECC::InnerProduct&)`. -/
def InnerProduct.save (c : Consts) (v : InnerProduct) : Bytes :=
  save_nobits v ++ InnerProductFlags.save (InnerProductFlags.zero c) v

/-- `load(Archive&, ECC::InnerProduct&)`. -/
def InnerProduct.load (c : Consts) (v : InnerProduct) : Reader InnerProduct := do
  let v1 ← load_nobits c v
  let m_pF ← load_bytes (InnerProductFlags.N_Max c >>> 3)
  pure (InnerProductFlags.load m_pF v1)

/-! ## Range proofs -/

/-- `ECC::RangeProof::Confidential::Part1`. -/
structure Part1 where
  m_A : Point
  m_S : Point
  deriving DecidableEq, Repr

/-- `ECC::RangeProof::Confidential::Part2`. -/
structure Part2 where
  m_T1 : Point
  m_T2 : Point
  deriving DecidableEq, Repr

/-- `ECC::RangeProof::Confidential::Part3`. -/
structure Part3 where
  m_TauX : Scalar
  deriving DecidableEq, Repr

/-- `ECC::RangeProof::Confidential`. -/
structure Confidential where
  m_Part1 : Part1
  m_Part2 : Part2
  m_Part3 : Part3
  m_Mu : Scalar
  m_tDot : Scalar
  m_P_Tag : InnerProduct
  deriving DecidableEq, Repr

/-- A default-constructed confidential proof. -/
def Confidential.fresh (c : Consts) : Confidential :=
  ⟨⟨Point.zero, Point.zero⟩, ⟨Point.zero, Point.zero⟩, ⟨Scalar.zero⟩, Scalar.zero, Scalar.zero,
    InnerProduct.fresh c⟩

def Confidential.Valid (c : Consts) (v : Confidential) : Prop :=
  v.m_Part1.m_A.Valid ∧ v.m_Part1.m_S.Valid ∧ v.m_Part2.m_T1.Valid ∧ v.m_Part2.m_T2.Valid ∧
    v.m_Part3.m_TauX.Valid c ∧ v.m_Mu.Valid c ∧ v.m_tDot.Valid c ∧ v.m_P_Tag.Valid c

instance (c : Consts) (v : Confidential) : Decidable (v.Valid c) := by
  unfold Confidential.Valid; infer_instance

/-- The bit array `ipf.m_pF` that the full-mode encoder writes: the zeroed array,
the Y signs of the inner product, then the four extra bits at `N .. N + 3`. -/
def Confidential.flagBits (c : Consts) (v : Confidential) : Bytes :=
  let ipf0 := InnerProductFlags.save (InnerProductFlags.zero c) v.m_P_Tag
  let ipf1 := InnerProductFlags.set ipf0 ((InnerProductFlags.N c + 0) % 2 ^ 32) v.m_Part1.m_A.m_Y
  let ipf2 := InnerProductFlags.set ipf1 ((InnerProductFlags.N c + 1) % 2 ^ 32) v.m_Part1.m_S.m_Y
  let ipf3 := InnerProductFlags.set ipf2 ((InnerProductFlags.N c + 2) % 2 ^ 32) v.m_Part2.m_T1.m_Y
  InnerProductFlags.set ipf3 ((InnerProductFlags.N c + 3) % 2 ^ 32) v.m_Part2.m_T2.m_Y

/-- The flag byte of the recovery-only encoding. -/
def Confidential.nFlags (v : Confidential) : Nat :=
  (if v.m_Part1.m_A.m_Y ≠ 0 then 1 else 0) |||
  (if v.m_Part1.m_S.m_Y ≠ 0 then 2 else 0) |||
  (if v.m_Part2.m_T1.m_Y ≠ 0 then 4 else 0) |||
  (if v.m_Part2.m_T2.m_Y ≠ 0 then 8 else 0)

/-- `save(Archive&, const ECC::RangeProof::Confidential&, bool bRecoveryOnly)`. -/
def Confidential.save (c : Consts) (v : Confidential) (bRecoveryOnly : Bool) : Bytes :=
  uintBig.save v.m_Part1.m_A.m_X ++ uintBig.save v.m_Part1.m_S.m_X ++
  uintBig.save v.m_Part2.m_T1.m_X ++ uintBig.save v.m_Part2.m_T2.m_X ++
  (if bRecoveryOnly then
    Scalar.save v.m_Mu ++ save_u8 v.nFlags
  else
    Scalar.save v.m_Part3.m_TauX ++ Scalar.save v.m_Mu ++ Scalar.save v.m_tDot ++
    save_nobits v.m_P_Tag ++ v.flagBits c)

/-- `load(Archive&, ECC::RangeProof::Confidential&, bool bRecoveryOnly)`; `v` is the
destination object. -/
def Confidential.load (c : Consts) (v : Confidential) (bRecoveryOnly : Bool) :
    Reader Confidential := do
  let aX ← uintBig.load nBytes
  let sX ← uintBig.load nBytes
  let t1X ← uintBig.load nBytes
  let t2X ← uintBig.load nBytes
  if bRecoveryOnly then do
    let mu ← Scalar.load c
    let nFlags ← load_u8
    pure ⟨⟨⟨aX, if 1 &&& nFlags ≠ 0 then 1 else 0⟩, ⟨sX, if 2 &&& nFlags ≠ 0 then 1 else 0⟩⟩,
          ⟨⟨t1X, if 4 &&& nFlags ≠ 0 then 1 else 0⟩, ⟨t2X, if 8 &&& nFlags ≠ 0 then 1 else 0⟩⟩,
          ⟨Scalar.zero⟩, mu, Scalar.zero, v.m_P_Tag.zeroed⟩
  else do
    let tauX ← Scalar.load c
    let mu ← Scalar.load c
    let tDot ← Scalar.load c
    let pTag ← load_nobits c v.m_P_Tag
    let m_pF ← load_bytes (InnerProductFlags.N_Max c >>> 3)
    pure ⟨⟨⟨aX, InnerProductFlags.get m_pF ((InnerProductFlags.N c + 0) % 2 ^ 32)⟩,
           ⟨sX, InnerProductFlags.get m_pF ((InnerProductFlags.N c + 1) % 2 ^ 32)⟩⟩,
          ⟨⟨t1X, InnerProductFlags.get m_pF ((InnerProductFlags.N c + 2) % 2 ^ 32)⟩,
           ⟨t2X, InnerProductFlags.get m_pF ((InnerProductFlags.N c + 3) % 2 ^ 32)⟩⟩,
          ⟨tauX⟩, mu, tDot, InnerProductFlags.load m_pF pTag⟩

/-- `ECC::Key::ID` as used by the recovery data of a public proof. -/
structure KeyID where
  m_Idx : Nat
  m_Type : FourCC
  m_SubIdx : Nat
  deriving DecidableEq, Repr

/-- `ECC::RangeProof::Public::Recovery`. -/
structure Recovery where
  m_Kid : KeyID
  m_Checksum : Bytes
  deriving DecidableEq, Repr

/-- `ECC::RangeProof::Public`. -/
structure Public where
  m_Value : Nat
  m_Signature : Signature
  m_Recovery : Recovery
  deriving DecidableEq, Repr

def Public.Valid (c : Consts) (p : Public) : Prop :=
  p.m_Value < 2 ^ 64 ∧ p.m_Signature.Valid c ∧
    p.m_Recovery.m_Kid.m_Idx < 2 ^ 64 ∧ p.m_Recovery.m_Kid.m_Type.V < 2 ^ 32 ∧
    p.m_Recovery.m_Kid.m_SubIdx < 2 ^ 32 ∧ p.m_Recovery.m_Checksum.length = nBytes

instance (c : Consts) (p : Public) : Decidable (p.Valid c) := by
  unfold Public.Valid; infer_instance

/-- `save(Archive&, const ECC::RangeProof::Public&, bool bRecoveryOnly)`. -/
def Public.save (val : Public) (bRecoveryOnly : Bool) : Bytes :=
  save_u64 val.m_Value ++
  (if !bRecoveryOnly then Signature.save val.m_Signature else []) ++
  save_u64 val.m_Recovery.m_Kid.m_Idx ++ FourCC.save val.m_Recovery.m_Kid.m_Type ++
  save_u32 val.m_Recovery.m_Kid.m_SubIdx ++ uintBig.save val.m_Recovery.m_Checksum

/-- `load(Archive&, ECC::RangeProof::Public&, bool bRecoveryOnly)`. -/
def Public.load (c : Consts) (bRecoveryOnly : Bool) : Reader Public := do
  let value ← load_u64
  let sig ← (if bRecoveryOnly then pure Signature.zero else Signature.load c)
  let idx ← load_u64
  let type ← FourCC.load
  let subIdx ← load_u32
  let checksum ← uintBig.load nBytes
  pure ⟨value, sig, ⟨⟨idx, type, subIdx⟩, checksum⟩⟩

/-! ## Transaction elements -/

/-- `grimm::Input`. -/
structure Input where
  m_Commitment : Point
  deriving DecidableEq, Repr

def Input.Valid (i : Input) : Prop := i.m_Commitment.Valid

instance (i : Input) : Decidable i.Valid := by
  unfold Input.Valid; infer_instance

/-- `save(Archive&, const grimm::Input&)`. -/
def Input.save (input : Input) : Bytes :=
  let nFlags := (if input.m_Commitment.m_Y ≠ 0 then 1 else 0)
  save_u8 nFlags ++ uintBig.save input.m_Commitment.m_X

/-- `load(Archive&, grimm::Input&)`. -/
def Input.load : Reader Input := do
  let nFlags ← load_u8
  let x ← uintBig.load nBytes
  pure ⟨⟨x, 1 &&& nFlags⟩⟩

/-- `grimm::Output`. -/
structure Output where
  m_Commitment : Point
  m_Coinbase : Bool
  m_RecoveryOnly : Bool
  m_pConfidential : Option Confidential
  m_pPublic : Option Public
  m_Incubation : Nat
  m_AssetID : Bytes
  deriving DecidableEq, Repr

/-- Modelled from the spec: a default-constructed output (the constructor is in the
missing `block_crypt.h`): no proof, zero incubation, zero asset id, flags off. -/
def Output.fresh : Output :=
  ⟨Point.zero, false, false, none, none, 0, uintBig.zero nBytes⟩

def Output.Valid (c : Consts) (o : Output) : Prop :=
  o.m_Commitment.Valid ∧ (∀ v ∈ o.m_pConfidential, v.Valid c) ∧ (∀ p ∈ o.m_pPublic, p.Valid c) ∧
    o.m_Incubation < 2 ^ 64 ∧ o.m_AssetID.length = nBytes

instance (c : Consts) (o : Output) : Decidable (o.Valid c) := by
  unfold Output.Valid; infer_instance

/-- The flag byte computed by `save(Archive&, const grimm::Output&)`. -/
def Output.nFlags (output : Output) : Nat :=
  (if output.m_Commitment.m_Y ≠ 0 then 1 else 0) |||
  (if output.m_Coinbase then 2 else 0) |||
  (if output.m_pConfidential.isSome then 4 else 0) |||
  (if output.m_pPublic.isSome then 8 else 0) |||
  (if output.m_Incubation ≠ 0 then 0x10 else 0) |||
  (if uintBig.isZero output.m_AssetID then 0 else 0x20) |||
  (if output.m_RecoveryOnly then 0x40 else 0)

/-- `save(Archive&, const grimm::Output&)`. -/
def Output.save (c : Consts) (output : Output) : Bytes :=
  save_u8 output.nFlags ++ uintBig.save output.m_Commitment.m_X ++
  (match output.m_pConfidential with
    | some v => Confidential.save c v output.m_RecoveryOnly
    | none => []) ++
  (match output.m_pPublic with
    | some p => Public.save p output.m_RecoveryOnly
    | none => []) ++
  (if output.m_Incubation ≠ 0 then save_u64 output.m_Incubation else []) ++
  (if 0x20 &&& output.nFlags ≠ 0 then uintBig.save output.m_AssetID else [])

/-- `load(Archive&, grimm::Output&)`; `output` is the destination object. -/
def Output.load (c : Consts) (output : Output) : Reader Output := do
  let nFlags ← load_u8
  let x ← uintBig.load nBytes
  let recoveryOnly := decide (0x40 &&& nFlags ≠ 0)
  let conf ← (if 4 &&& nFlags ≠ 0 then do
      let v ← Confidential.load c (Confidential.fresh c) recoveryOnly
      pure (some v)
    else pure output.m_pConfidential)
  let pub ← (if 8 &&& nFlags ≠ 0 then do
      let p ← Public.load c recoveryOnly
      pure (some p)
    else pure output.m_pPublic)
  let incubation ← (if 0x10 &&& nFlags ≠ 0 then load_u64 else pure output.m_Incubation)
  let assetID ← (if 0x20 &&& nFlags ≠ 0 then uintBig.load nBytes else pure (uintBig.zero nBytes))
  pure ⟨⟨x, 1 &&& nFlags⟩, decide (2 &&& nFlags ≠ 0), recoveryOnly, conf, pub, incubation, assetID⟩

/-- `grimm::TxKernel::HashLock`. -/
structure HashLock where
  m_Preimage : Bytes
  deriving DecidableEq, Repr

/-- `save(Archive&, const grimm::TxKernel::HashLock&)`. -/
def HashLock.save (val : HashLock) : Bytes := uintBig.save val.m_Preimage

/-- `load(Archive&, grimm::TxKernel::HashLock&)`. -/
def HashLock.load : Reader HashLock := do
  let p ← uintBig.load nBytes
  pure ⟨p⟩

/-- `grimm::TxKernel::RelativeLock`. -/
structure RelativeLock where
  m_ID : Bytes
  m_LockHeight : Nat
  deriving DecidableEq, Repr

/-- `save(Archive&, const grimm::TxKernel::RelativeLock&)`. -/
def RelativeLock.save (val : RelativeLock) : Bytes :=
  uintBig.save val.m_ID ++ save_u64 val.m_LockHeight

/-- `load(Archive&, grimm::TxKernel::RelativeLock&)`. -/
def RelativeLock.load : Reader RelativeLock := do
  let id ← uintBig.load nBytes
  let h ← load_u64
  pure ⟨id, h⟩

/-- `grimm::HeightRange`. -/
structure HeightRange where
  m_Min : Nat
  m_Max : Nat
  deriving DecidableEq, Repr

/-- `grimm::Height(-1)`: the open-ended height, all 64 bits set. -/
def MaxHeight : Nat := 2 ^ 64 - 1

/-- `grimm::TxKernel`.  The type owns its nested kernels, so it is recursive. -/
inductive TxKernel where
  | mk (m_Commitment : Point) (m_Signature : Signature) (m_Fee : Nat)
      (m_Height : HeightRange) (m_pHashLock : Option HashLock)
      (m_pRelativeLock : Option RelativeLock) (m_vNested : List TxKernel)
      (m_AssetEmission : Nat) (m_CanEmbed : Bool) : TxKernel

namespace TxKernel

def m_Commitment : TxKernel → Point
  | mk x _ _ _ _ _ _ _ _ => x

def m_Signature : TxKernel → Signature
  | mk _ x _ _ _ _ _ _ _ => x

def m_Fee : TxKernel → Nat
  | mk _ _ x _ _ _ _ _ _ => x

def m_Height : TxKernel → HeightRange
  | mk _ _ _ x _ _ _ _ _ => x

def m_pHashLock : TxKernel → Option HashLock
  | mk _ _ _ _ x _ _ _ _ => x

def m_pRelativeLock : TxKernel → Option RelativeLock
  | mk _ _ _ _ _ x _ _ _ => x

def m_vNested : TxKernel → List TxKernel
  | mk _ _ _ _ _ _ x _ _ => x

def m_AssetEmission : TxKernel → Nat
  | mk _ _ _ _ _ _ _ x _ => x

def m_CanEmbed : TxKernel → Bool
  | mk _ _ _ _ _ _ _ _ x => x

/-- Modelled from the spec: a default-constructed kernel (the constructor is in the
missing `block_crypt.h`): zero fee, height range `[0, open]`, no hash-lock, no
relative lock, no nested kernel, zero asset emission, not embeddable. -/
def fresh : TxKernel :=
  mk Point.zero Signature.zero 0 ⟨0, MaxHeight⟩ none none [] 0 false

/-- The extended flag byte computed by `save(Archive&, const grimm::TxKernel&)`. -/
def nFlags2 (val : TxKernel) : Nat :=
  (if val.m_AssetEmission ≠ 0 then 1 else 0) |||
  (if val.m_pRelativeLock.isSome then 2 else 0) |||
  (if val.m_CanEmbed then 4 else 0)

/-- The primary flag byte computed by `save(Archive&, const grimm::TxKernel&)`. -/
def nFlags (val : TxKernel) : Nat :=
  (if val.m_Commitment.m_Y ≠ 0 then 1 else 0) |||
  (if val.m_Fee ≠ 0 then 2 else 0) |||
  (if val.m_Height.m_Min ≠ 0 then 4 else 0) |||
  (if val.m_Height.m_Max ≠ MaxHeight then 8 else 0) |||
  (if val.m_Signature.m_NoncePub.m_Y ≠ 0 then 0x10 else 0) |||
  (if val.m_pHashLock.isSome then 0x20 else 0) |||
  (if val.m_vNested.isEmpty then 0 else 0x40) |||
  (if val.nFlags2 ≠ 0 then 0x80 else 0)

/-- The body of `save(Archive&, const grimm::TxKernel&)`; `nestedBytes` stands for
the output of the loop over the nested kernels. -/
def save_body (val : TxKernel) (nestedBytes : Bytes) : Bytes :=
  save_u8 val.nFlags ++ uintBig.save val.m_Commitment.m_X ++
  uintBig.save val.m_Signature.m_NoncePub.m_X ++ Scalar.save val.m_Signature.m_k ++
  (if 2 &&& val.nFlags ≠ 0 then save_u64 val.m_Fee else []) ++
  (if 4 &&& val.nFlags ≠ 0 then save_u64 val.m_Height.m_Min else []) ++
  (if 8 &&& val.nFlags ≠ 0 then
    save_u64 ((val.m_Height.m_Max % 2 ^ 64 + 2 ^ 64 - val.m_Height.m_Min % 2 ^ 64) % 2 ^ 64)
    else []) ++
  (if 0x20 &&& val.nFlags ≠ 0 then
    (match val.m_pHashLock with
      | some x => HashLock.save x
      | none => []) else []) ++
  (if 0x40 &&& val.nFlags ≠ 0 then
    save_u32 (val.m_vNested.length % 2 ^ 32) ++ nestedBytes else []) ++
  (if val.nFlags2 ≠ 0 then
    save_u8 val.nFlags2 ++
    (if 1 &&& val.nFlags2 ≠ 0 then save_u64 val.m_AssetEmission else []) ++
    (if 2 &&& val.nFlags2 ≠ 0 then
      (match val.m_pRelativeLock with
        | some x => RelativeLock.save x
        | none => []) else [])
  else [])

mutual
/-- `save(Archive&, const grimm::TxKernel&)`. -/
def save : TxKernel → Bytes
  | mk com sig fee h hl rl nested ae ce =>
    save_body (mk com sig fee h hl rl nested ae ce) (saveNested (nested.length % 2 ^ 32) nested)
/-- The loop `for (i = 0; i < nCount; i++) save(ar, *val.m_vNested[i])`. -/
def saveNested : Nat → List TxKernel → Bytes
  | 0, _ => []
  | _ + 1, [] => []
  | n + 1, k :: ks => save k ++ saveNested n ks
end

mutual
/-- Nesting depth: 0 without nested kernels, else one more than the deepest child. -/
def depth : TxKernel → Nat
  | mk _ _ _ _ _ _ nested _ _ =>
    match nested with
    | [] => 0
    | k :: ks => depthList (k :: ks) + 1
/-- Largest depth in a list of kernels. -/
def depthList : List TxKernel → Nat
  | [] => 0
  | k :: ks => max (depth k) (depthList ks)
end

mutual
/-- Field validity of a kernel tree, apart from its depth: points and scalars valid,
integers within their 64-bit types, arrays of their declared size, every nested
list shorter than `2 ^ 32`. -/
def wellFormed (c : Consts) : TxKernel → Bool
  | mk com sig fee h hl rl nested ae _ =>
    decide (com.Valid ∧ sig.Valid c ∧ fee < 2 ^ 64 ∧ h.m_Min < 2 ^ 64 ∧ h.m_Max < 2 ^ 64 ∧
      (∀ x ∈ hl, x.m_Preimage.length = nBytes) ∧
      (∀ x ∈ rl, x.m_ID.length = nBytes ∧ x.m_LockHeight < 2 ^ 64) ∧
      nested.length < 2 ^ 32 ∧ ae < 2 ^ 64) && wellFormedList c nested
/-- Field validity of every kernel of a list. -/
def wellFormedList (c : Consts) : List TxKernel → Bool
  | [] => true
  | k :: ks => wellFormed c k && wellFormedList c ks
end

/-- Structural validity of a kernel: valid fields and nesting depth within the
recursion limit. -/
def Valid (c : Consts) (k : TxKernel) : Prop :=
  k.wellFormed c = true ∧ k.depth ≤ c.s_MaxRecursionDepth

instance (c : Consts) (k : TxKernel) : Decidable (k.Valid c) := by
  unfold Valid; infer_instance

/-- Modelled from the spec: `grimm::TxKernel::TestRecursion` (declared in the missing
`block_crypt.h`): fails with `RecursionLimitExceeded` when the counter exceeds the
protocol maximum. -/
def TestRecursion (c : Consts) (n : Nat) : Reader Unit :=
  if n > c.s_MaxRecursionDepth then Reader.fail .RecursionLimitExceeded else pure ()

/-- The body of `load_Recursive(Archive&, grimm::TxKernel&, uint32_t nRecusion)`;
`val` is the destination object and `recurse n` stands for the recursive call
`load_Recursive(ar, *v, n)` into a freshly made kernel. -/
def load_Recursive_body (c : Consts) (recurse : Nat → Reader TxKernel) (nRecusion : Nat)
    (val : TxKernel) : Reader TxKernel := do
  let nFlags ← load_u8
  let cX ← uintBig.load nBytes
  let nX ← uintBig.load nBytes
  let k ← Scalar.load c
  let fee ← (if 2 &&& nFlags ≠ 0 then load_u64 else pure 0)
  let hMin ← (if 4 &&& nFlags ≠ 0 then load_u64 else pure 0)
  let hMax ← (if 8 &&& nFlags ≠ 0 then do
      let dh ← load_u64
      pure ((hMin + dh) % 2 ^ 64)
    else pure MaxHeight)
  let hashLock ← (if 0x20 &&& nFlags ≠ 0 then do
      let x ← HashLock.load
      pure (some x)
    else pure val.m_pHashLock)
  let nested ← (if 0x40 &&& nFlags ≠ 0 then do
      TestRecursion c ((nRecusion + 1) % 2 ^ 32)
      let nCount ← load_u32
      loadN (recurse ((nRecusion + 1) % 2 ^ 32)) nCount
    else pure val.m_vNested)
  let ext ← (if 0x80 &&& nFlags ≠ 0 then do
      let nFlags2 ← load_u8
      let ae ← (if 1 &&& nFlags2 ≠ 0 then load_u64 else pure 0)
      let rl ← (if 2 &&& nFlags2 ≠ 0 then do
          let x ← RelativeLock.load
          pure (some x)
        else pure val.m_pRelativeLock)
      pure (ae, rl, if 4 &&& nFlags2 ≠ 0 then true else val.m_CanEmbed)
    else pure (0, val.m_pRelativeLock, val.m_CanEmbed))
  pure (mk ⟨cX, 1 &&& nFlags⟩ ⟨⟨nX, if 0x10 &&& nFlags ≠ 0 then 1 else 0⟩, k⟩ fee ⟨hMin, hMax⟩
    hashLock ext.2.1 nested ext.1 ext.2.2)

/-- `load_Recursive(Archive&, grimm::TxKernel&, uint32_t nRecusion)`.  The first
argument bounds the recursion structurally; it only decides the result when it is
smaller than the nesting still allowed by `TestRecursion`, in which case the
failure is `OutOfFuel`. -/
def load_Recursive (c : Consts) : Nat → Nat → TxKernel → Reader TxKernel
  | 0, nRecusion, val =>
    load_Recursive_body c (fun _ => Reader.fail .OutOfFuel) nRecusion val
  | fuel + 1, nRecusion, val =>
    load_Recursive_body c (fun n => load_Recursive c fuel n fresh) nRecusion val

/-- `load(Archive&, grimm::TxKernel&)`: `load_Recursive(ar, val, 0)`. -/
def load (c : Consts) (val : TxKernel) : Reader TxKernel :=
  load_Recursive c c.s_MaxRecursionDepth 0 val

end TxKernel

/-! ## Collections and transactions -/

/-- `save_VecPtr`: the count through `uintBigFrom`, then every element. -/
def save_VecPtr {α : Type} (sv : α → Bytes) (v : List α) : Bytes :=
  let nSize := v.length % 2 ^ 32
  uintBig.save (uintBigFrom nSize) ++ saveN sv nSize v

/-- `load_VecPtr`: the count, then that many elements, each decoded into a freshly
allocated object by `ld`. -/
def load_VecPtr {α : Type} (ld : Reader α) : Reader (List α) := do
  let x ← uintBig.load 4
  let nSize := uintBig.Export x
  loadN ld nSize

/-- `grimm::TxVectors::Perishable`. -/
structure Perishable where
  m_vInputs : List Input
  m_vOutputs : List Output
  deriving DecidableEq, Repr

/-- `grimm::TxVectors::Eternal`. -/
structure Eternal where
  m_vKernels : List TxKernel

/-- `grimm::TxBase`. -/
structure TxBase where
  m_Offset : Scalar
  deriving DecidableEq, Repr

/-- `grimm::Transaction`: the three bases it derives from. -/
structure Transaction where
  perishable : Perishable
  eternal : Eternal
  base : TxBase

/-- `save(Archive&, const grimm::TxBase&)`. -/
def TxBase.save (txb : TxBase) : Bytes := Scalar.save txb.m_Offset

/-- `load(Archive&, grimm::TxBase&)`. -/
def TxBase.load (c : Consts) : Reader TxBase := do
  let o ← Scalar.load c
  pure ⟨o⟩

/-- `save(Archive&, const grimm::TxVectors::Perishable&)`. -/
def Perishable.save (c : Consts) (txv : Perishable) : Bytes :=
  save_VecPtr Input.save txv.m_vInputs ++ save_VecPtr (Output.save c) txv.m_vOutputs

/-- `load(Archive&, grimm::TxVectors::Perishable&)`. -/
def Perishable.load (c : Consts) : Reader Perishable := do
  let ins ← load_VecPtr Input.load
  let outs ← load_VecPtr (Output.load c Output.fresh)
  pure ⟨ins, outs⟩

/-- `save(Archive&, const grimm::TxVectors::Eternal&)`. -/
def Eternal.save (txv : Eternal) : Bytes := save_VecPtr TxKernel.save txv.m_vKernels

/-- `load(Archive&, grimm::TxVectors::Eternal&)`. -/
def Eternal.load (c : Consts) : Reader Eternal := do
  let ks ← load_VecPtr (TxKernel.load c TxKernel.fresh)
  pure ⟨ks⟩

/-- `save(Archive&, const grimm::Transaction&)`. -/
def Transaction.save (c : Consts) (tx : Transaction) : Bytes :=
  Perishable.save c tx.perishable ++ Eternal.save tx.eternal ++ TxBase.save tx.base

/-- `load(Archive&, grimm::Transaction&)`. -/
def Transaction.load (c : Consts) : Reader Transaction := do
  let p ← Perishable.load c
  let e ← Eternal.load c
  let b ← TxBase.load c
  pure ⟨p, e, b⟩

def Transaction.Valid (c : Consts) (tx : Transaction) : Prop :=
  tx.perishable.m_vInputs.length < 2 ^ 32 ∧ (∀ i ∈ tx.perishable.m_vInputs, i.Valid) ∧
  tx.perishable.m_vOutputs.length < 2 ^ 32 ∧ (∀ o ∈ tx.perishable.m_vOutputs, o.Valid c) ∧
  tx.eternal.m_vKernels.length < 2 ^ 32 ∧ (∀ k ∈ tx.eternal.m_vKernels, k.Valid c) ∧
  tx.base.m_Offset.Valid c

/-! ## Concrete objects used to evaluate the codec -/

/-- A 32-byte value whose last byte is `b`. -/
def exampleBig (b : Nat) : Bytes := List.replicate 31 0 ++ [b]

def examplePoint (b y : Nat) : Point := ⟨exampleBig b, y⟩

def exampleScalar (b : Nat) : Scalar := ⟨exampleBig b⟩

/-- A kernel without nested kernels and without optional fields. -/
def exampleKernel0 : TxKernel :=
  TxKernel.mk (examplePoint 1 1) ⟨examplePoint 2 0, exampleScalar 7⟩ 0 ⟨100, MaxHeight⟩
    none none [] 0 false

/-- A kernel with every optional field and two nested kernels. -/
def exampleKernel1 : TxKernel :=
  TxKernel.mk (examplePoint 3 1) ⟨examplePoint 4 1, exampleScalar 8⟩ 5 ⟨100, 50⟩
    (some ⟨exampleBig 9⟩) (some ⟨exampleBig 10, 9⟩) [exampleKernel0, exampleKernel0] 3 true

/-- A kernel of depth 2, the recursion limit of `exampleConsts`. -/
def exampleKernel2 : TxKernel :=
  TxKernel.mk (examplePoint 5 0) ⟨examplePoint 6 1, exampleScalar 9⟩ 5 ⟨0, 50⟩
    none none [exampleKernel1] 0 true

/-- A kernel of depth 3, one past the recursion limit of `exampleConsts`. -/
def exampleKernel3 : TxKernel :=
  TxKernel.mk (examplePoint 5 0) ⟨examplePoint 6 1, exampleScalar 9⟩ 5 ⟨0, 50⟩
    none none [exampleKernel0, exampleKernel2] 0 false

instance (c : Consts) (tx : Transaction) : Decidable (tx.Valid c) := by
  unfold Transaction.Valid; infer_instance

/-- A valid confidential proof with non-zero scalars and mixed Y signs. -/
def exampleConfidential : Confidential :=
  ⟨⟨examplePoint 1 1, examplePoint 2 0⟩, ⟨examplePoint 3 1, examplePoint 4 1⟩,
    ⟨exampleScalar 5⟩, exampleScalar 6, exampleScalar 7,
    ⟨List.replicate 6 (examplePoint 8 1, examplePoint 9 0), [exampleScalar 10, exampleScalar 11]⟩⟩

/-- A valid public proof with a non-zero signature. -/
def examplePublic : Public :=
  ⟨1000, ⟨examplePoint 12 1, exampleScalar 13⟩, ⟨⟨1, ⟨2⟩, 3⟩, exampleBig 14⟩⟩

/-- A recovery-only output that carries a public proof. -/
def exampleOutputR : Output :=
  ⟨examplePoint 15 0, false, true, none, some examplePublic, 0, uintBig.zero nBytes⟩

/-- The output that decoding the encoding of `exampleOutputR` returns: the signature
of its public proof is zero. -/
def exampleOutputRDecoded : Output :=
  ⟨examplePoint 15 0, false, true, none,
    some ⟨1000, ⟨⟨uintBig.zero nBytes, 0⟩, ⟨uintBig.zero nBytes⟩⟩, ⟨⟨1, ⟨2⟩, 3⟩, exampleBig 14⟩⟩,
    0, uintBig.zero nBytes⟩

/-- A full-mode output with a confidential proof, incubation and asset id. -/
def exampleOutput : Output :=
  ⟨examplePoint 15 1, true, false, some exampleConfidential, none, 7, exampleBig 3⟩

def exampleInput : Input := ⟨examplePoint 16 1⟩

def exampleTransaction : Transaction :=
  ⟨⟨[exampleInput], [exampleOutput]⟩, ⟨[exampleKernel1]⟩, ⟨exampleScalar 17⟩⟩

/-- Eight flag bits packed into a byte, bit `i` under mask `1 <<< i`. -/
def pack8 (b0 b1 b2 b3 b4 b5 b6 b7 : Bool) : Nat :=
  (if b0 then 1 else 0) ||| (if b1 then 2 else 0) ||| (if b2 then 4 else 0) |||
  (if b3 then 8 else 0) ||| (if b4 then 0x10 else 0) ||| (if b5 then 0x20 else 0) |||
  (if b6 then 0x40 else 0) ||| (if b7 then 0x80 else 0)

/-- The reader `rd` decodes the encoding `e` to `x`: on `e` followed by any bytes it
returns `x` and leaves exactly those bytes, and on every proper initial segment of
`e` it fails with `Truncated`. -/
def Decodes {α : Type} (rd : Reader α) (e : Bytes) (x : α) : Prop :=
  (∀ rest, rd (e ++ rest) = .ok (x, rest)) ∧
  (∀ p q, e = p ++ q → q ≠ [] → rd p = .error .Truncated)

/-- The reader `rd` fails with `err` on the bytes `e`, whatever follows them. -/
def FailsWith {α : Type} (rd : Reader α) (e : Bytes) (err : Err) : Prop :=
  ∀ rest, rd (e ++ rest) = .error err

/-- Bit `i` of a bitfield array, as a Boolean: byte `i / 8`, bit `i % 8`. -/
def bitAt (f : Bytes) (i : Nat) : Bool := (f.getD (i / 8) 0).testBit (i % 8)

/-- The Y signs of the cells of `m_pLR`, in the order the loops visit them. -/
def ysOf : List (Point × Point) → List Nat
  | [] => []
  | lr :: rest => lr.1.m_Y :: lr.2.m_Y :: ysOf rest

/-- The cells of the destination array `dst` after `load_nobits` has stored the X
coordinates of `src` into them. -/
def withXof (dst src : List (Point × Point)) : List (Point × Point) :=
  List.zipWith (fun d s => ((⟨s.1.m_X, d.1.m_Y⟩ : Point), (⟨s.2.m_X, d.2.m_Y⟩ : Point))) dst src

/-- The destination arrays have the declared sizes. -/
def InnerProduct.Sized (c : Consts) (v : InnerProduct) : Prop :=
  v.m_pLR.length = c.nCycles ∧ v.m_pCondensed.length = c.nCondensed

/-- What recovery-only decoding yields for the proof `v` in a destination whose
inner-product arrays are `dstTag`: Part3, the evaluation scalar and the inner
product are zero, the rest is `v`'s. -/
def Confidential.redacted (v : Confidential) (dstTag : InnerProduct) : Confidential :=
  ⟨v.m_Part1, v.m_Part2, ⟨Scalar.zero⟩, v.m_Mu, Scalar.zero, dstTag.zeroed⟩

/-- What recovery-only decoding yields for the public proof `p`: the signature is
zero, the rest is `p`'s. -/
def Public.redacted (p : Public) : Public := ⟨p.m_Value, Signature.zero, p.m_Recovery⟩

/-- What decoding the encoding of `o` into a fresh output yields: `o` itself, with
its proofs redacted when the recovery-only flag is set. -/
def Output.decoded (c : Consts) (o : Output) : Output :=
  if o.m_RecoveryOnly then
    ⟨o.m_Commitment, o.m_Coinbase, o.m_RecoveryOnly,
      o.m_pConfidential.map (fun v => v.redacted (InnerProduct.fresh c)),
      o.m_pPublic.map Public.redacted, o.m_Incubation, o.m_AssetID⟩
  else o

/-- What decoding the encoding of a transaction yields: the transaction with every
output in its decoded form. -/
def Transaction.decoded (c : Consts) (tx : Transaction) : Transaction :=
  ⟨⟨tx.perishable.m_vInputs, tx.perishable.m_vOutputs.map (Output.decoded c)⟩, tx.eternal,
    tx.base⟩

/-! ## Chain state -/

/-- `grimm::Difficulty`: the packed 32-bit value. -/
structure Difficulty where
  m_Packed : Nat
  deriving DecidableEq, Repr

/-- `grimm::Block::PoW`: solution indices (a byte array), packed difficulty, nonce
(a `uintBig_t`).  The sizes of the two arrays are those of the object. -/
structure PoW where
  m_Indices : Bytes
  m_Difficulty : Difficulty
  m_Nonce : Bytes
  deriving DecidableEq, Repr

/-- `save(Archive&, const grimm::Block::PoW&)`. -/
def PoW.save (pow : PoW) : Bytes :=
  pow.m_Indices ++ save_u32 pow.m_Difficulty.m_Packed ++ uintBig.save pow.m_Nonce

/-- `load(Archive&, grimm::Block::PoW&)`; `pow` is the destination object, whose
arrays give the number of bytes read. -/
def PoW.load (pow : PoW) : Reader PoW := do
  let indices ← load_bytes pow.m_Indices.length
  let packed ← load_u32
  let nonce ← uintBig.load pow.m_Nonce.length
  pure ⟨indices, ⟨packed⟩, nonce⟩

/-- `grimm::Block::SystemState::Sequence::Prefix`. -/
structure Prefix where
  m_Height : Nat
  m_Prev : Bytes
  m_ChainWork : Bytes
  deriving DecidableEq, Repr

/-- `grimm::Block::SystemState::Sequence::Element`. -/
structure Element where
  m_Kernels : Bytes
  m_Definition : Bytes
  m_TimeStamp : Nat
  m_PoW : PoW
  deriving DecidableEq, Repr

/-- `grimm::Block::SystemState::Full`: the two bases it derives from. -/
structure Full where
  toPrefix : Prefix
  toElement : Element
  deriving DecidableEq, Repr

/-- `save(Archive&, const grimm::Block::SystemState::Sequence::Prefix&)`. -/
def Prefix.save (v : Prefix) : Bytes :=
  save_u64 v.m_Height ++ uintBig.save v.m_Prev ++ uintBig.save v.m_ChainWork

/-- `load(Archive&, grimm::Block::SystemState::Sequence::Prefix&)`. -/
def Prefix.load : Reader Prefix := do
  let height ← load_u64
  let prev ← uintBig.load nBytes
  let chainWork ← uintBig.load nBytes
  pure ⟨height, prev, chainWork⟩

/-- `save(Archive&, const grimm::Block::SystemState::Sequence::Element&)`. -/
def Element.save (v : Element) : Bytes :=
  uintBig.save v.m_Kernels ++ uintBig.save v.m_Definition ++ save_u64 v.m_TimeStamp ++
    PoW.save v.m_PoW

/-- `load(Archive&, grimm::Block::SystemState::Sequence::Element&)`; `v` is the
destination object. -/
def Element.load (v : Element) : Reader Element := do
  let kernels ← uintBig.load nBytes
  let definition ← uintBig.load nBytes
  let timeStamp ← load_u64
  let pow ← PoW.load v.m_PoW
  pure ⟨kernels, definition, timeStamp, pow⟩

/-- `save(Archive&, const grimm::Block::SystemState::Full&)`. -/
def Full.save (v : Full) : Bytes :=
  Prefix.save v.toPrefix ++ Element.save v.toElement

/-- `load(Archive&, grimm::Block::SystemState::Full&)`; `v` is the destination
object. -/
def Full.load (v : Full) : Reader Full := do
  let p ← Prefix.load
  let e ← Element.load v.toElement
  pure ⟨p, e⟩

/-- Structural validity of a full header for a destination `dst`: integers within
their types, hashes of 32 bytes, proof-of-work arrays of the destination's sizes. -/
def Full.Valid (dst v : Full) : Prop :=
  v.toPrefix.m_Height < 2 ^ 64 ∧ v.toPrefix.m_Prev.length = nBytes ∧
  v.toPrefix.m_ChainWork.length = nBytes ∧ v.toElement.m_Kernels.length = nBytes ∧
  v.toElement.m_Definition.length = nBytes ∧ v.toElement.m_TimeStamp < 2 ^ 64 ∧
  v.toElement.m_PoW.m_Indices.length = dst.toElement.m_PoW.m_Indices.length ∧
  v.toElement.m_PoW.m_Difficulty.m_Packed < 2 ^ 32 ∧
  v.toElement.m_PoW.m_Nonce.length = dst.toElement.m_PoW.m_Nonce.length

instance (dst v : Full) : Decidable (Full.Valid dst v) := by
  unfold Full.Valid; infer_instance

/-- A full header used to evaluate the codec. -/
def exampleFull : Full :=
  ⟨⟨1000, exampleBig 1, exampleBig 2⟩,
    ⟨exampleBig 3, exampleBig 4, 1234567, ⟨List.replicate 104 7, ⟨99⟩, List.replicate 8 5⟩⟩⟩

/-- A zeroed destination header whose proof-of-work arrays have 104 and 8 bytes. -/
def exampleFullDst : Full :=
  ⟨⟨0, uintBig.zero nBytes, uintBig.zero nBytes⟩,
    ⟨uintBig.zero nBytes, uintBig.zero nBytes, 0, ⟨List.replicate 104 0, ⟨0⟩, List.replicate 8 0⟩⟩⟩

/-- An output whose asset id is not zero, used as a destination. -/
def exampleOutputDst : Output :=
  ⟨examplePoint 1 1, true, false, none, none, 5, exampleBig 77⟩

/-! ## Owned-or-absent adapters -/

/-- The `std::unique_ptr<T>` adapter, `save`: `sv` is the encoder of `T`. -/
def unique_ptr.save {α : Type} (sv : α → Bytes) (ptr : Option α) : Bytes :=
  match ptr with
  | some t => save_bool true ++ sv t
  | none => save_bool false

/-- The `std::unique_ptr<T>` adapter, `load`: `ptr` is the destination and `ld` the
decoder of `T` into a freshly constructed instance (`ptr.reset(new T())`). -/
def unique_ptr.load {α : Type} (ld : Reader α) (_ptr : Option α) : Reader (Option α) := do
  let b ← load_bool
  if b then do
    let t ← ld
    pure (some t)
  else pure none

/-- The `std::shared_ptr<T>` adapter, `save`. -/
def shared_ptr.save {α : Type} (sv : α → Bytes) (ptr : Option α) : Bytes :=
  match ptr with
  | some t => save_bool true ++ sv t
  | none => save_bool false

/-- The `std::shared_ptr<T>` adapter, `load`. -/
def shared_ptr.load {α : Type} (ld : Reader α) (_ptr : Option α) : Reader (Option α) := do
  let b ← load_bool
  if b then do
    let t ← ld
    pure (some t)
  else pure none

/-! ## Relations between decoders, bytes the encoder never emits -/

/-- Two readers succeed on the same inputs, fail with the same error, and leave the
same bytes; only the decoded values may differ. -/
def SameCursor {α β : Type} (r1 : Reader α) (r2 : Reader β) : Prop :=
  ∀ s, Except.map Prod.snd (r1 s) = Except.map Prod.snd (r2 s)

/-- The three zeroed 32-byte fields (commitment X, nonce X, signature scalar) of a
zero kernel, followed by `extra`. -/
def zeroKernelFields (extra : Bytes) : Bytes :=
  uintBig.zero nBytes ++ (uintBig.zero nBytes ++ (uintBig.zero nBytes ++ extra))

/-- Byte strings the encoder never emits: a zero kernel whose flag byte announces a
fee that is 0, a height min that is 0, a nested list of count 0, an extended block
whose flag byte is 0, and an extended block whose flag byte has only undefined
bits. -/
def nonCanonicalZeroKernels : List Bytes :=
  [2 :: zeroKernelFields (save_u64 0), 4 :: zeroKernelFields (save_u64 0),
    0x40 :: zeroKernelFields (save_u32 0), 0x80 :: zeroKernelFields [0],
    0x80 :: zeroKernelFields [0xF8]]

/-- Two readers have the same outcome on every input, up to the relation `R` on
the decoded values: wherever the first succeeds the second succeeds leaving the
same bytes with a related value, and wherever the first fails the second fails
with the same error. -/
def Agree {α β : Type} (R : α → β → Prop) (r1 : Reader α) (r2 : Reader β) : Prop :=
  ∀ s, (∀ x s1, r1 s = .ok (x, s1) → ∃ y, r2 s = .ok (y, s1) ∧ R x y) ∧
    (∀ e, r1 s = .error e → r2 s = .error e)

/-- The fields of a kernel that the decoder writes whatever the flag bytes are. -/
def TxKernel.sameOverwritten (k1 k2 : TxKernel) : Prop :=
  k1.m_Commitment = k2.m_Commitment ∧ k1.m_Signature = k2.m_Signature ∧
  k1.m_Fee = k2.m_Fee ∧ k1.m_Height = k2.m_Height ∧ k1.m_AssetEmission = k2.m_AssetEmission

/-! ## Block bodies -/

/-- `grimm::Block::BodyBase`: the `grimm::TxBase` it derives from is the only part
the codec touches. -/
structure BodyBase where
  toTxBase : TxBase
  deriving DecidableEq, Repr

/-- `grimm::Block::Body`: the bases it is cast down to by the codec. -/
structure Body where
  base : BodyBase
  perishable : Perishable
  eternal : Eternal

/-- `save(Archive&, const grimm::Block::BodyBase&)`. -/
def BodyBase.save (bb : BodyBase) : Bytes := TxBase.save bb.toTxBase

/-- `load(Archive&, grimm::Block::BodyBase&)`. -/
def BodyBase.load (c : Consts) : Reader BodyBase := do
  let b ← TxBase.load c
  pure ⟨b⟩

/-- `save(Archive&, const grimm::Block::Body&)`. -/
def Body.save (c : Consts) (bb : Body) : Bytes :=
  BodyBase.save bb.base ++ Perishable.save c bb.perishable ++ Eternal.save bb.eternal

/-- `load(Archive&, grimm::Block::Body&)`. -/
def Body.load (c : Consts) : Reader Body := do
  let b ← BodyBase.load c
  let p ← Perishable.load c
  let e ← Eternal.load c
  pure ⟨b, p, e⟩

/-- The transaction that holds the inputs, outputs, kernels and offset of a body. -/
def Body.asTransaction (bb : Body) : Transaction :=
  ⟨bb.perishable, bb.eternal, bb.base.toTxBase⟩

def Body.Valid (c : Consts) (bb : Body) : Prop := bb.asTransaction.Valid c

instance (c : Consts) (bb : Body) : Decidable (bb.Valid c) := by
  unfold Body.Valid; infer_instance

/-- What decoding the encoding of a body yields: the body with every output in its
decoded form. -/
def Body.decoded (c : Consts) (bb : Body) : Body :=
  ⟨bb.base, ⟨bb.perishable.m_vInputs, bb.perishable.m_vOutputs.map (Output.decoded c)⟩,
    bb.eternal⟩

/-- A body without inputs, outputs and kernels, with offset 7. -/
def exampleBody : Body := ⟨⟨⟨exampleScalar 7⟩⟩, ⟨[], []⟩, ⟨[]⟩⟩

/-- The 32 bytes that a transaction decoder takes for the offset when it is given
the encoding of `exampleBody`: the last 20 bytes of the body's offset followed by
the twelve zero bytes of its three counts. -/
def exampleShiftedOffset : Bytes := List.replicate 19 0 ++ [7] ++ List.replicate 12 0

/-- A body with an input, an output and a kernel. -/
def exampleBody1 : Body :=
  ⟨⟨exampleTransaction.base⟩, exampleTransaction.perishable, exampleTransaction.eternal⟩

/-- A reader only removes bytes from the front of the cursor: what it leaves is a
final segment of what it was given. -/
def Consumes {α : Type} (r : Reader α) : Prop :=
  ∀ s x s1, r s = .ok (x, s1) → ∃ u, s = u ++ s1

/-! # Theorems -/

/-! ## Reader laws -/

theorem Reader.bind_apply {α β : Type} (m : Reader α) (f : α → Reader β) (s : Bytes) :
    (m >>= f) s = match m s with
      | .ok (x, s1) => f x s1
      | .error e => .error e := rfl

theorem Reader.bind_ok {α β : Type} {m : Reader α} {f : α → Reader β} {s s1 : Bytes} {x : α}
    (h : m s = .ok (x, s1)) : (m >>= f) s = f x s1 := by
  rw [Reader.bind_apply, h]

theorem Reader.bind_error {α β : Type} {m : Reader α} (f : α → Reader β) {s : Bytes} {e : Err}
    (h : m s = .error e) : (m >>= f) s = .error e := by
  rw [Reader.bind_apply, h]

theorem Decodes.ok0 {α : Type} {rd : Reader α} {e : Bytes} {x : α} (h : Decodes rd e x) :
    rd e = .ok (x, []) := by
  have := h.1 []
  rwa [List.append_nil] at this

theorem Decodes.ret {α : Type} (x : α) : Decodes (Pure.pure x : Reader α) [] x := by
  refine ⟨fun rest => rfl, fun p q h hq => ?_⟩
  have := congrArg List.length h
  simp only [List.length_nil, List.length_append] at this
  exact absurd (List.length_eq_zero.mp (by omega)) hq

theorem Decodes.ret_eq {α : Type} {x y : α} (h : x = y) :
    Decodes (Pure.pure x : Reader α) [] y :=
  h ▸ Decodes.ret x

theorem Decodes.bind {α β : Type} {m : Reader α} {f : α → Reader β} {e1 e2 : Bytes} {x : α}
    {y : β} (h1 : Decodes m e1 x) (h2 : Decodes (f x) e2 y) :
    Decodes (m >>= f) (e1 ++ e2) y := by
  refine ⟨fun rest => ?_, fun p q h hq => ?_⟩
  · rw [List.append_assoc, Reader.bind_ok (h1.1 _)]
    exact h2.1 rest
  · rcases List.append_eq_append_iff.mp h with ⟨a, rfl, hb⟩ | ⟨a, ha, hb⟩
    · rw [Reader.bind_ok (h1.1 a)]
      exact h2.2 a q hb hq
    · by_cases hnil : a = []
      · subst hnil
        simp only [List.append_nil, List.nil_append] at ha hb
        subst ha
        subst hb
        rw [Reader.bind_ok h1.ok0]
        exact h2.2 [] q rfl hq
      · exact Reader.bind_error f (h1.2 p a ha hnil)

theorem Decodes.bind_ret {α β : Type} {m : Reader α} {e : Bytes} {x : α} (g : α → β)
    (h : Decodes m e x) : Decodes (m >>= fun a => Pure.pure (g a)) e (g x) := by
  have := Decodes.bind (f := fun a => (Pure.pure (g a) : Reader β)) h (Decodes.ret (g x))
  rwa [List.append_nil] at this

theorem Decodes.ite {α : Type} {p : Prop} [Decidable p] {m1 m2 : Reader α} {e1 e2 : Bytes}
    {x : α} (h1 : p → Decodes m1 e1 x) (h2 : ¬p → Decodes m2 e2 x) :
    Decodes (if p then m1 else m2) (if p then e1 else e2) x := by
  by_cases h : p
  · simpa only [if_pos h] using h1 h
  · simpa only [if_neg h] using h2 h

theorem Decodes.ite2 {α : Type} {p q : Prop} [Decidable p] [Decidable q] {m1 m2 : Reader α}
    {e1 e2 : Bytes} {x : α} (hpq : p ↔ q) (h1 : q → Decodes m1 e1 x)
    (h2 : ¬q → Decodes m2 e2 x) :
    Decodes (if p then m1 else m2) (if q then e1 else e2) x := by
  by_cases h : q
  · simpa only [if_pos h, if_pos (hpq.mpr h)] using h1 h
  · simpa only [if_neg h, if_neg (fun hp => h (hpq.mp hp))] using h2 h

theorem Decodes.bind_ret_eq {α β : Type} {m : Reader α} {e : Bytes} {x : α} {y : β}
    (g : α → β) (h : Decodes m e x) (hy : g x = y) :
    Decodes (m >>= fun a => Pure.pure (g a)) e y :=
  hy ▸ Decodes.bind_ret g h

/-! ## Archive primitives -/

theorem putBE_length (w n : Nat) : (putBE w n).length = w := by
  induction w with
  | zero => rfl
  | succ w ih => simp [putBE, ih]

theorem foldl_putBE (w n a : Nat) :
    (putBE w n).foldl (fun acc b => acc * 256 + b) a = a * 256 ^ w + n % 256 ^ w := by
  induction w generalizing a with
  | zero => simp [putBE, Nat.mod_one]
  | succ w ih =>
    rw [putBE, List.foldl_cons, ih, Nat.mod_pow_succ (x := n) (b := 256) (k := w)]
    ring

theorem beValue_putBE (w n : Nat) : beValue (putBE w n) = n % 256 ^ w := by
  rw [beValue, foldl_putBE]
  simp

theorem load_bytes_append {n : Nat} {bs : Bytes} (h : bs.length = n) (rest : Bytes) :
    load_bytes n (bs ++ rest) = .ok (bs, rest) := by
  unfold load_bytes
  rw [if_neg (by simp [h]), List.take_left' h, List.drop_left' h]

theorem load_bytes_short {n : Nat} {s : Bytes} (h : s.length < n) :
    load_bytes n s = .error .Truncated := by
  unfold load_bytes
  rw [if_pos h]

theorem load_bytes_decodes {n : Nat} {bs : Bytes} (h : bs.length = n) :
    Decodes (load_bytes n) bs bs := by
  refine ⟨load_bytes_append h, fun p q hpq hq => load_bytes_short ?_⟩
  have h1 := congrArg List.length hpq
  have h2 : q.length ≠ 0 := fun h0 => hq (List.length_eq_zero.mp h0)
  simp only [List.length_append] at h1
  omega

theorem uintBig_load_decodes {n : Nat} {bs : Bytes} (h : bs.length = n) :
    Decodes (uintBig.load n) (uintBig.save bs) bs :=
  load_bytes_decodes h

theorem load_u8_decodes {n : Nat} (h : n < 256) : Decodes load_u8 (save_u8 n) n := by
  refine ⟨fun rest => ?_, fun p q hpq hq => ?_⟩
  · simp [save_u8, load_u8, Nat.mod_eq_of_lt h]
  · have h1 := congrArg List.length hpq
    have h2 : q.length ≠ 0 := fun h0 => hq (List.length_eq_zero.mp h0)
    simp only [save_u8, List.length_append, List.length_singleton] at h1
    have : p = [] := List.length_eq_zero.mp (by omega)
    subst this
    rfl

theorem load_u32_decodes {n : Nat} (h : n < 2 ^ 32) : Decodes load_u32 (save_u32 n) n := by
  have := Decodes.bind_ret beValue (load_bytes_decodes (putBE_length 4 n))
  rw [beValue_putBE, Nat.mod_eq_of_lt (by simpa using h)] at this
  exact this

theorem load_u64_decodes {n : Nat} (h : n < 2 ^ 64) : Decodes load_u64 (save_u64 n) n := by
  have := Decodes.bind_ret beValue (load_bytes_decodes (putBE_length 8 n))
  rw [beValue_putBE, Nat.mod_eq_of_lt (by simpa using h)] at this
  exact this

theorem FourCC_load_decodes {v : FourCC} (h : v.V < 2 ^ 32) :
    Decodes FourCC.load (FourCC.save v) v := by
  have e : v.V % 2 ^ 32 = v.V := Nat.mod_eq_of_lt h
  have e2 : v.V % 256 ^ 4 % 2 ^ 32 = v.V := by
    norm_num at h ⊢
    omega
  have := Decodes.bind_ret (fun x => FourCC.mk (uintBig.Export x))
    (load_bytes_decodes (putBE_length 4 v.V))
  simp only [uintBig.Export, beValue_putBE, e2] at this
  unfold FourCC.save uintBigFrom uintBig.save
  rw [e]
  exact this

/-! ## ECC primitives -/

theorem Scalar.load_append (c : Consts) {bs : Bytes} (h : bs.length = nBytes) (rest : Bytes) :
    Scalar.load c (bs ++ rest) =
      if c.groupOrder ≤ beValue bs then .error .InvalidScalar else .ok (⟨bs⟩, rest) := by
  unfold Scalar.load
  have h1 : uintBig.load nBytes (bs ++ rest) = .ok (bs, rest) := load_bytes_append h rest
  rw [Reader.bind_ok h1]
  show (Scalar.TestValid c ⟨bs⟩ >>= fun _ => Pure.pure (Scalar.mk bs)) rest = _
  by_cases hv : beValue bs < c.groupOrder
  · have hi : (Scalar.mk bs).IsValid c := hv
    rw [if_neg (Nat.not_le.mpr hv), Scalar.TestValid, if_pos hi]
    rfl
  · have hi : ¬ (Scalar.mk bs).IsValid c := hv
    rw [if_pos (Nat.not_lt.mp hv), Scalar.TestValid, if_neg hi]
    rfl

theorem Scalar_load_decodes {c : Consts} {s : Scalar} (h : s.Valid c) :
    Decodes (Scalar.load c) (Scalar.save s) s := by
  refine ⟨fun rest => ?_, fun p q hpq hq => ?_⟩
  · have hv : ¬ c.groupOrder ≤ beValue s.m_Value := by
      have := h.2
      unfold Scalar.IsValid at this
      omega
    show Scalar.load c (s.m_Value ++ rest) = _
    rw [Scalar.load_append c h.1, if_neg hv]
  · unfold Scalar.load
    exact Reader.bind_error _ ((uintBig_load_decodes h.1).2 p q hpq hq)

theorem Point_load_decodes {p : Point} (hx : p.m_X.length = nBytes) (hy : p.m_Y < 256) :
    Decodes Point.load (Point.save p) p :=
  Decodes.bind (uintBig_load_decodes hx) (Decodes.bind_ret (Point.mk p.m_X) (load_u8_decodes hy))

theorem Signature_load_decodes {c : Consts} {s : Signature} (h : s.Valid c) :
    Decodes (Signature.load c) (Signature.save s) s :=
  Decodes.bind (Point_load_decodes h.1.1 (by have := h.1.2; omega))
    (Decodes.bind_ret (Signature.mk s.m_NoncePub) (Scalar_load_decodes h.2))

/-! ## Counted loops -/

theorem loadN_decodes {α : Type} {ld : Reader α} {sv : α → Bytes} (v : List α)
    (h : ∀ x ∈ v, Decodes ld (sv x) x) :
    Decodes (loadN ld v.length) (saveN sv v.length v) v := by
  induction v with
  | nil => exact Decodes.ret []
  | cons x xs ih =>
    exact Decodes.bind (h x (List.mem_cons_self x xs))
      (Decodes.bind_ret (List.cons x) (ih fun y hy => h y (List.mem_cons_of_mem x hy)))

/-! ## Flag bytes -/

theorem pack8_spec (b0 b1 b2 b3 b4 b5 b6 b7 : Bool) :
    pack8 b0 b1 b2 b3 b4 b5 b6 b7 < 256 ∧
    (1 &&& pack8 b0 b1 b2 b3 b4 b5 b6 b7 = if b0 then 1 else 0) ∧
    (1 &&& pack8 b0 b1 b2 b3 b4 b5 b6 b7 ≠ 0 ↔ b0 = true) ∧
    (2 &&& pack8 b0 b1 b2 b3 b4 b5 b6 b7 ≠ 0 ↔ b1 = true) ∧
    (4 &&& pack8 b0 b1 b2 b3 b4 b5 b6 b7 ≠ 0 ↔ b2 = true) ∧
    (8 &&& pack8 b0 b1 b2 b3 b4 b5 b6 b7 ≠ 0 ↔ b3 = true) ∧
    (0x10 &&& pack8 b0 b1 b2 b3 b4 b5 b6 b7 ≠ 0 ↔ b4 = true) ∧
    (0x20 &&& pack8 b0 b1 b2 b3 b4 b5 b6 b7 ≠ 0 ↔ b5 = true) ∧
    (0x40 &&& pack8 b0 b1 b2 b3 b4 b5 b6 b7 ≠ 0 ↔ b6 = true) ∧
    (0x80 &&& pack8 b0 b1 b2 b3 b4 b5 b6 b7 ≠ 0 ↔ b7 = true) := by
  cases b0 <;> cases b1 <;> cases b2 <;> cases b3 <;> cases b4 <;> cases b5 <;> cases b6 <;>
    cases b7 <;> decide

theorem TxKernel.kernel_nFlags_eq (k : TxKernel) :
    k.nFlags = pack8 (decide (k.m_Commitment.m_Y ≠ 0)) (decide (k.m_Fee ≠ 0))
      (decide (k.m_Height.m_Min ≠ 0)) (decide (k.m_Height.m_Max ≠ MaxHeight))
      (decide (k.m_Signature.m_NoncePub.m_Y ≠ 0)) k.m_pHashLock.isSome (!k.m_vNested.isEmpty)
      (decide (k.nFlags2 ≠ 0)) := by
  unfold TxKernel.nFlags pack8
  simp only [decide_eq_true_eq, Bool.not_eq_true']
  cases k.m_vNested.isEmpty <;> rfl

theorem TxKernel.nFlags2_eq (k : TxKernel) :
    k.nFlags2 = pack8 (decide (k.m_AssetEmission ≠ 0)) k.m_pRelativeLock.isSome k.m_CanEmbed
      false false false false false := by
  unfold TxKernel.nFlags2 pack8
  simp

/-! ## Kernels -/

theorem Decodes.after_ret {α β : Type} {a : α} {f : α → Reader β} {e : Bytes} {y : β}
    (h : Decodes (f a) e y) : Decodes (Pure.pure a >>= f) e y :=
  (Decodes.bind (Decodes.ret a) h : Decodes (Pure.pure a >>= f) ([] ++ e) y)

theorem HashLock_load_decodes {x : HashLock} (h : x.m_Preimage.length = nBytes) :
    Decodes HashLock.load (HashLock.save x) x :=
  Decodes.bind_ret HashLock.mk (uintBig_load_decodes h)

theorem RelativeLock_load_decodes {x : RelativeLock} (h : x.m_ID.length = nBytes)
    (hh : x.m_LockHeight < 2 ^ 64) : Decodes RelativeLock.load (RelativeLock.save x) x :=
  Decodes.bind (uintBig_load_decodes h) (Decodes.bind_ret (RelativeLock.mk x.m_ID)
    (load_u64_decodes hh))

theorem TxKernel.TestRecursion_ok {c : Consts} {n : Nat} (h : n ≤ c.s_MaxRecursionDepth) :
    TxKernel.TestRecursion c n = Pure.pure () := by
  unfold TxKernel.TestRecursion
  rw [if_neg (by omega)]

theorem TxKernel.TestRecursion_fail {c : Consts} {n : Nat} (h : c.s_MaxRecursionDepth < n) :
    TxKernel.TestRecursion c n = Reader.fail .RecursionLimitExceeded := by
  unfold TxKernel.TestRecursion
  rw [if_pos h]

theorem TxKernel.saveNested_eq (n : Nat) (l : List TxKernel) :
    TxKernel.saveNested n l = saveN TxKernel.save n l := by
  induction n generalizing l with
  | zero => cases l <;> rfl
  | succ n ih =>
    cases l with
    | nil => rfl
    | cons k ks => rw [TxKernel.saveNested, saveN, ih]

theorem TxKernel.depth_pos_of_nested {k : TxKernel} (h : k.m_vNested ≠ []) : 1 ≤ k.depth := by
  cases k with
  | mk com sig fee h hl rl nested ae ce =>
    cases nested with
    | nil => exact absurd rfl h
    | cons x xs => simp [TxKernel.depth]

theorem TxKernel.load_Recursive_body_decodes (c : Consts) (recurse : Nat → Reader TxKernel)
    (nRecusion : Nat) (k : TxKernel)
    (hmax : c.s_MaxRecursionDepth + 1 < 2 ^ 32)
    (hwf : k.wellFormed c = true)
    (hd : nRecusion + k.depth ≤ c.s_MaxRecursionDepth)
    (ih : ∀ x ∈ k.m_vNested, Decodes (recurse ((nRecusion + 1) % 2 ^ 32)) (TxKernel.save x) x) :
    Decodes (TxKernel.load_Recursive_body c recurse nRecusion TxKernel.fresh)
      (TxKernel.save k) k := by
  obtain ⟨hlt, h1, -, hb1, hb2, hb3, hb4, hb5, hb6, hb7⟩ := TxKernel.kernel_nFlags_eq k ▸ pack8_spec
    (decide (k.m_Commitment.m_Y ≠ 0)) (decide (k.m_Fee ≠ 0))
      (decide (k.m_Height.m_Min ≠ 0)) (decide (k.m_Height.m_Max ≠ MaxHeight))
      (decide (k.m_Signature.m_NoncePub.m_Y ≠ 0)) k.m_pHashLock.isSome (!k.m_vNested.isEmpty)
      (decide (k.nFlags2 ≠ 0))
  obtain ⟨hlt2, -, hc1, hc2, hc3, -⟩ := TxKernel.nFlags2_eq k ▸ pack8_spec
    (decide (k.m_AssetEmission ≠ 0)) k.m_pRelativeLock.isSome k.m_CanEmbed
      false false false false false
  simp only [decide_eq_true_eq] at h1 hb1 hb2 hb3 hb4 hb5 hb6 hb7 hc1 hc2 hc3
  cases k with
  | mk com sig fee h hl rl nested ae ce =>
  unfold TxKernel.load_Recursive_body
  rw [TxKernel.save]
  unfold TxKernel.save_body
  simp only [List.append_assoc]
  simp only [TxKernel.wellFormed, Bool.and_eq_true, decide_eq_true_eq] at hwf
  obtain ⟨⟨hcom, hsig, hfee, hmin, hmaxh, hhl, hrl, hlen, hae⟩, hnested⟩ := hwf
  simp only [TxKernel.m_Commitment, TxKernel.m_Fee, TxKernel.m_Height, TxKernel.m_Signature,
    TxKernel.m_pHashLock, TxKernel.m_vNested, TxKernel.m_AssetEmission, TxKernel.m_CanEmbed,
    TxKernel.m_pRelativeLock] at *
  generalize (mk com sig fee h hl rl nested ae ce).nFlags = F at *
  generalize (mk com sig fee h hl rl nested ae ce).nFlags2 = F2 at *
  refine Decodes.bind (load_u8_decodes hlt) ?_
  refine Decodes.bind (uintBig_load_decodes hcom.1) ?_
  refine Decodes.bind (uintBig_load_decodes hsig.1.1) ?_
  refine Decodes.bind (Scalar_load_decodes hsig.2) ?_
  refine Decodes.bind (x := fee) ?_ ?_
  · exact Decodes.ite (fun _ => load_u64_decodes hfee)
      (fun hn => Decodes.ret_eq (Decidable.not_not.mp fun hne => hn (hb1.mpr hne)).symm)
  refine Decodes.bind (x := h.m_Min) ?_ ?_
  · exact Decodes.ite (fun _ => load_u64_decodes hmin)
      (fun hn => Decodes.ret_eq (Decidable.not_not.mp fun hne => hn (hb2.mpr hne)).symm)
  refine Decodes.bind (x := h.m_Max) ?_ ?_
  · refine Decodes.ite (fun _ => ?_)
      (fun hn => Decodes.ret_eq (Decidable.not_not.mp fun hne => hn (hb3.mpr hne)).symm)
    refine Decodes.bind_ret_eq _ (load_u64_decodes (Nat.mod_lt _ (by norm_num))) ?_
    omega
  refine Decodes.bind (x := hl) ?_ ?_
  · refine Decodes.ite (fun hp => ?_) (fun hn => Decodes.ret_eq ?_)
    · cases hl with
      | none => exact absurd (hb5.mp hp) (by simp)
      | some x => exact Decodes.bind_ret some (HashLock_load_decodes (hhl x rfl))
    · cases hl with
      | none => rfl
      | some x => exact absurd (hb5.mpr rfl) hn
  refine Decodes.bind (x := nested) ?_ ?_
  · refine Decodes.ite (fun hp => ?_) (fun hn => Decodes.ret_eq ?_)
    · have hne : nested ≠ [] := by
        intro h0
        subst h0
        exact absurd (hb6.mp hp) (by simp)
      have hdep := TxKernel.depth_pos_of_nested (k := mk com sig fee h hl rl nested ae ce) hne
      have hn1 : (nRecusion + 1) % 2 ^ 32 = nRecusion + 1 := Nat.mod_eq_of_lt (by omega)
      rw [TxKernel.TestRecursion_ok (by omega), Nat.mod_eq_of_lt hlen, TxKernel.saveNested_eq]
      exact Decodes.after_ret (Decodes.bind (load_u32_decodes hlen) (loadN_decodes nested ih))
    · cases nested with
      | nil => rfl
      | cons x xs => exact absurd (hb6.mpr rfl) hn
  have hy1 : 1 &&& F = com.m_Y := by
    rw [h1]
    have := hcom.2
    split <;> omega
  have hy2 : (if 16 &&& F ≠ 0 then 1 else 0) = sig.m_NoncePub.m_Y := by
    have := hsig.1.2
    by_cases h16 : 16 &&& F ≠ 0
    · have := hb4.mp h16
      rw [if_pos h16]
      omega
    · have : sig.m_NoncePub.m_Y = 0 := Decidable.not_not.mp fun hne => h16 (hb4.mpr hne)
      rw [if_neg h16, this]
  refine Decodes.bind_ret_eq (x := (ae, rl, ce)) _ ?_ ?_
  · refine Decodes.ite2 hb7 (fun hp => ?_) (fun hn => Decodes.ret_eq ?_)
    · refine Decodes.bind (load_u8_decodes hlt2) ?_
      refine Decodes.bind (x := ae) ?_ ?_
      · exact Decodes.ite (fun _ => load_u64_decodes hae)
          (fun hn => Decodes.ret_eq (Decidable.not_not.mp fun hne => hn (hc1.mpr hne)).symm)
      refine Decodes.bind_ret_eq (x := rl) _ ?_ ?_
      · refine Decodes.ite (fun hp => ?_) (fun hn => Decodes.ret_eq ?_)
        · cases rl with
          | none => exact absurd (hc2.mp hp) (by simp)
          | some x =>
            exact Decodes.bind_ret some (RelativeLock_load_decodes (hrl x rfl).1 (hrl x rfl).2)
        · cases rl with
          | none => rfl
          | some x => exact absurd (hc2.mpr rfl) hn
      · cases ce with
        | false => rw [if_neg (fun h4 => absurd (hc3.mp h4) (by simp))]; rfl
        | true => rw [if_pos (hc3.mpr rfl)]
    · have h0 : F2 = 0 := Decidable.not_not.mp hn
      subst h0
      have hae0 : ae = 0 := Decidable.not_not.mp fun hne => absurd (hc1.mpr hne) (by decide)
      have hce0 : ce = false := by
        cases ce with
        | false => rfl
        | true => exact absurd (hc3.mpr rfl) (by decide)
      cases rl with
      | none => rw [hae0, hce0]; rfl
      | some x => exact absurd (hc2.mpr rfl) (by decide)
  · show TxKernel.mk _ _ _ _ _ _ _ _ _ = _
    rw [hy1, hy2]

theorem TxKernel.wellFormedList_mem {c : Consts} {l : List TxKernel} {x : TxKernel}
    (h : TxKernel.wellFormedList c l = true) (hx : x ∈ l) : x.wellFormed c = true := by
  induction l with
  | nil => cases hx
  | cons y ys ih =>
    simp only [TxKernel.wellFormedList, Bool.and_eq_true] at h
    rcases List.mem_cons.mp hx with rfl | hm
    · exact h.1
    · exact ih h.2 hm

theorem TxKernel.wellFormed_nested {c : Consts} {k : TxKernel} (h : k.wellFormed c = true) :
    TxKernel.wellFormedList c k.m_vNested = true := by
  cases k with
  | mk com sig fee h hl rl nested ae ce =>
    simp only [TxKernel.wellFormed, Bool.and_eq_true] at h
    exact h.2

theorem TxKernel.depth_le_depthList {l : List TxKernel} {x : TxKernel} (hx : x ∈ l) :
    x.depth ≤ TxKernel.depthList l := by
  induction l with
  | nil => cases hx
  | cons y ys ih =>
    rw [TxKernel.depthList]
    rcases List.mem_cons.mp hx with rfl | hm
    · exact Nat.le_max_left _ _
    · exact Nat.le_trans (ih hm) (Nat.le_max_right _ _)

theorem TxKernel.depth_eq {k : TxKernel} (h : k.m_vNested ≠ []) :
    k.depth = TxKernel.depthList k.m_vNested + 1 := by
  cases k with
  | mk com sig fee h hl rl nested ae ce =>
    cases nested with
    | nil => exact absurd rfl h
    | cons x xs => rfl

theorem TxKernel.depth_mem_lt {k x : TxKernel} (hx : x ∈ k.m_vNested) : x.depth < k.depth := by
  rw [TxKernel.depth_eq (List.ne_nil_of_mem hx)]
  exact Nat.lt_succ_of_le (TxKernel.depth_le_depthList hx)

/-- Decoding the encoding of a well-formed kernel tree whose depth fits both the
recursion limit and the recursion budget returns the tree. -/
theorem TxKernel.load_Recursive_decodes (c : Consts) (hmax : c.s_MaxRecursionDepth + 1 < 2 ^ 32)
    (fuel : Nat) : ∀ (nRecusion : Nat) (k : TxKernel), k.wellFormed c = true →
      nRecusion + k.depth ≤ c.s_MaxRecursionDepth → k.depth ≤ fuel →
      Decodes (TxKernel.load_Recursive c fuel nRecusion TxKernel.fresh) (TxKernel.save k) k := by
  induction fuel with
  | zero =>
    intro nRecusion k hwf hd hf
    rw [TxKernel.load_Recursive]
    refine TxKernel.load_Recursive_body_decodes c _ nRecusion k hmax hwf hd fun x hx => ?_
    have := TxKernel.depth_mem_lt hx
    omega
  | succ fuel ih =>
    intro nRecusion k hwf hd hf
    rw [TxKernel.load_Recursive]
    refine TxKernel.load_Recursive_body_decodes c _ nRecusion k hmax hwf hd fun x hx => ?_
    have hlt := TxKernel.depth_mem_lt hx
    have hn1 : (nRecusion + 1) % 2 ^ 32 = nRecusion + 1 := Nat.mod_eq_of_lt (by omega)
    rw [hn1]
    exact ih (nRecusion + 1) x
      (TxKernel.wellFormedList_mem (TxKernel.wellFormed_nested hwf) hx) (by omega) (by omega)

theorem TxKernel_load_decodes {c : Consts} (hc : c.WF) {k : TxKernel} (hk : k.Valid c) :
    Decodes (TxKernel.load c TxKernel.fresh) (TxKernel.save k) k :=
  TxKernel.load_Recursive_decodes c hc.1 c.s_MaxRecursionDepth 0 k hk.1
    (by have := hk.2; omega) hk.2

/-! ## Failure propagation -/

theorem FailsWith.bind_left {α β : Type} {m : Reader α} (f : α → Reader β) {e1 : Bytes}
    (e2 : Bytes) {err : Err} (h : FailsWith m e1 err) : FailsWith (m >>= f) (e1 ++ e2) err := by
  intro rest
  rw [List.append_assoc]
  exact Reader.bind_error f (h _)

theorem FailsWith.bind_fails {α β : Type} {m : Reader α} (f : α → Reader β) {e : Bytes}
    {err : Err} (h : FailsWith m e err) : FailsWith (m >>= f) e err :=
  fun rest => Reader.bind_error f (h rest)

theorem FailsWith.bind_right {α β : Type} {m : Reader α} {f : α → Reader β} {e1 e2 : Bytes}
    {x : α} {err : Err} (h1 : Decodes m e1 x) (h2 : FailsWith (f x) e2 err) :
    FailsWith (m >>= f) (e1 ++ e2) err := by
  intro rest
  rw [List.append_assoc, Reader.bind_ok (h1.1 _)]
  exact h2 rest

theorem FailsWith.after_ret_fails {α β : Type} {a : α} {f : α → Reader β} {e : Bytes} {err : Err}
    (h : FailsWith (f a) e err) : FailsWith (Pure.pure a >>= f) e err :=
  (FailsWith.bind_right (Decodes.ret a) h : FailsWith (Pure.pure a >>= f) ([] ++ e) err)

theorem FailsWith.ite_pos {α : Type} {p q : Prop} [Decidable p] [Decidable q] {m1 m2 : Reader α}
    {e1 e2 : Bytes} {err : Err} (hp : p) (hq : q) (h : FailsWith m1 e1 err) :
    FailsWith (if p then m1 else m2) (if q then e1 else e2) err := by
  simpa only [if_pos hp, if_pos hq] using h

/-- A counted loop fails with the error of an element when every element either
decodes or fails with that error, and at least one fails. -/
theorem loadN_fails {α : Type} {ld : Reader α} {sv : α → Bytes} {err : Err} (v : List α)
    (h : ∀ x ∈ v, Decodes ld (sv x) x ∨ FailsWith ld (sv x) err)
    (hex : ∃ x ∈ v, FailsWith ld (sv x) err) :
    FailsWith (loadN ld v.length) (saveN sv v.length v) err := by
  induction v with
  | nil =>
    obtain ⟨x, hx, -⟩ := hex
    cases hx
  | cons y ys ih =>
    rcases h y (List.mem_cons_self y ys) with hy | hy
    · obtain ⟨x, hx, hxf⟩ := hex
      rcases List.mem_cons.mp hx with rfl | hm
      · exact FailsWith.bind_left _ _ hxf
      · exact FailsWith.bind_right hy (FailsWith.bind_fails _
          (ih (fun z hz => h z (List.mem_cons_of_mem y hz)) ⟨x, hm, hxf⟩))
    · exact FailsWith.bind_left _ _ hy

theorem TxKernel.exists_depth_eq_depthList {l : List TxKernel} (h : l ≠ []) :
    ∃ x ∈ l, x.depth = TxKernel.depthList l := by
  induction l with
  | nil => exact absurd rfl h
  | cons y ys ih =>
    rw [TxKernel.depthList]
    by_cases hle : TxKernel.depthList ys ≤ y.depth
    · exact ⟨y, List.mem_cons_self y ys, (Nat.max_eq_left hle).symm⟩
    · have hys : ys ≠ [] := by
        intro h0
        subst h0
        simp [TxKernel.depthList] at hle
      obtain ⟨x, hx, hxd⟩ := ih hys
      exact ⟨x, List.mem_cons_of_mem y hx, by rw [hxd, Nat.max_eq_right (by omega)]⟩

theorem TxKernel.load_Recursive_body_fails (c : Consts) (recurse : Nat → Reader TxKernel)
    (nRecusion : Nat) (k : TxKernel) (err : Err)
    (hwf : k.wellFormed c = true) (hne : k.m_vNested ≠ [])
    (hstage : FailsWith
      (TxKernel.TestRecursion c ((nRecusion + 1) % 2 ^ 32) >>= fun _ =>
        load_u32 >>= fun nCount => loadN (recurse ((nRecusion + 1) % 2 ^ 32)) nCount)
      (save_u32 k.m_vNested.length ++ saveN TxKernel.save k.m_vNested.length k.m_vNested) err) :
    FailsWith (TxKernel.load_Recursive_body c recurse nRecusion TxKernel.fresh)
      (TxKernel.save k) err := by
  obtain ⟨hlt, h1, -, hb1, hb2, hb3, hb4, hb5, hb6, hb7⟩ := TxKernel.kernel_nFlags_eq k ▸ pack8_spec
    (decide (k.m_Commitment.m_Y ≠ 0)) (decide (k.m_Fee ≠ 0))
      (decide (k.m_Height.m_Min ≠ 0)) (decide (k.m_Height.m_Max ≠ MaxHeight))
      (decide (k.m_Signature.m_NoncePub.m_Y ≠ 0)) k.m_pHashLock.isSome (!k.m_vNested.isEmpty)
      (decide (k.nFlags2 ≠ 0))
  simp only [decide_eq_true_eq] at h1 hb1 hb2 hb3 hb4 hb5 hb6 hb7
  cases k with
  | mk com sig fee h hl rl nested ae ce =>
  unfold TxKernel.load_Recursive_body
  rw [TxKernel.save]
  unfold TxKernel.save_body
  simp only [List.append_assoc]
  simp only [TxKernel.wellFormed, Bool.and_eq_true, decide_eq_true_eq] at hwf
  obtain ⟨⟨hcom, hsig, hfee, hmin, hmaxh, hhl, hrl, hlen, hae⟩, hnested⟩ := hwf
  simp only [TxKernel.m_Commitment, TxKernel.m_Fee, TxKernel.m_Height, TxKernel.m_Signature,
    TxKernel.m_pHashLock, TxKernel.m_vNested, TxKernel.m_AssetEmission, TxKernel.m_CanEmbed,
    TxKernel.m_pRelativeLock] at *
  generalize (mk com sig fee h hl rl nested ae ce).nFlags = F at *
  generalize (mk com sig fee h hl rl nested ae ce).nFlags2 = F2 at *
  refine FailsWith.bind_right (load_u8_decodes hlt) ?_
  refine FailsWith.bind_right (uintBig_load_decodes hcom.1) ?_
  refine FailsWith.bind_right (uintBig_load_decodes hsig.1.1) ?_
  refine FailsWith.bind_right (Scalar_load_decodes hsig.2) ?_
  refine FailsWith.bind_right (x := fee) ?_ ?_
  · exact Decodes.ite (fun _ => load_u64_decodes hfee)
      (fun hn => Decodes.ret_eq (Decidable.not_not.mp fun hne => hn (hb1.mpr hne)).symm)
  refine FailsWith.bind_right (x := h.m_Min) ?_ ?_
  · exact Decodes.ite (fun _ => load_u64_decodes hmin)
      (fun hn => Decodes.ret_eq (Decidable.not_not.mp fun hne => hn (hb2.mpr hne)).symm)
  refine FailsWith.bind_right (x := h.m_Max) ?_ ?_
  · refine Decodes.ite (fun _ => ?_)
      (fun hn => Decodes.ret_eq (Decidable.not_not.mp fun hne => hn (hb3.mpr hne)).symm)
    refine Decodes.bind_ret_eq _ (load_u64_decodes (Nat.mod_lt _ (by norm_num))) ?_
    omega
  refine FailsWith.bind_right (x := hl) ?_ ?_
  · refine Decodes.ite (fun hp => ?_) (fun hn => Decodes.ret_eq ?_)
    · cases hl with
      | none => exact absurd (hb5.mp hp) (by simp)
      | some x => exact Decodes.bind_ret some (HashLock_load_decodes (hhl x rfl))
    · cases hl with
      | none => rfl
      | some x => exact absurd (hb5.mpr rfl) hn
  refine FailsWith.bind_left _ _ ?_
  have h64 : 64 &&& F ≠ 0 := by
    cases nested with
    | nil => exact absurd rfl hne
    | cons x xs => exact hb6.mpr rfl
  rw [Nat.mod_eq_of_lt hlen, TxKernel.saveNested_eq]
  exact FailsWith.ite_pos h64 h64 hstage

theorem TxKernel.nested_ne_nil_of_depth_pos {k : TxKernel} (h : 0 < k.depth) :
    k.m_vNested ≠ [] := by
  intro h0
  cases k with
  | mk com sig fee h hl rl nested ae ce =>
    simp only [TxKernel.m_vNested] at h0
    subst h0
    simp only [TxKernel.depth] at h
    omega

theorem FailsWith.fail_bind {α β : Type} (f : α → Reader β) (e : Bytes) (err : Err) :
    FailsWith (Reader.fail err >>= f) e err :=
  fun _ => rfl

/-- Decoding the encoding of a well-formed kernel tree that nests deeper than the
recursion limit allows fails with `RecursionLimitExceeded`. -/
theorem TxKernel.load_Recursive_fails (c : Consts) (hmax : c.s_MaxRecursionDepth + 1 < 2 ^ 32)
    (fuel : Nat) : ∀ (nRecusion : Nat) (k : TxKernel), k.wellFormed c = true →
      nRecusion ≤ c.s_MaxRecursionDepth → c.s_MaxRecursionDepth < nRecusion + k.depth →
      c.s_MaxRecursionDepth - nRecusion ≤ fuel →
      FailsWith (TxKernel.load_Recursive c fuel nRecusion TxKernel.fresh) (TxKernel.save k)
        .RecursionLimitExceeded := by
  induction fuel with
  | zero =>
    intro nRecusion k hwf hn hd hf
    have hne : k.m_vNested ≠ [] := TxKernel.nested_ne_nil_of_depth_pos (by omega)
    rw [TxKernel.load_Recursive]
    refine TxKernel.load_Recursive_body_fails c _ nRecusion k _ hwf hne ?_
    rw [Nat.mod_eq_of_lt (by omega), TxKernel.TestRecursion_fail (by omega)]
    exact FailsWith.fail_bind _ _ _
  | succ fuel ih =>
    intro nRecusion k hwf hn hd hf
    have hne : k.m_vNested ≠ [] := TxKernel.nested_ne_nil_of_depth_pos (by omega)
    rw [TxKernel.load_Recursive]
    refine TxKernel.load_Recursive_body_fails c _ nRecusion k _ hwf hne ?_
    rw [Nat.mod_eq_of_lt (by omega)]
    by_cases hlim : nRecusion + 1 ≤ c.s_MaxRecursionDepth
    · rw [TxKernel.TestRecursion_ok hlim]
      have hwfl := TxKernel.wellFormed_nested hwf
      have hlen : k.m_vNested.length < 2 ^ 32 := by
        cases k with
        | mk com sig fee h hl rl nested ae ce =>
          simp only [TxKernel.wellFormed, Bool.and_eq_true, decide_eq_true_eq] at hwf
          exact hwf.1.2.2.2.2.2.2.2.1
      refine FailsWith.after_ret_fails (FailsWith.bind_right (load_u32_decodes hlen)
        (loadN_fails k.m_vNested (fun x hx => ?_) ?_))
      · by_cases hx1 : nRecusion + 1 + x.depth ≤ c.s_MaxRecursionDepth
        · exact Or.inl (TxKernel.load_Recursive_decodes c hmax fuel (nRecusion + 1) x
            (TxKernel.wellFormedList_mem hwfl hx) hx1 (by omega))
        · exact Or.inr (ih (nRecusion + 1) x (TxKernel.wellFormedList_mem hwfl hx) hlim
            (by omega) (by omega))
      · obtain ⟨x, hx, hxd⟩ := TxKernel.exists_depth_eq_depthList hne
        have hk := TxKernel.depth_eq hne
        exact ⟨x, hx, ih (nRecusion + 1) x (TxKernel.wellFormedList_mem hwfl hx) hlim
          (by omega) (by omega)⟩
    · rw [TxKernel.TestRecursion_fail (by omega)]
      exact FailsWith.fail_bind _ _ _

theorem TxKernel.load_Recursive_body_congr (c : Consts) (r1 r2 : Nat → Reader TxKernel)
    (nRecusion : Nat) (val : TxKernel)
    (h : (TxKernel.TestRecursion c ((nRecusion + 1) % 2 ^ 32) >>= fun _ =>
          load_u32 >>= fun nCount => loadN (r1 ((nRecusion + 1) % 2 ^ 32)) nCount) =
        (TxKernel.TestRecursion c ((nRecusion + 1) % 2 ^ 32) >>= fun _ =>
          load_u32 >>= fun nCount => loadN (r2 ((nRecusion + 1) % 2 ^ 32)) nCount)) :
    TxKernel.load_Recursive_body c r1 nRecusion val =
      TxKernel.load_Recursive_body c r2 nRecusion val := by
  unfold TxKernel.load_Recursive_body
  simp only [h]

/-- The result of `load_Recursive` does not depend on the recursion budget once the
budget covers the nesting that `TestRecursion` still allows. -/
theorem TxKernel.load_Recursive_fuel (c : Consts) (hmax : c.s_MaxRecursionDepth + 1 < 2 ^ 32)
    (f1 : Nat) : ∀ (f2 nRecusion : Nat) (val : TxKernel), nRecusion ≤ c.s_MaxRecursionDepth →
      c.s_MaxRecursionDepth - nRecusion ≤ f1 → c.s_MaxRecursionDepth - nRecusion ≤ f2 →
      TxKernel.load_Recursive c f1 nRecusion val = TxKernel.load_Recursive c f2 nRecusion val := by
  induction f1 with
  | zero =>
    intro f2 nRecusion val hn h1 h2
    cases f2 with
    | zero => rfl
    | succ f2 =>
      rw [TxKernel.load_Recursive, TxKernel.load_Recursive]
      apply TxKernel.load_Recursive_body_congr
      rw [Nat.mod_eq_of_lt (by omega), TxKernel.TestRecursion_fail (by omega)]
      rfl
  | succ f1 ih =>
    intro f2 nRecusion val hn h1 h2
    by_cases hlim : nRecusion + 1 ≤ c.s_MaxRecursionDepth
    · cases f2 with
      | zero => omega
      | succ f2 =>
        rw [TxKernel.load_Recursive, TxKernel.load_Recursive]
        apply TxKernel.load_Recursive_body_congr
        rw [Nat.mod_eq_of_lt (by omega)]
        rw [ih f2 (nRecusion + 1) TxKernel.fresh hlim (by omega) (by omega)]
    · cases f2 with
      | zero =>
        rw [TxKernel.load_Recursive, TxKernel.load_Recursive]
        apply TxKernel.load_Recursive_body_congr
        rw [Nat.mod_eq_of_lt (by omega), TxKernel.TestRecursion_fail (by omega)]
        rfl
      | succ f2 =>
        rw [TxKernel.load_Recursive, TxKernel.load_Recursive]
        apply TxKernel.load_Recursive_body_congr
        rw [Nat.mod_eq_of_lt (by omega), TxKernel.TestRecursion_fail (by omega)]
        rfl

/-! ## Bitfield packer -/

theorem flag_mask (i : Nat) : (1 <<< (i &&& 7)) % 256 = 2 ^ (i % 8) := by
  have h7 : i &&& 7 = i % 8 := Nat.and_pow_two_sub_one_eq_mod i 3
  rw [h7, Nat.one_shiftLeft]
  have h8 : i % 8 < 8 := Nat.mod_lt _ (by norm_num)
  have : 2 ^ (i % 8) < 2 ^ 8 := Nat.pow_lt_pow_right (by norm_num) h8
  exact Nat.mod_eq_of_lt this

theorem and_two_pow_ne_zero (x j : Nat) : (x &&& 2 ^ j ≠ 0) ↔ x.testBit j = true := by
  rw [Nat.and_two_pow]
  cases h : x.testBit j <;> simp

theorem InnerProductFlags.get_eq (f : Bytes) (i : Nat) :
    InnerProductFlags.get f i = if bitAt f i then 1 else 0 := by
  unfold InnerProductFlags.get bitAt
  simp only [flag_mask, Nat.shiftRight_eq_div_pow]
  have h23 : i / 2 ^ 3 = i / 8 := rfl
  rw [h23]
  by_cases h : (f.getD (i / 8) 0).testBit (i % 8) = true
  · rw [if_pos ((and_two_pow_ne_zero _ _).mpr h), if_pos h]
  · rw [if_neg (fun hh => h ((and_two_pow_ne_zero _ _).mp hh)), if_neg h]

theorem InnerProductFlags.length_set (f : Bytes) (i b : Nat) :
    (InnerProductFlags.set f i b).length = f.length := by
  unfold InnerProductFlags.set
  split
  · simp
  · rfl

theorem InnerProductFlags.bitAt_set (f : Bytes) (i b j : Nat) (hi : i / 8 < f.length) :
    bitAt (InnerProductFlags.set f i b) j = true ↔ bitAt f j = true ∨ (i = j ∧ b ≠ 0) := by
  unfold InnerProductFlags.set
  by_cases hb : b ≠ 0
  · simp only [if_pos hb, flag_mask, Nat.shiftRight_eq_div_pow]
    unfold bitAt
    rw [List.getD_eq_getElem?_getD, List.getElem?_set, List.getD_eq_getElem?_getD]
    have h23 : i / 2 ^ 3 = i / 8 := rfl
    rw [h23]
    by_cases hij : i / 8 = j / 8
    · rw [if_pos hij, if_pos hi, Option.getD_some, Nat.testBit_lor, Bool.or_eq_true,
        Nat.testBit_two_pow, decide_eq_true_eq, hij, List.getD_eq_getElem?_getD]
      constructor
      · rintro (h | h)
        · exact Or.inl h
        · exact Or.inr ⟨by omega, hb⟩
      · rintro (h | ⟨h, -⟩)
        · exact Or.inl h
        · exact Or.inr (by omega)
    · rw [if_neg hij, List.getD_eq_getElem?_getD]
      constructor
      · exact fun h => Or.inl h
      · rintro (h | ⟨h, -⟩)
        · exact h
        · exact absurd (by rw [h]) hij
  · simp only [if_neg hb]
    constructor
    · exact fun h => Or.inl h
    · rintro (h | ⟨-, h⟩)
      · exact h
      · exact absurd h hb

theorem bitAt_zero (n j : Nat) : bitAt (List.replicate n 0) j = false := by
  unfold bitAt
  rw [List.getD_eq_getElem?_getD]
  by_cases h : j / 8 < n
  · rw [List.getElem?_replicate, if_pos h]
    exact Nat.zero_testBit _
  · rw [List.getElem?_eq_none (by simpa using h)]
    exact Nat.zero_testBit _

theorem InnerProductFlags.length_saveLoop (l : List (Point × Point)) (f : Bytes) (iBit : Nat) :
    (InnerProductFlags.saveLoop f iBit l).length = f.length := by
  induction l generalizing f iBit with
  | nil => rfl
  | cons lr rest ih =>
    rw [InnerProductFlags.saveLoop, ih, InnerProductFlags.length_set,
      InnerProductFlags.length_set]

theorem InnerProductFlags.bitAt_saveLoop (l : List (Point × Point)) (f : Bytes) (iBit j : Nat)
    (h8 : iBit + 2 * l.length ≤ 8 * f.length) (h32 : iBit + 2 * l.length < 2 ^ 32) :
    bitAt (InnerProductFlags.saveLoop f iBit l) j = true ↔
      bitAt f j = true ∨ (iBit ≤ j ∧ (ysOf l).getD (j - iBit) 0 ≠ 0) := by
  induction l generalizing f iBit with
  | nil =>
    simp [InnerProductFlags.saveLoop, ysOf]
  | cons lr rest ih =>
    simp only [List.length_cons] at h8 h32
    rw [InnerProductFlags.saveLoop, Nat.mod_eq_of_lt (by omega), Nat.mod_eq_of_lt (by omega),
      ih _ _ (by rw [InnerProductFlags.length_set, InnerProductFlags.length_set]; omega)
        (by omega),
      InnerProductFlags.bitAt_set _ _ _ _ (by rw [InnerProductFlags.length_set]; omega),
      InnerProductFlags.bitAt_set _ _ _ _ (by omega)]
    rw [ysOf]
    by_cases h0 : j = iBit
    · subst h0
      simp
    · by_cases h1 : j = iBit + 1
      · subst h1
        simp
      · by_cases hlt : j < iBit
        · have e1 : ¬ iBit ≤ j := by omega
          have e2 : ¬ iBit + 2 ≤ j := by omega
          have e3 : ¬ iBit = j := by omega
          have e4 : ¬ iBit + 1 = j := by omega
          simp [e1, e2, e3, e4]
        · obtain ⟨d, rfl⟩ : ∃ d, j = iBit + 2 + d := ⟨j - iBit - 2, by omega⟩
          have e3 : ¬ iBit = iBit + 2 + d := by omega
          have e4 : ¬ iBit + 1 = iBit + 2 + d := by omega
          have e5 : iBit + 2 + d - iBit = d + 1 + 1 := by omega
          have e6 : iBit + 2 + d - (iBit + 2) = d := by omega
          have e7 : iBit ≤ iBit + 2 + d := by omega
          have e8 : iBit + 2 ≤ iBit + 2 + d := by omega
          simp [e3, e4, e5, e6, e7, e8]

theorem and_mask_mod (x : Nat) : (x &&& 0xFFFFFFF8) % 8 = 0 := by
  have h := Nat.and_pow_two_sub_one_eq_mod (x &&& 0xFFFFFFF8) 3
  have h2 : (x &&& 0xFFFFFFF8) &&& 7 = 0 := by
    rw [Nat.and_assoc]
    exact Nat.and_zero x
  exact h.symm.trans h2

theorem Consts.WF.N_eq {c : Consts} (hc : c.WF) : InnerProductFlags.N c = c.nCycles * 2 :=
  Nat.mod_eq_of_lt hc.2.1

theorem Consts.WF.N_Max_eq {c : Consts} (hc : c.WF) :
    InnerProductFlags.N_Max c = InnerProductFlags.N c + 4 := by
  have := hc.2.2
  omega

theorem Consts.WF.size_eq {c : Consts} (hc : c.WF) :
    8 * (InnerProductFlags.N_Max c >>> 3) = c.nCycles * 2 + 4 := by
  have h1 := hc.N_Max_eq
  have h2 : InnerProductFlags.N_Max c % 8 = 0 := and_mask_mod _
  rw [← hc.N_eq, Nat.shiftRight_eq_div_pow]
  have h23 : InnerProductFlags.N_Max c / 2 ^ 3 = InnerProductFlags.N_Max c / 8 := rfl
  rw [h23]
  omega

theorem ysOf_length (l : List (Point × Point)) : (ysOf l).length = 2 * l.length := by
  induction l with
  | nil => rfl
  | cons lr rest ih =>
    rw [ysOf, List.length_cons, List.length_cons, ih, List.length_cons]
    omega

theorem ysOf_lt (l : List (Point × Point)) (h : ∀ lr ∈ l, lr.1.Valid ∧ lr.2.Valid) (m : Nat) :
    (ysOf l).getD m 0 < 2 := by
  induction l generalizing m with
  | nil => simp [ysOf]
  | cons lr rest ih =>
    have h0 := h lr (List.mem_cons_self lr rest)
    rw [ysOf]
    cases m with
    | zero => exact h0.1.2
    | succ m =>
      cases m with
      | zero => exact h0.2.2
      | succ m =>
        rw [List.getD_cons_succ, List.getD_cons_succ]
        exact ih (fun x hx => h x (List.mem_cons_of_mem lr hx)) m

theorem InnerProductFlags.loadLoop_eq (f : Bytes) (dst src : List (Point × Point)) (iBit : Nat)
    (hlen : dst.length = src.length)
    (hget : ∀ m, m < 2 * src.length → InnerProductFlags.get f (iBit + m) = (ysOf src).getD m 0)
    (h32 : iBit + 2 * src.length < 2 ^ 32) :
    InnerProductFlags.loadLoop f iBit (withXof dst src) = src := by
  induction src generalizing dst iBit with
  | nil =>
    cases dst with
    | nil => rfl
    | cons d ds => cases hlen
  | cons s ss ih =>
    cases dst with
    | nil => cases hlen
    | cons d ds =>
      simp only [List.length_cons] at hlen h32 hget
      have g0 := hget 0 (by omega)
      have g1 := hget 1 (by omega)
      rw [ysOf] at g0 g1
      simp only [Nat.add_zero, List.getD_cons_zero, List.getD_cons_succ] at g0 g1
      rw [withXof, List.zipWith_cons_cons, InnerProductFlags.loadLoop,
        Nat.mod_eq_of_lt (by omega), Nat.mod_eq_of_lt (by omega), g0, g1]
      have := ih ds (iBit + 2) (by omega) (fun m hm => by
        have := hget (m + 2) (by omega)
        rw [ysOf, List.getD_cons_succ, List.getD_cons_succ] at this
        rw [← this]
        congr 1
        omega) (by omega)
      rw [withXof] at this
      rw [this]

theorem Confidential.flagBits_spec {c : Consts} (hc : c.WF) {v : Confidential}
    (hv : v.Valid c) :
    (v.flagBits c).length = InnerProductFlags.N_Max c >>> 3 ∧
    (∀ m, m < 2 * v.m_P_Tag.m_pLR.length →
      InnerProductFlags.get (v.flagBits c) (0 + m) = (ysOf v.m_P_Tag.m_pLR).getD m 0) ∧
    InnerProductFlags.get (v.flagBits c) ((InnerProductFlags.N c + 0) % 2 ^ 32) =
      v.m_Part1.m_A.m_Y ∧
    InnerProductFlags.get (v.flagBits c) ((InnerProductFlags.N c + 1) % 2 ^ 32) =
      v.m_Part1.m_S.m_Y ∧
    InnerProductFlags.get (v.flagBits c) ((InnerProductFlags.N c + 2) % 2 ^ 32) =
      v.m_Part2.m_T1.m_Y ∧
    InnerProductFlags.get (v.flagBits c) ((InnerProductFlags.N c + 3) % 2 ^ 32) =
      v.m_Part2.m_T2.m_Y := by
  obtain ⟨hA, hS, hT1, hT2, -, -, -, hlen, -, hlr, -⟩ := hv
  have hN := hc.N_eq
  have hsz := hc.size_eq
  have hNM := hc.N_Max_eq
  have hlt : InnerProductFlags.N_Max c < 2 ^ 32 :=
    Nat.lt_of_le_of_lt Nat.and_le_left (Nat.mod_lt _ (by norm_num))
  have hzl : (InnerProductFlags.zero c).length = InnerProductFlags.N_Max c >>> 3 := by
    simp [InnerProductFlags.zero]
  have e0 : (InnerProductFlags.N c + 0) % 2 ^ 32 = c.nCycles * 2 := by
    rw [Nat.mod_eq_of_lt (by omega)]; omega
  have e1 : (InnerProductFlags.N c + 1) % 2 ^ 32 = c.nCycles * 2 + 1 := by
    rw [Nat.mod_eq_of_lt (by omega)]; omega
  have e2 : (InnerProductFlags.N c + 2) % 2 ^ 32 = c.nCycles * 2 + 2 := by
    rw [Nat.mod_eq_of_lt (by omega)]; omega
  have e3 : (InnerProductFlags.N c + 3) % 2 ^ 32 = c.nCycles * 2 + 3 := by
    rw [Nat.mod_eq_of_lt (by omega)]; omega
  have hl0 : (InnerProductFlags.save (InnerProductFlags.zero c) v.m_P_Tag).length =
      InnerProductFlags.N_Max c >>> 3 := by
    rw [InnerProductFlags.save, InnerProductFlags.length_saveLoop, hzl]
  have hbit : ∀ j, bitAt (v.flagBits c) j = true ↔
      ((((ysOf v.m_P_Tag.m_pLR).getD j 0 ≠ 0 ∨ (c.nCycles * 2 = j ∧ v.m_Part1.m_A.m_Y ≠ 0)) ∨
        (c.nCycles * 2 + 1 = j ∧ v.m_Part1.m_S.m_Y ≠ 0)) ∨
        (c.nCycles * 2 + 2 = j ∧ v.m_Part2.m_T1.m_Y ≠ 0)) ∨
        (c.nCycles * 2 + 3 = j ∧ v.m_Part2.m_T2.m_Y ≠ 0) := by
    intro j
    unfold Confidential.flagBits
    simp only [e0, e1, e2, e3]
    rw [InnerProductFlags.bitAt_set _ _ _ _ (by
        rw [InnerProductFlags.length_set, InnerProductFlags.length_set,
          InnerProductFlags.length_set, hl0]; omega),
      InnerProductFlags.bitAt_set _ _ _ _ (by
        rw [InnerProductFlags.length_set, InnerProductFlags.length_set, hl0]; omega),
      InnerProductFlags.bitAt_set _ _ _ _ (by rw [InnerProductFlags.length_set, hl0]; omega),
      InnerProductFlags.bitAt_set _ _ _ _ (by rw [hl0]; omega),
      InnerProductFlags.save,
      InnerProductFlags.bitAt_saveLoop _ _ _ _ (by rw [hzl]; omega) (by omega),
      InnerProductFlags.zero, bitAt_zero]
    simp
  have hys : ∀ j, c.nCycles * 2 ≤ j → (ysOf v.m_P_Tag.m_pLR).getD j 0 = 0 := fun j hj =>
    List.getD_eq_default _ _ (by rw [ysOf_length]; omega)
  refine ⟨?_, fun m hm => ?_, ?_, ?_, ?_, ?_⟩
  · unfold Confidential.flagBits
    rw [InnerProductFlags.length_set, InnerProductFlags.length_set,
      InnerProductFlags.length_set, InnerProductFlags.length_set, hl0]
  · have hy := ysOf_lt v.m_P_Tag.m_pLR hlr m
    rw [Nat.zero_add, InnerProductFlags.get_eq]
    by_cases hb : bitAt (v.flagBits c) m = true
    · rw [if_pos hb]
      rcases (hbit m).mp hb with (((h | h) | h) | h) | h <;> omega
    · rw [if_neg hb]
      by_contra hne
      exact hb ((hbit m).mpr (Or.inl (Or.inl (Or.inl (Or.inl (fun h0 => hne h0.symm))))))
  · rw [e0, InnerProductFlags.get_eq]
    have := hys (c.nCycles * 2) (by omega)
    have hY := hA.2
    by_cases hb : bitAt (v.flagBits c) (c.nCycles * 2) = true
    · rw [if_pos hb]
      rcases (hbit _).mp hb with (((h | h) | h) | h) | h <;> omega
    · rw [if_neg hb]
      by_contra hne
      exact hb ((hbit _).mpr (Or.inl (Or.inl (Or.inl (Or.inr ⟨rfl, fun h0 => hne h0.symm⟩)))))
  · rw [e1, InnerProductFlags.get_eq]
    have := hys (c.nCycles * 2 + 1) (by omega)
    have hY := hS.2
    by_cases hb : bitAt (v.flagBits c) (c.nCycles * 2 + 1) = true
    · rw [if_pos hb]
      rcases (hbit _).mp hb with (((h | h) | h) | h) | h <;> omega
    · rw [if_neg hb]
      by_contra hne
      exact hb ((hbit _).mpr (Or.inl (Or.inl (Or.inr ⟨rfl, fun h0 => hne h0.symm⟩))))
  · rw [e2, InnerProductFlags.get_eq]
    have := hys (c.nCycles * 2 + 2) (by omega)
    have hY := hT1.2
    by_cases hb : bitAt (v.flagBits c) (c.nCycles * 2 + 2) = true
    · rw [if_pos hb]
      rcases (hbit _).mp hb with (((h | h) | h) | h) | h <;> omega
    · rw [if_neg hb]
      by_contra hne
      exact hb ((hbit _).mpr (Or.inl (Or.inr ⟨rfl, fun h0 => hne h0.symm⟩)))
  · rw [e3, InnerProductFlags.get_eq]
    have := hys (c.nCycles * 2 + 3) (by omega)
    have hY := hT2.2
    by_cases hb : bitAt (v.flagBits c) (c.nCycles * 2 + 3) = true
    · rw [if_pos hb]
      rcases (hbit _).mp hb with (((h | h) | h) | h) | h <;> omega
    · rw [if_neg hb]
      by_contra hne
      exact hb ((hbit _).mpr (Or.inr ⟨rfl, fun h0 => hne h0.symm⟩))

/-! ## Range proofs -/

theorem load_LR_X_decodes (dst src : List (Point × Point)) (hlen : dst.length = src.length)
    (hx : ∀ lr ∈ src, lr.1.Valid ∧ lr.2.Valid) :
    Decodes (load_LR_X dst) (save_LR_X src) (withXof dst src) := by
  induction src generalizing dst with
  | nil =>
    cases dst with
    | nil => exact Decodes.ret []
    | cons d ds => cases hlen
  | cons s ss ih =>
    cases dst with
    | nil => cases hlen
    | cons d ds =>
      have h0 := hx s (List.mem_cons_self s ss)
      rw [load_LR_X, save_LR_X, List.append_assoc]
      refine Decodes.bind (uintBig_load_decodes h0.1.1) ?_
      refine Decodes.bind (uintBig_load_decodes h0.2.1) ?_
      exact Decodes.bind_ret_eq _
        (ih ds (by simpa using hlen) (fun x hm => hx x (List.mem_cons_of_mem s hm))) rfl

theorem load_Condensed_decodes {c : Consts} (dst src : List Scalar)
    (hlen : dst.length = src.length) (hx : ∀ s ∈ src, s.Valid c) :
    Decodes (load_Condensed c dst) (save_Condensed src) src := by
  induction src generalizing dst with
  | nil =>
    cases dst with
    | nil => exact Decodes.ret []
    | cons d ds => cases hlen
  | cons s ss ih =>
    cases dst with
    | nil => cases hlen
    | cons d ds =>
      rw [load_Condensed, save_Condensed]
      refine Decodes.bind (Scalar_load_decodes (hx s (List.mem_cons_self s ss))) ?_
      exact Decodes.bind_ret_eq _
        (ih ds (by simpa using hlen) (fun x hm => hx x (List.mem_cons_of_mem s hm))) rfl

theorem load_nobits_decodes {c : Consts} (dst src : InnerProduct)
    (h1 : dst.m_pLR.length = src.m_pLR.length)
    (h2 : dst.m_pCondensed.length = src.m_pCondensed.length) (hv : src.Valid c) :
    Decodes (load_nobits c dst) (save_nobits src)
      ⟨withXof dst.m_pLR src.m_pLR, src.m_pCondensed⟩ :=
  Decodes.bind (load_LR_X_decodes _ _ h1 hv.2.2.1)
    (Decodes.bind_ret_eq _ (load_Condensed_decodes _ _ h2 hv.2.2.2) rfl)

/-- Full mode: the encoding of a valid confidential proof decodes to the proof. -/
theorem Confidential_load_full_decodes {c : Consts} (hc : c.WF) (dst : Confidential)
    (hd : dst.m_P_Tag.Sized c) {v : Confidential} (hv : v.Valid c) :
    Decodes (Confidential.load c dst false) (Confidential.save c v false) v := by
  obtain ⟨hflen, hfys, hf0, hf1, hf2, hf3⟩ := Confidential.flagBits_spec hc hv
  have hv' := hv
  obtain ⟨hA, hS, hT1, hT2, hTau, hMu, htDot, hP⟩ := hv'
  unfold Confidential.load Confidential.save
  simp only [List.append_assoc, Bool.false_eq_true, if_false]
  refine Decodes.bind (uintBig_load_decodes hA.1) ?_
  refine Decodes.bind (uintBig_load_decodes hS.1) ?_
  refine Decodes.bind (uintBig_load_decodes hT1.1) ?_
  refine Decodes.bind (uintBig_load_decodes hT2.1) ?_
  refine Decodes.bind (Scalar_load_decodes hTau) ?_
  refine Decodes.bind (Scalar_load_decodes hMu) ?_
  refine Decodes.bind (Scalar_load_decodes htDot) ?_
  refine Decodes.bind (load_nobits_decodes dst.m_P_Tag v.m_P_Tag (hd.1.trans hP.1.symm)
    (hd.2.trans hP.2.1.symm) hP) ?_
  refine Decodes.bind_ret_eq _ (load_bytes_decodes hflen) ?_
  rw [hf0, hf1, hf2, hf3]
  unfold InnerProductFlags.load
  simp only
  rw [InnerProductFlags.loadLoop_eq _ _ _ 0 (hd.1.trans hP.1.symm) hfys
    (by have := hc.2.1; rw [hP.1]; omega)]

theorem Decodes.ite_left {α : Type} {p : Prop} [Decidable p] {m1 m2 : Reader α} {e : Bytes}
    {x : α} (hp : p) (h : Decodes m1 e x) : Decodes (if p then m1 else m2) e x := by
  rwa [if_pos hp]

theorem Decodes.ite_right {α : Type} {p : Prop} [Decidable p] {m1 m2 : Reader α} {e : Bytes}
    {x : α} (hp : ¬p) (h : Decodes m2 e x) : Decodes (if p then m1 else m2) e x := by
  rwa [if_neg hp]

theorem Confidential.conf_nFlags_eq (v : Confidential) :
    v.nFlags = pack8 (decide (v.m_Part1.m_A.m_Y ≠ 0)) (decide (v.m_Part1.m_S.m_Y ≠ 0))
      (decide (v.m_Part2.m_T1.m_Y ≠ 0)) (decide (v.m_Part2.m_T2.m_Y ≠ 0))
      false false false false := by
  unfold Confidential.nFlags pack8
  simp

theorem ite_of_iff_ne_zero {p : Prop} [Decidable p] {y : Nat} (h : p ↔ y ≠ 0) (hy : y < 2) :
    (if p then 1 else 0) = y := by
  by_cases hp : p
  · have := h.mp hp
    rw [if_pos hp]
    omega
  · have : y = 0 := Decidable.not_not.mp fun hne => hp (h.mpr hne)
    rw [if_neg hp, this]

/-- Recovery-only mode: the encoding of a valid confidential proof decodes to its
redacted form. -/
theorem Confidential_load_recovery_decodes {c : Consts} (dst : Confidential) {v : Confidential}
    (hA : v.m_Part1.m_A.Valid) (hS : v.m_Part1.m_S.Valid) (hT1 : v.m_Part2.m_T1.Valid)
    (hT2 : v.m_Part2.m_T2.Valid) (hMu : v.m_Mu.Valid c) :
    Decodes (Confidential.load c dst true) (Confidential.save c v true)
      (v.redacted dst.m_P_Tag) := by
  obtain ⟨hlt, -, hb0, hb1, hb2, hb3, -⟩ := Confidential.conf_nFlags_eq v ▸ pack8_spec
    (decide (v.m_Part1.m_A.m_Y ≠ 0)) (decide (v.m_Part1.m_S.m_Y ≠ 0))
      (decide (v.m_Part2.m_T1.m_Y ≠ 0)) (decide (v.m_Part2.m_T2.m_Y ≠ 0))
      false false false false
  simp only [decide_eq_true_eq] at hb0 hb1 hb2 hb3
  unfold Confidential.load Confidential.save
  simp only [List.append_assoc, if_true]
  refine Decodes.bind (uintBig_load_decodes hA.1) ?_
  refine Decodes.bind (uintBig_load_decodes hS.1) ?_
  refine Decodes.bind (uintBig_load_decodes hT1.1) ?_
  refine Decodes.bind (uintBig_load_decodes hT2.1) ?_
  refine Decodes.bind (Scalar_load_decodes hMu) ?_
  refine Decodes.bind_ret_eq _ (load_u8_decodes hlt) ?_
  rw [ite_of_iff_ne_zero hb0 hA.2, ite_of_iff_ne_zero hb1 hS.2, ite_of_iff_ne_zero hb2 hT1.2,
    ite_of_iff_ne_zero hb3 hT2.2]
  rfl

theorem Public_load_full_decodes {c : Consts} {p : Public} (hp : p.Valid c) :
    Decodes (Public.load c false) (Public.save p false) p := by
  obtain ⟨hval, hsig, hidx, htype, hsub, hck⟩ := hp
  unfold Public.load Public.save
  simp only [List.append_assoc, Bool.not_false, Bool.false_eq_true, if_true, if_false]
  refine Decodes.bind (load_u64_decodes hval) ?_
  refine Decodes.bind (Signature_load_decodes hsig) ?_
  refine Decodes.bind (load_u64_decodes hidx) ?_
  refine Decodes.bind (FourCC_load_decodes htype) ?_
  refine Decodes.bind (load_u32_decodes hsub) ?_
  exact Decodes.bind_ret_eq _ (uintBig_load_decodes hck) rfl

theorem Public_load_recovery_decodes {c : Consts} {p : Public} (hp : p.Valid c) :
    Decodes (Public.load c true) (Public.save p true) p.redacted := by
  obtain ⟨hval, hsig, hidx, htype, hsub, hck⟩ := hp
  unfold Public.load Public.save
  simp only [List.append_assoc, Bool.not_true, Bool.false_eq_true, if_true, if_false,
    List.nil_append]
  refine Decodes.bind (load_u64_decodes hval) ?_
  refine Decodes.after_ret ?_
  refine Decodes.bind (load_u64_decodes hidx) ?_
  refine Decodes.bind (FourCC_load_decodes htype) ?_
  refine Decodes.bind (load_u32_decodes hsub) ?_
  exact Decodes.bind_ret_eq _ (uintBig_load_decodes hck) rfl

theorem Input_load_decodes {i : Input} (hi : i.Valid) :
    Decodes Input.load (Input.save i) i := by
  unfold Input.load Input.save
  have hy := hi.2
  have hlt : (if i.m_Commitment.m_Y ≠ 0 then 1 else 0) < 256 := by split <;> omega
  refine Decodes.bind (load_u8_decodes hlt) ?_
  refine Decodes.bind_ret_eq _ (uintBig_load_decodes hi.1) ?_
  have : 1 &&& (if i.m_Commitment.m_Y ≠ 0 then 1 else 0) = i.m_Commitment.m_Y := by
    by_cases h0 : i.m_Commitment.m_Y = 0
    · rw [h0]; rfl
    · have h1 : i.m_Commitment.m_Y = 1 := by omega
      rw [h1]; rfl
  rw [this]

/-! ## Outputs -/

theorem Output.output_nFlags_eq (o : Output) :
    o.nFlags = pack8 (decide (o.m_Commitment.m_Y ≠ 0)) o.m_Coinbase o.m_pConfidential.isSome
      o.m_pPublic.isSome (decide (o.m_Incubation ≠ 0)) (!uintBig.isZero o.m_AssetID)
      o.m_RecoveryOnly false := by
  unfold Output.nFlags pack8
  simp only [decide_eq_true_eq, Bool.not_eq_true', Bool.false_eq_true, if_false, Nat.or_zero]
  cases uintBig.isZero o.m_AssetID <;> rfl

theorem uintBig.eq_zero_of_isZero {v : Bytes} (h : uintBig.isZero v = true) :
    v = uintBig.zero v.length := by
  induction v with
  | nil => rfl
  | cons b bs ih =>
    simp only [uintBig.isZero, List.all_cons, Bool.and_eq_true, beq_iff_eq] at h
    rw [List.length_cons, uintBig.zero, List.replicate_succ, h.1]
    congr 1
    exact ih h.2

theorem InnerProduct.fresh_sized (c : Consts) : (InnerProduct.fresh c).Sized c := by
  simp [InnerProduct.Sized, InnerProduct.fresh]

/-- The encoding of a valid output decodes, into a fresh output, to the output with
its proofs redacted when the recovery-only flag is set. -/
theorem Output_load_decodes {c : Consts} (hc : c.WF) {o : Output} (ho : o.Valid c) :
    Decodes (Output.load c Output.fresh) (Output.save c o) (o.decoded c) := by
  obtain ⟨hlt, h1, -, hb1, hb2, hb3, hb4, hb5, hb6, -⟩ := Output.output_nFlags_eq o ▸ pack8_spec
    (decide (o.m_Commitment.m_Y ≠ 0)) o.m_Coinbase o.m_pConfidential.isSome
      o.m_pPublic.isSome (decide (o.m_Incubation ≠ 0)) (!uintBig.isZero o.m_AssetID)
      o.m_RecoveryOnly false
  simp only [decide_eq_true_eq, Bool.not_eq_true'] at h1 hb1 hb2 hb3 hb4 hb5 hb6
  obtain ⟨hcom, hconf, hpub, hinc, hasset⟩ := ho
  unfold Output.load Output.save
  simp only [List.append_assoc]
  generalize o.nFlags = F at *
  have hro : decide (0x40 &&& F ≠ 0) = o.m_RecoveryOnly := by
    cases hr : o.m_RecoveryOnly with
    | false =>
      rw [decide_eq_false_iff_not]
      exact fun h => absurd (hb6.mp h) (by simp [hr])
    | true =>
      rw [decide_eq_true_eq]
      exact hb6.mpr hr
  have hcb : decide (2 &&& F ≠ 0) = o.m_Coinbase := by
    cases hr : o.m_Coinbase with
    | false =>
      rw [decide_eq_false_iff_not]
      exact fun h => absurd (hb1.mp h) (by simp [hr])
    | true =>
      rw [decide_eq_true_eq]
      exact hb1.mpr hr
  have hy1 : 1 &&& F = o.m_Commitment.m_Y := by
    rw [h1]
    have := hcom.2
    split <;> omega
  refine Decodes.bind (load_u8_decodes hlt) ?_
  refine Decodes.bind (uintBig_load_decodes hcom.1) ?_
  simp only [hro, hcb, hy1]
  refine Decodes.bind (x := (o.decoded c).m_pConfidential) ?_ ?_
  · cases hcf : o.m_pConfidential with
    | none =>
      have hn : ¬ 4 &&& F ≠ 0 := fun h => absurd (hb2.mp h) (by simp [hcf])
      refine Decodes.ite_right hn (Decodes.ret_eq ?_)
      unfold Output.decoded
      split <;> simp [hcf, Output.fresh]
    | some v =>
      have hp : 4 &&& F ≠ 0 := hb2.mpr (by simp [hcf])
      have hv := hconf v (by simp [hcf])
      refine Decodes.ite_left hp ?_
      cases hr : o.m_RecoveryOnly with
      | false =>
        refine Decodes.bind_ret_eq _ (Confidential_load_full_decodes hc _
          (InnerProduct.fresh_sized c) hv) ?_
        simp [Output.decoded, hr, hcf]
      | true =>
        refine Decodes.bind_ret_eq _ (Confidential_load_recovery_decodes _
          hv.1 hv.2.1 hv.2.2.1 hv.2.2.2.1 hv.2.2.2.2.2.1) ?_
        simp [Output.decoded, hr, hcf, Confidential.fresh]
  refine Decodes.bind (x := (o.decoded c).m_pPublic) ?_ ?_
  · cases hcf : o.m_pPublic with
    | none =>
      have hn : ¬ 8 &&& F ≠ 0 := fun h => absurd (hb3.mp h) (by simp [hcf])
      refine Decodes.ite_right hn (Decodes.ret_eq ?_)
      unfold Output.decoded
      split <;> simp [hcf, Output.fresh]
    | some p =>
      have hp : 8 &&& F ≠ 0 := hb3.mpr (by simp [hcf])
      have hv := hpub p (by simp [hcf])
      refine Decodes.ite_left hp ?_
      cases hr : o.m_RecoveryOnly with
      | false =>
        refine Decodes.bind_ret_eq _ (Public_load_full_decodes hv) ?_
        simp [Output.decoded, hr, hcf]
      | true =>
        refine Decodes.bind_ret_eq _ (Public_load_recovery_decodes hv) ?_
        simp [Output.decoded, hr, hcf]
  refine Decodes.bind (x := o.m_Incubation) ?_ ?_
  · exact Decodes.ite2 hb4 (fun _ => load_u64_decodes hinc)
      (fun hn => Decodes.ret_eq (Decidable.not_not.mp hn).symm)
  refine Decodes.bind_ret_eq (x := o.m_AssetID) _ ?_ ?_
  · refine Decodes.ite (fun _ => uintBig_load_decodes hasset) (fun hn => Decodes.ret_eq ?_)
    have hz : uintBig.isZero o.m_AssetID = true := by
      cases hz : uintBig.isZero o.m_AssetID with
      | true => rfl
      | false => exact absurd (hb5.mpr hz) hn
    have := uintBig.eq_zero_of_isZero hz
    rw [hasset] at this
    exact this.symm
  · unfold Output.decoded
    split <;> rfl

/-! ## Collections and transactions -/

theorem loadN_decodes_map {α : Type} {ld : Reader α} {sv : α → Bytes} (g : α → α) (v : List α)
    (h : ∀ x ∈ v, Decodes ld (sv x) (g x)) :
    Decodes (loadN ld v.length) (saveN sv v.length v) (v.map g) := by
  induction v with
  | nil => exact Decodes.ret []
  | cons x xs ih =>
    exact Decodes.bind (h x (List.mem_cons_self x xs))
      (Decodes.bind_ret (List.cons (g x)) (ih fun y hy => h y (List.mem_cons_of_mem x hy)))

theorem uintBigFrom_length (n : Nat) : (uintBigFrom n).length = 4 := putBE_length 4 _

theorem Export_uintBigFrom {n : Nat} (h : n < 2 ^ 32) : uintBig.Export (uintBigFrom n) = n := by
  unfold uintBig.Export uintBigFrom
  rw [beValue_putBE, Nat.mod_eq_of_lt h]
  norm_num at h ⊢
  omega

theorem load_VecPtr_decodes {α : Type} {ld : Reader α} {sv : α → Bytes} (g : α → α)
    (v : List α) (hlen : v.length < 2 ^ 32) (h : ∀ x ∈ v, Decodes ld (sv x) (g x)) :
    Decodes (load_VecPtr ld) (save_VecPtr sv v) (v.map g) := by
  unfold load_VecPtr save_VecPtr
  simp only [Nat.mod_eq_of_lt hlen]
  refine Decodes.bind (uintBig_load_decodes (uintBigFrom_length _)) ?_
  simp only [Export_uintBigFrom hlen]
  exact loadN_decodes_map g v h

theorem Perishable_load_decodes {c : Consts} (hc : c.WF) {p : Perishable}
    (hil : p.m_vInputs.length < 2 ^ 32) (hi : ∀ i ∈ p.m_vInputs, i.Valid)
    (hol : p.m_vOutputs.length < 2 ^ 32) (ho : ∀ o ∈ p.m_vOutputs, o.Valid c) :
    Decodes (Perishable.load c) (Perishable.save c p)
      ⟨p.m_vInputs, p.m_vOutputs.map (Output.decoded c)⟩ := by
  have h1 := load_VecPtr_decodes id p.m_vInputs hil (fun x hx => Input_load_decodes (hi x hx))
  have h2 := load_VecPtr_decodes (Output.decoded c) p.m_vOutputs hol
    (fun x hx => Output_load_decodes hc (ho x hx))
  rw [List.map_id] at h1
  exact Decodes.bind h1 (Decodes.bind_ret_eq _ h2 rfl)

theorem Eternal_load_decodes {c : Consts} (hc : c.WF) {e : Eternal}
    (hkl : e.m_vKernels.length < 2 ^ 32) (hk : ∀ k ∈ e.m_vKernels, k.Valid c) :
    Decodes (Eternal.load c) (Eternal.save e) e := by
  have h3 := load_VecPtr_decodes id e.m_vKernels hkl
    (fun x hx => TxKernel_load_decodes hc (hk x hx))
  rw [List.map_id] at h3
  exact Decodes.bind_ret_eq _ h3 rfl

theorem TxBase_load_decodes {c : Consts} {b : TxBase} (h : b.m_Offset.Valid c) :
    Decodes (TxBase.load c) (TxBase.save b) b :=
  Decodes.bind_ret_eq _ (Scalar_load_decodes h) rfl

theorem Transaction_load_decodes {c : Consts} (hc : c.WF) {tx : Transaction}
    (ht : tx.Valid c) :
    Decodes (Transaction.load c) (Transaction.save c tx) (tx.decoded c) := by
  obtain ⟨hil, hi, hol, ho, hkl, hk, hoff⟩ := ht
  unfold Transaction.load Transaction.save
  rw [List.append_assoc]
  refine Decodes.bind (Perishable_load_decodes hc hil hi hol ho) ?_
  refine Decodes.bind (Eternal_load_decodes hc hkl hk) ?_
  exact Decodes.bind_ret_eq _ (TxBase_load_decodes hoff) rfl

theorem saveN_eq_flatten {α : Type} (sv : α → Bytes) (v : List α) :
    saveN sv v.length v = (v.map sv).flatten := by
  induction v with
  | nil => rfl
  | cons x xs ih => rw [List.length_cons, saveN, ih, List.map_cons, List.flatten_cons]

theorem loadN_append {α : Type} {ld : Reader α} {sv : α → Bytes} (v : List α)
    (h : ∀ x ∈ v, ∀ rest, ld (sv x ++ rest) = .ok (x, rest)) (rest : Bytes) :
    loadN ld v.length (saveN sv v.length v ++ rest) = .ok (v, rest) := by
  induction v with
  | nil => rfl
  | cons x xs ih =>
    rw [List.length_cons, saveN, loadN, List.append_assoc,
      Reader.bind_ok (h x (List.mem_cons_self x xs) _),
      Reader.bind_ok (ih fun y hy => h y (List.mem_cons_of_mem x hy))]
    rfl

theorem PoW_load_decodes (dst p : PoW) (h1 : p.m_Indices.length = dst.m_Indices.length)
    (h2 : p.m_Difficulty.m_Packed < 2 ^ 32) (h3 : p.m_Nonce.length = dst.m_Nonce.length) :
    Decodes (PoW.load dst) (PoW.save p) p := by
  unfold PoW.load PoW.save
  rw [List.append_assoc]
  refine Decodes.bind (load_bytes_decodes h1) ?_
  refine Decodes.bind (load_u32_decodes h2) ?_
  exact Decodes.bind_ret_eq _ (uintBig_load_decodes h3) rfl

theorem Prefix_load_decodes {p : Prefix} (h1 : p.m_Height < 2 ^ 64)
    (h2 : p.m_Prev.length = nBytes) (h3 : p.m_ChainWork.length = nBytes) :
    Decodes Prefix.load (Prefix.save p) p := by
  unfold Prefix.load Prefix.save
  rw [List.append_assoc]
  refine Decodes.bind (load_u64_decodes h1) ?_
  refine Decodes.bind (uintBig_load_decodes h2) ?_
  exact Decodes.bind_ret_eq _ (uintBig_load_decodes h3) rfl

theorem Element_load_decodes (dst e : Element) (h1 : e.m_Kernels.length = nBytes)
    (h2 : e.m_Definition.length = nBytes) (h3 : e.m_TimeStamp < 2 ^ 64)
    (h4 : e.m_PoW.m_Indices.length = dst.m_PoW.m_Indices.length)
    (h5 : e.m_PoW.m_Difficulty.m_Packed < 2 ^ 32)
    (h6 : e.m_PoW.m_Nonce.length = dst.m_PoW.m_Nonce.length) :
    Decodes (Element.load dst) (Element.save e) e := by
  unfold Element.load Element.save
  simp only [List.append_assoc]
  refine Decodes.bind (uintBig_load_decodes h1) ?_
  refine Decodes.bind (uintBig_load_decodes h2) ?_
  refine Decodes.bind (load_u64_decodes h3) ?_
  exact Decodes.bind_ret_eq _ (PoW_load_decodes dst.m_PoW e.m_PoW h4 h5 h6) rfl

/-! ## Decoding of arbitrary bytes -/

theorem Reader.bind_ok_inv {α β : Type} {m : Reader α} {f : α → Reader β} {s : Bytes}
    {r : β × Bytes} (h : (m >>= f) s = .ok r) :
    ∃ x s1, m s = .ok (x, s1) ∧ f x s1 = .ok r := by
  rw [Reader.bind_apply] at h
  cases hm : m s with
  | error e =>
    rw [hm] at h
    cases h
  | ok p =>
    obtain ⟨x, s1⟩ := p
    rw [hm] at h
    exact ⟨x, s1, rfl, h⟩

theorem Reader.ret_ok_inv {α : Type} {x : α} {s : Bytes} {r : α × Bytes}
    (h : (Pure.pure x : Reader α) s = .ok r) : r = (x, s) := by
  cases h
  rfl

theorem Reader.ite_ret_inv {α : Type} {p : Prop} [Decidable p] {m : Reader α} {v x : α}
    {s s1 : Bytes} (hp : ¬p) (h : (if p then m else Pure.pure v) s = .ok (x, s1)) :
    x = v ∧ s1 = s := by
  rw [if_neg hp] at h
  have := Reader.ret_ok_inv h
  simp only [Prod.mk.injEq] at this
  exact this

/-- What a successful run of the body of `load_Recursive` on bytes with flag byte `F`
tells about the decoded kernel: the fields whose bit is clear in `F` hold their
default, or are those of the destination `val` where the decoder has no default. -/
theorem TxKernel.load_Recursive_body_inv (c : Consts) (recurse : Nat → Reader TxKernel)
    (nRecusion : Nat) (val : TxKernel) (F : Nat) (t : Bytes) (k : TxKernel) (rest : Bytes)
    (h : TxKernel.load_Recursive_body c recurse nRecusion val (F :: t) = .ok (k, rest)) :
    (2 &&& F = 0 → k.m_Fee = 0) ∧ (4 &&& F = 0 → k.m_Height.m_Min = 0) ∧
    (8 &&& F = 0 → k.m_Height.m_Max = MaxHeight) ∧
    (8 &&& F ≠ 0 → ∃ s1 dh s2, load_u64 s1 = .ok (dh, s2) ∧
      k.m_Height.m_Max = (k.m_Height.m_Min + dh) % 2 ^ 64) ∧
    (0x20 &&& F = 0 → k.m_pHashLock = val.m_pHashLock) ∧
    (0x40 &&& F = 0 → k.m_vNested = val.m_vNested) ∧
    (0x80 &&& F = 0 → k.m_pRelativeLock = val.m_pRelativeLock ∧
      k.m_CanEmbed = val.m_CanEmbed) ∧
    (0x80 &&& F = 0 → k.m_AssetEmission = 0) := by
  unfold TxKernel.load_Recursive_body at h
  have e0 : load_u8 (F :: t) = .ok (F, t) := rfl
  rw [Reader.bind_ok e0] at h
  obtain ⟨cX, s1, -, h⟩ := Reader.bind_ok_inv h
  obtain ⟨nX, s2, -, h⟩ := Reader.bind_ok_inv h
  obtain ⟨sk, s3, -, h⟩ := Reader.bind_ok_inv h
  obtain ⟨fee, s4, hfee, h⟩ := Reader.bind_ok_inv h
  obtain ⟨hMin, s5, hmin, h⟩ := Reader.bind_ok_inv h
  obtain ⟨hMax, s6, hmaxr, h⟩ := Reader.bind_ok_inv h
  obtain ⟨hl, s7, hhl, h⟩ := Reader.bind_ok_inv h
  obtain ⟨nested, s8, hnested, h⟩ := Reader.bind_ok_inv h
  obtain ⟨ext, s9, hext, h⟩ := Reader.bind_ok_inv h
  have hk := Reader.ret_ok_inv h
  simp only [Prod.mk.injEq] at hk
  obtain ⟨rfl, -⟩ := hk
  simp only [TxKernel.m_Fee, TxKernel.m_Height, TxKernel.m_pHashLock, TxKernel.m_vNested,
    TxKernel.m_pRelativeLock, TxKernel.m_CanEmbed, TxKernel.m_AssetEmission]
  refine ⟨fun hb => ?_, fun hb => ?_, fun hb => ?_, fun hb => ?_, fun hb => ?_, fun hb => ?_,
    fun hb => ?_, fun hb => ?_⟩
  · exact (Reader.ite_ret_inv (fun hne => hne hb) hfee).1
  · exact (Reader.ite_ret_inv (fun hne => hne hb) hmin).1
  · exact (Reader.ite_ret_inv (fun hne => hne hb) hmaxr).1
  · rw [if_pos hb] at hmaxr
    obtain ⟨dh, s', hdh, hret⟩ := Reader.bind_ok_inv hmaxr
    have := Reader.ret_ok_inv hret
    simp only [Prod.mk.injEq] at this
    exact ⟨s5, dh, s', hdh, this.1⟩
  · exact (Reader.ite_ret_inv (fun hne => hne hb) hhl).1
  · exact (Reader.ite_ret_inv (fun hne => hne hb) hnested).1
  · have := (Reader.ite_ret_inv (fun hne => hne hb) hext).1
    rw [this]
    exact ⟨rfl, rfl⟩
  · have := (Reader.ite_ret_inv (fun hne => hne hb) hext).1
    rw [this]

theorem TxKernel.load_eq_body (c : Consts) (val : TxKernel) :
    ∃ recurse, TxKernel.load c val = TxKernel.load_Recursive_body c recurse 0 val := by
  unfold TxKernel.load
  cases c.s_MaxRecursionDepth with
  | zero => exact ⟨_, rfl⟩
  | succ n => exact ⟨_, rfl⟩

theorem testBit_mask (i : Nat) : (0xFFFFFFF8 : Nat).testBit i = (decide (3 ≤ i) && decide (i < 32)) := by
  have e : (0xFFFFFFF8 : Nat) = (2 ^ 29 - 1) <<< 3 := by decide
  rw [e, Nat.testBit_shiftLeft, Nat.testBit_two_pow_sub_one]
  by_cases h3 : 3 ≤ i
  · by_cases h32 : i < 32
    · have : i - 3 < 29 := by omega
      simp [h3, h32, this]
    · have : ¬ i - 3 < 29 := by omega
      simp [h3, h32, this]
  · simp [h3]

theorem and_mask_eq {x : Nat} (hx : x < 2 ^ 32) : x &&& 0xFFFFFFF8 = x / 8 * 8 := by
  have e : x / 8 * 8 = (x >>> 3) <<< 3 := by
    rw [Nat.shiftLeft_eq, Nat.shiftRight_eq_div_pow]
  rw [e]
  apply Nat.eq_of_testBit_eq
  intro i
  rw [Nat.testBit_and, testBit_mask, Nat.testBit_shiftLeft, Nat.testBit_shiftRight]
  by_cases h3 : 3 ≤ i
  · have e3 : 3 + (i - 3) = i := by omega
    rw [e3]
    by_cases h32 : i < 32
    · simp [h3, h32]
    · have hle : 2 ^ 32 ≤ 2 ^ i := Nat.pow_le_pow_right (by norm_num) (by omega)
      have hf : x.testBit i = false := Nat.testBit_lt_two_pow (Nat.lt_of_lt_of_le hx hle)
      simp [h32, hf]
  · simp [h3]

/-- Without any assumption on the static assertion: the array has `ceil(N / 8)`
bytes. -/
theorem InnerProductFlags.size_eq_ceil (c : Consts) (h : c.nCycles * 2 + 7 < 2 ^ 32) :
    InnerProductFlags.N_Max c >>> 3 = (c.nCycles * 2 + 7) / 8 := by
  unfold InnerProductFlags.N_Max InnerProductFlags.N
  have e1 : c.nCycles * 2 % 2 ^ 32 = c.nCycles * 2 := Nat.mod_eq_of_lt (by omega)
  rw [e1, Nat.mod_eq_of_lt h, and_mask_eq h, Nat.shiftRight_eq_div_pow]
  have h23 : (c.nCycles * 2 + 7) / 8 * 8 / 2 ^ 3 = (c.nCycles * 2 + 7) / 8 * 8 / 8 := rfl
  rw [h23]
  omega

theorem Confidential.flagBits_length (c : Consts) (v : Confidential) :
    (v.flagBits c).length = InnerProductFlags.N_Max c >>> 3 := by
  unfold Confidential.flagBits
  simp only [InnerProductFlags.length_set, InnerProductFlags.save,
    InnerProductFlags.length_saveLoop, InnerProductFlags.zero, List.length_replicate]

theorem InnerProductFlags.set_zero (f : Bytes) (i : Nat) : InnerProductFlags.set f i 0 = f := by
  unfold InnerProductFlags.set
  rw [if_neg (fun h => h rfl)]

theorem InnerProductFlags.get_set_ne (f : Bytes) (i b j : Nat) (hne : j ≠ i) :
    InnerProductFlags.get (InnerProductFlags.set f i b) j = InnerProductFlags.get f j := by
  by_cases hi : i / 8 < f.length
  · rw [InnerProductFlags.get_eq, InnerProductFlags.get_eq]
    have := InnerProductFlags.bitAt_set f i b j hi
    by_cases h1 : bitAt f j = true
    · rw [if_pos h1, if_pos (this.mpr (Or.inl h1))]
    · have h2 : ¬ bitAt (InnerProductFlags.set f i b) j = true := by
        intro h
        rcases this.mp h with h | ⟨h, -⟩
        · exact h1 h
        · exact hne h.symm
      rw [if_neg h1, if_neg h2]
  · unfold InnerProductFlags.set
    split
    · simp only [Nat.shiftRight_eq_div_pow]
      have h23 : i / 2 ^ 3 = i / 8 := rfl
      rw [h23, List.set_eq_of_length_le (by omega)]
    · rfl

theorem InnerProductFlags.get_set_self (f : Bytes) (i b : Nat) (hi : i >>> 3 < f.length)
    (hb : b ≠ 0) : InnerProductFlags.get (InnerProductFlags.set f i b) i = 1 := by
  have hi8 : i / 8 < f.length := by
    rw [Nat.shiftRight_eq_div_pow] at hi
    exact hi
  rw [InnerProductFlags.get_eq,
    if_pos ((InnerProductFlags.bitAt_set f i b i hi8).mpr (Or.inr ⟨rfl, hb⟩))]

theorem InnerProductFlags.get_zero (n j : Nat) :
    InnerProductFlags.get (List.replicate n 0) j = 0 := by
  rw [InnerProductFlags.get_eq, bitAt_zero]
  rfl

/-! ## Owned-or-absent adapters -/

theorem load_bool_append (b : Bool) (rest : Bytes) :
    load_bool (save_bool b ++ rest) = .ok (b, rest) := by
  cases b <;> rfl

/-! ## Kernel height delta -/

theorem load_u64_append {bs : Bytes} (h : bs.length = 8) (rest : Bytes) :
    load_u64 (bs ++ rest) = .ok (beValue bs, rest) := by
  unfold load_u64
  rw [Reader.bind_ok (load_bytes_append h rest)]
  rfl

theorem load_u64_opt_append {p : Prop} [Decidable p] {bs : Bytes}
    (h : bs.length = if p then 8 else 0) (rest : Bytes) :
    (if p then load_u64 else Pure.pure 0) (bs ++ rest) =
      .ok (if p then beValue bs else 0, rest) := by
  by_cases hp : p
  · rw [if_pos hp] at h
    rw [if_pos hp, if_pos hp]
    exact load_u64_append h rest
  · rw [if_neg hp] at h
    rw [if_neg hp, if_neg hp, List.length_eq_zero.mp h]
    rfl

/-- The layout of the front of a kernel encoding, up to the height delta. -/
theorem TxKernel.save_front (k : TxKernel) (hb : k.m_Height.m_Max ≠ MaxHeight) :
    8 &&& k.nFlags ≠ 0 ∧
    ∃ tail, TxKernel.save k =
      save_u8 k.nFlags ++ (uintBig.save k.m_Commitment.m_X ++
        (uintBig.save k.m_Signature.m_NoncePub.m_X ++ (Scalar.save k.m_Signature.m_k ++
          ((if k.m_Fee ≠ 0 then save_u64 k.m_Fee else []) ++
            ((if k.m_Height.m_Min ≠ 0 then save_u64 k.m_Height.m_Min else []) ++
              (save_u64 ((k.m_Height.m_Max % 2 ^ 64 + 2 ^ 64 - k.m_Height.m_Min % 2 ^ 64) %
                2 ^ 64) ++ tail)))))) := by
  obtain ⟨-, -, -, hb1, hb2, hb3, -⟩ := TxKernel.kernel_nFlags_eq k ▸ pack8_spec
    (decide (k.m_Commitment.m_Y ≠ 0)) (decide (k.m_Fee ≠ 0))
      (decide (k.m_Height.m_Min ≠ 0)) (decide (k.m_Height.m_Max ≠ MaxHeight))
      (decide (k.m_Signature.m_NoncePub.m_Y ≠ 0)) k.m_pHashLock.isSome (!k.m_vNested.isEmpty)
      (decide (k.nFlags2 ≠ 0))
  simp only [decide_eq_true_eq] at hb1 hb2 hb3
  refine ⟨hb3.mpr hb, ?_⟩
  cases k with
  | mk com sig fee h hl rl nested ae ce =>
    rw [TxKernel.save]
    unfold TxKernel.save_body
    simp only [TxKernel.m_Commitment, TxKernel.m_Fee, TxKernel.m_Height, TxKernel.m_Signature]
      at hb hb1 hb2 hb3 ⊢
    simp only [List.append_assoc, if_pos (hb3.mpr hb), hb1, hb2]
    exact ⟨_, rfl⟩

/-- What the decoder makes of the bytes that follow the signature scalar: the fee,
the height min, and the height max as height min plus the delta, modulo `2 ^ 64`. -/
theorem TxKernel.load_heights (c : Consts) (dst : TxKernel) (F : Nat)
    (cX nX kb feeB minB dhB tail : Bytes) (k : TxKernel) (rest : Bytes)
    (h1 : cX.length = nBytes) (h2 : nX.length = nBytes) (h3 : kb.length = nBytes)
    (hk : beValue kb < c.groupOrder)
    (hf : feeB.length = if 2 &&& F ≠ 0 then 8 else 0)
    (hm : minB.length = if 4 &&& F ≠ 0 then 8 else 0)
    (hd : dhB.length = 8) (h8 : 8 &&& F ≠ 0)
    (h : TxKernel.load c dst
      (F :: (cX ++ (nX ++ (kb ++ (feeB ++ (minB ++ (dhB ++ tail))))))) = .ok (k, rest)) :
    k.m_Fee = (if 2 &&& F ≠ 0 then beValue feeB else 0) ∧
    k.m_Height.m_Min = (if 4 &&& F ≠ 0 then beValue minB else 0) ∧
    k.m_Height.m_Max = (k.m_Height.m_Min + beValue dhB) % 2 ^ 64 := by
  obtain ⟨recurse, hr⟩ := TxKernel.load_eq_body c dst
  rw [hr] at h
  unfold TxKernel.load_Recursive_body at h
  have e0 : load_u8 (F :: (cX ++ (nX ++ (kb ++ (feeB ++ (minB ++ (dhB ++ tail))))))) =
      .ok (F, cX ++ (nX ++ (kb ++ (feeB ++ (minB ++ (dhB ++ tail)))))) := rfl
  rw [Reader.bind_ok e0] at h
  obtain ⟨x1, s1, e1, h⟩ := Reader.bind_ok_inv h
  have e1' : uintBig.load nBytes (cX ++ (nX ++ (kb ++ (feeB ++ (minB ++ (dhB ++ tail)))))) =
      .ok (cX, nX ++ (kb ++ (feeB ++ (minB ++ (dhB ++ tail))))) := load_bytes_append h1 _
  rw [e1'] at e1
  cases e1
  obtain ⟨x2, s2, e2, h⟩ := Reader.bind_ok_inv h
  have e2' : uintBig.load nBytes (nX ++ (kb ++ (feeB ++ (minB ++ (dhB ++ tail))))) =
      .ok (nX, kb ++ (feeB ++ (minB ++ (dhB ++ tail)))) := load_bytes_append h2 _
  rw [e2'] at e2
  cases e2
  obtain ⟨x3, s3, e3, h⟩ := Reader.bind_ok_inv h
  rw [Scalar.load_append c h3, if_neg (by omega)] at e3
  cases e3
  obtain ⟨x4, s4, e4, h⟩ := Reader.bind_ok_inv h
  rw [load_u64_opt_append hf] at e4
  cases e4
  obtain ⟨x5, s5, e5, h⟩ := Reader.bind_ok_inv h
  rw [load_u64_opt_append hm] at e5
  cases e5
  obtain ⟨x6, s6, e6, h⟩ := Reader.bind_ok_inv h
  rw [if_pos h8, Reader.bind_ok (load_u64_append hd tail)] at e6
  cases e6
  obtain ⟨x7, s7, -, h⟩ := Reader.bind_ok_inv h
  obtain ⟨x8, s8, -, h⟩ := Reader.bind_ok_inv h
  obtain ⟨x9, s9, -, h⟩ := Reader.bind_ok_inv h
  cases h
  exact ⟨rfl, rfl, rfl⟩

/-! ## Output layout -/

theorem pack8_lt_128 (b0 b1 b2 b3 b4 b5 b6 : Bool) : pack8 b0 b1 b2 b3 b4 b5 b6 false < 128 := by
  cases b0 <;> cases b1 <;> cases b2 <;> cases b3 <;> cases b4 <;> cases b5 <;> cases b6 <;>
    decide

theorem uintBig.isZero_iff (v : Bytes) :
    uintBig.isZero v = true ↔ v = uintBig.zero v.length := by
  refine ⟨uintBig.eq_zero_of_isZero, fun h => ?_⟩
  rw [h]
  simp [uintBig.isZero, uintBig.zero]

/-! ## Kernel layout -/

/-- The encoding of a kernel, segment by segment in emission order. -/
theorem TxKernel.save_layout (k : TxKernel) :
    TxKernel.save k =
      save_u8 k.nFlags ++ (uintBig.save k.m_Commitment.m_X ++
        (uintBig.save k.m_Signature.m_NoncePub.m_X ++ (Scalar.save k.m_Signature.m_k ++
          ((if 2 &&& k.nFlags ≠ 0 then save_u64 k.m_Fee else []) ++
            ((if 4 &&& k.nFlags ≠ 0 then save_u64 k.m_Height.m_Min else []) ++
              ((if 8 &&& k.nFlags ≠ 0 then
                  save_u64 ((k.m_Height.m_Max % 2 ^ 64 + 2 ^ 64 - k.m_Height.m_Min % 2 ^ 64) %
                    2 ^ 64)
                else []) ++
                ((if 0x20 &&& k.nFlags ≠ 0 then k.m_pHashLock.elim [] HashLock.save else []) ++
                  ((if 0x40 &&& k.nFlags ≠ 0 then
                      save_u32 (k.m_vNested.length % 2 ^ 32) ++
                        TxKernel.saveNested (k.m_vNested.length % 2 ^ 32) k.m_vNested
                    else []) ++
                    (if k.nFlags2 ≠ 0 then
                      save_u8 k.nFlags2 ++
                        ((if 1 &&& k.nFlags2 ≠ 0 then save_u64 k.m_AssetEmission else []) ++
                          (if 2 &&& k.nFlags2 ≠ 0 then
                            k.m_pRelativeLock.elim [] RelativeLock.save else []))
                    else []))))))))) := by
  cases k with
  | mk com sig fee h hl rl nested ae ce =>
    rw [TxKernel.save]
    unfold TxKernel.save_body
    simp only [List.append_assoc, TxKernel.m_Commitment, TxKernel.m_Fee, TxKernel.m_Height,
      TxKernel.m_Signature, TxKernel.m_pHashLock, TxKernel.m_vNested, TxKernel.m_AssetEmission,
      TxKernel.m_pRelativeLock]
    cases hl <;> cases rl <;> rfl

theorem pack8_low3 (b0 b1 b2 : Bool) :
    pack8 b0 b1 b2 false false false false false < 8 ∧
    (pack8 b0 b1 b2 false false false false false ≠ 0 ↔
      (b0 = true ∨ b1 = true ∨ b2 = true)) := by
  cases b0 <;> cases b1 <;> cases b2 <;> decide

/-- The bits of the extended flag byte and the bit that announces it. -/
theorem TxKernel.nFlags2_bits (k : TxKernel) :
    k.nFlags2 < 8 ∧
    (1 &&& k.nFlags2 ≠ 0 ↔ k.m_AssetEmission ≠ 0) ∧
    (2 &&& k.nFlags2 ≠ 0 ↔ k.m_pRelativeLock ≠ none) ∧
    (4 &&& k.nFlags2 ≠ 0 ↔ k.m_CanEmbed = true) ∧
    (k.nFlags2 ≠ 0 ↔
      (k.m_AssetEmission ≠ 0 ∨ k.m_pRelativeLock ≠ none ∨ k.m_CanEmbed = true)) ∧
    (0x80 &&& k.nFlags ≠ 0 ↔ k.nFlags2 ≠ 0) := by
  have h80 : 0x80 &&& k.nFlags ≠ 0 ↔ k.nFlags2 ≠ 0 := by
    have := (TxKernel.kernel_nFlags_eq k ▸ pack8_spec (decide (k.m_Commitment.m_Y ≠ 0))
      (decide (k.m_Fee ≠ 0)) (decide (k.m_Height.m_Min ≠ 0))
      (decide (k.m_Height.m_Max ≠ MaxHeight)) (decide (k.m_Signature.m_NoncePub.m_Y ≠ 0))
      k.m_pHashLock.isSome (!k.m_vNested.isEmpty) (decide (k.nFlags2 ≠ 0))).2.2.2.2.2.2.2.2.2
    simpa only [decide_eq_true_eq] using this
  obtain ⟨-, -, p1, p2, p4, -⟩ := TxKernel.nFlags2_eq k ▸ pack8_spec
    (decide (k.m_AssetEmission ≠ 0)) k.m_pRelativeLock.isSome k.m_CanEmbed
    false false false false false
  obtain ⟨q1, q2⟩ := TxKernel.nFlags2_eq k ▸ pack8_low3
    (decide (k.m_AssetEmission ≠ 0)) k.m_pRelativeLock.isSome k.m_CanEmbed
  simp only [decide_eq_true_eq, Option.isSome_iff_ne_none] at p1 p2 q2
  exact ⟨q1, p1, p2, p4, q2, h80⟩

/-! ## Confidential proof layout -/

theorem ysOf_getD (l : List (Point × Point)) (r : Nat) (p : Point × Point)
    (h : l[r]? = some p) :
    (ysOf l).getD (2 * r) 0 = p.1.m_Y ∧ (ysOf l).getD (2 * r + 1) 0 = p.2.m_Y := by
  induction l generalizing r with
  | nil => simp at h
  | cons lr rest ih =>
    cases r with
    | zero =>
      simp only [List.getElem?_cons_zero, Option.some.injEq] at h
      subst h
      exact ⟨rfl, rfl⟩
    | succ r =>
      simp only [List.getElem?_cons_succ] at h
      have e1 : 2 * (r + 1) = (2 * r + 1) + 1 := by omega
      rw [e1]
      simp only [ysOf, List.getD_cons_succ]
      exact ih r h

theorem save_LR_X_eq_flatten (l : List (Point × Point)) :
    save_LR_X l = (l.map fun lr => lr.1.m_X ++ lr.2.m_X).flatten := by
  induction l with
  | nil => rfl
  | cons lr rest ih =>
    rw [save_LR_X, ih]
    simp [uintBig.save]

theorem save_Condensed_eq_flatten (l : List Scalar) :
    save_Condensed l = (l.map Scalar.save).flatten := by
  induction l with
  | nil => rfl
  | cons s rest ih =>
    rw [save_Condensed, ih]
    simp

/-! ## Collection counts -/

theorem putBE_four (n : Nat) :
    putBE 4 n = [n / 2 ^ 24 % 256, n / 2 ^ 16 % 256, n / 2 ^ 8 % 256, n % 256] := by
  simp [putBE]

/-! ## Cursor position -/

theorem SameCursor.rfl_same {α : Type} (r : Reader α) : SameCursor r r := fun _ => rfl

theorem SameCursor.ret_ret {α β : Type} (x : α) (y : β) :
    SameCursor (Pure.pure x : Reader α) (Pure.pure y : Reader β) := fun _ => rfl

theorem SameCursor.bind_gen {α1 α2 β1 β2 : Type} {m1 : Reader α1} {m2 : Reader α2}
    {f1 : α1 → Reader β1} {f2 : α2 → Reader β2} (hm : SameCursor m1 m2)
    (hf : ∀ x1 x2, SameCursor (f1 x1) (f2 x2)) : SameCursor (m1 >>= f1) (m2 >>= f2) := by
  intro s
  have h := hm s
  rw [Reader.bind_apply, Reader.bind_apply]
  cases h1 : m1 s with
  | error e1 =>
    cases h2 : m2 s with
    | error e2 =>
      rw [h1, h2] at h
      exact h
    | ok r2 =>
      rw [h1, h2] at h
      cases h
  | ok r1 =>
    cases h2 : m2 s with
    | error e2 =>
      rw [h1, h2] at h
      cases h
    | ok r2 =>
      rw [h1, h2] at h
      obtain ⟨x1, s1⟩ := r1
      obtain ⟨x2, s2⟩ := r2
      have e : s1 = s2 := by
        simpa [Except.map] using h
      subst e
      exact hf x1 x2 s1

theorem SameCursor.bind_same {α β1 β2 : Type} {m : Reader α} {f1 : α → Reader β1}
    {f2 : α → Reader β2} (hf : ∀ x, SameCursor (f1 x) (f2 x)) :
    SameCursor (m >>= f1) (m >>= f2) := by
  intro s
  rw [Reader.bind_apply, Reader.bind_apply]
  cases h1 : m s with
  | error e1 => rfl
  | ok r1 =>
    obtain ⟨x1, s1⟩ := r1
    exact hf x1 s1

theorem SameCursor.ite_same {α β : Type} {p : Prop} [Decidable p] {a1 b1 : Reader α}
    {a2 b2 : Reader β} (ha : SameCursor a1 a2) (hb : SameCursor b1 b2) :
    SameCursor (if p then a1 else b1) (if p then a2 else b2) := by
  by_cases hp : p
  · rwa [if_pos hp, if_pos hp]
  · rwa [if_neg hp, if_neg hp]

/-- Whether the body of `load_Recursive` succeeds, and how many bytes it consumes,
does not depend on the destination object. -/
theorem TxKernel.load_Recursive_body_cursor (c : Consts) (recurse : Nat → Reader TxKernel)
    (nRecusion : Nat) (val1 val2 : TxKernel) :
    SameCursor (TxKernel.load_Recursive_body c recurse nRecusion val1)
      (TxKernel.load_Recursive_body c recurse nRecusion val2) := by
  unfold TxKernel.load_Recursive_body
  refine SameCursor.bind_same fun nFlags => ?_
  refine SameCursor.bind_same fun cX => ?_
  refine SameCursor.bind_same fun nX => ?_
  refine SameCursor.bind_same fun k => ?_
  refine SameCursor.bind_same fun fee => ?_
  refine SameCursor.bind_same fun hMin => ?_
  refine SameCursor.bind_same fun hMax => ?_
  refine SameCursor.bind_gen (SameCursor.ite_same (SameCursor.rfl_same _)
    (SameCursor.ret_ret _ _)) fun hl1 hl2 => ?_
  refine SameCursor.bind_gen (SameCursor.ite_same (SameCursor.rfl_same _)
    (SameCursor.ret_ret _ _)) fun n1 n2 => ?_
  refine SameCursor.bind_gen (SameCursor.ite_same ?_ (SameCursor.ret_ret _ _))
    fun e1 e2 => SameCursor.ret_ret _ _
  refine SameCursor.bind_same fun nFlags2 => ?_
  refine SameCursor.bind_same fun ae => ?_
  exact SameCursor.bind_gen (SameCursor.ite_same (SameCursor.rfl_same _)
    (SameCursor.ret_ret _ _)) fun r1 r2 => SameCursor.ret_ret _ _

theorem TxKernel.load_cursor (c : Consts) (val1 val2 : TxKernel) :
    SameCursor (TxKernel.load c val1) (TxKernel.load c val2) := by
  unfold TxKernel.load
  cases c.s_MaxRecursionDepth with
  | zero => exact TxKernel.load_Recursive_body_cursor c _ 0 val1 val2
  | succ n => exact TxKernel.load_Recursive_body_cursor c _ 0 val1 val2

theorem SameCursor.ok_of_ok {α β : Type} {r1 : Reader α} {r2 : Reader β}
    (h : SameCursor r1 r2) {s rest : Bytes} {y : β} (h2 : r2 s = .ok (y, rest)) :
    ∃ x, r1 s = .ok (x, rest) := by
  have hs := h s
  rw [h2] at hs
  cases h1 : r1 s with
  | error e =>
    rw [h1] at hs
    cases hs
  | ok r =>
    obtain ⟨x, s1⟩ := r
    rw [h1] at hs
    have e : s1 = rest := by simpa [Except.map] using hs
    exact ⟨x, by rw [e]⟩

/-! ## Decoder evaluation -/

theorem load_delta_opt_append {p : Prop} [Decidable p] (m : Nat) {bs : Bytes}
    (h : bs.length = if p then 8 else 0) (rest : Bytes) :
    (if p then (load_u64 >>= fun dh => Pure.pure ((m + dh) % 2 ^ 64)) else Pure.pure MaxHeight)
        (bs ++ rest) =
      .ok (if p then (m + beValue bs) % 2 ^ 64 else MaxHeight, rest) := by
  by_cases hp : p
  · rw [if_pos hp] at h
    rw [if_pos hp, if_pos hp, Reader.bind_ok (load_u64_append h rest)]
    rfl
  · rw [if_neg hp] at h
    rw [if_neg hp, if_neg hp, List.length_eq_zero.mp h]
    rfl

/-- The decoder on a stream that holds a flag byte `F`, two X coordinates, a valid
scalar and then the fee, the height min and the height delta that `F` announces:
those fields are read, and decoding goes on with the hash-lock, the nested kernels
and the extended block on the bytes that follow. -/
theorem TxKernel.load_Recursive_body_front (c : Consts) (recurse : Nat → Reader TxKernel)
    (nRecusion : Nat) (val : TxKernel) (F : Nat) (cX nX kb feeB minB dhB tail : Bytes)
    (h1 : cX.length = nBytes) (h2 : nX.length = nBytes) (h3 : kb.length = nBytes)
    (hk : beValue kb < c.groupOrder)
    (hf : feeB.length = if 2 &&& F ≠ 0 then 8 else 0)
    (hm : minB.length = if 4 &&& F ≠ 0 then 8 else 0)
    (hd : dhB.length = if 8 &&& F ≠ 0 then 8 else 0) :
    TxKernel.load_Recursive_body c recurse nRecusion val
        (F :: (cX ++ (nX ++ (kb ++ (feeB ++ (minB ++ (dhB ++ tail))))))) =
      (do
        let hashLock ← (if 0x20 &&& F ≠ 0 then do
            let x ← HashLock.load
            pure (some x)
          else pure val.m_pHashLock)
        let nested ← (if 0x40 &&& F ≠ 0 then do
            TxKernel.TestRecursion c ((nRecusion + 1) % 2 ^ 32)
            let nCount ← load_u32
            loadN (recurse ((nRecusion + 1) % 2 ^ 32)) nCount
          else pure val.m_vNested)
        let ext ← (if 0x80 &&& F ≠ 0 then do
            let nFlags2 ← load_u8
            let ae ← (if 1 &&& nFlags2 ≠ 0 then load_u64 else pure 0)
            let rl ← (if 2 &&& nFlags2 ≠ 0 then do
                let x ← RelativeLock.load
                pure (some x)
              else pure val.m_pRelativeLock)
            pure (ae, rl, if 4 &&& nFlags2 ≠ 0 then true else val.m_CanEmbed)
          else pure (0, val.m_pRelativeLock, val.m_CanEmbed))
        pure (TxKernel.mk ⟨cX, 1 &&& F⟩ ⟨⟨nX, if 0x10 &&& F ≠ 0 then 1 else 0⟩, ⟨kb⟩⟩
          (if 2 &&& F ≠ 0 then beValue feeB else 0)
          ⟨if 4 &&& F ≠ 0 then beValue minB else 0,
            if 8 &&& F ≠ 0 then ((if 4 &&& F ≠ 0 then beValue minB else 0) + beValue dhB) % 2 ^ 64
            else MaxHeight⟩
          hashLock ext.2.1 nested ext.1 ext.2.2) : Reader TxKernel) tail := by
  unfold TxKernel.load_Recursive_body
  have e0 : load_u8 (F :: (cX ++ (nX ++ (kb ++ (feeB ++ (minB ++ (dhB ++ tail))))))) =
      .ok (F, cX ++ (nX ++ (kb ++ (feeB ++ (minB ++ (dhB ++ tail)))))) := rfl
  have e1 : uintBig.load nBytes (cX ++ (nX ++ (kb ++ (feeB ++ (minB ++ (dhB ++ tail)))))) =
      .ok (cX, nX ++ (kb ++ (feeB ++ (minB ++ (dhB ++ tail))))) := load_bytes_append h1 _
  have e2 : uintBig.load nBytes (nX ++ (kb ++ (feeB ++ (minB ++ (dhB ++ tail))))) =
      .ok (nX, kb ++ (feeB ++ (minB ++ (dhB ++ tail)))) := load_bytes_append h2 _
  have e3 : Scalar.load c (kb ++ (feeB ++ (minB ++ (dhB ++ tail)))) =
      .ok (⟨kb⟩, feeB ++ (minB ++ (dhB ++ tail))) := by
    rw [Scalar.load_append c h3, if_neg (by omega)]
  rw [Reader.bind_ok e0, Reader.bind_ok e1, Reader.bind_ok e2, Reader.bind_ok e3,
    Reader.bind_ok (load_u64_opt_append hf _), Reader.bind_ok (load_u64_opt_append hm _),
    Reader.bind_ok (load_delta_opt_append _ hd _)]

/-- Decoding a stream whose flag byte announces no hash-lock, no nested kernel and
no extended block: the result is made of the bytes read and, for those four
fields, of what the destination held. -/
theorem TxKernel.load_plain (c : Consts) (val : TxKernel) (F : Nat)
    (cX nX kb feeB minB dhB tail : Bytes)
    (h1 : cX.length = nBytes) (h2 : nX.length = nBytes) (h3 : kb.length = nBytes)
    (hk : beValue kb < c.groupOrder)
    (hf : feeB.length = if 2 &&& F ≠ 0 then 8 else 0)
    (hm : minB.length = if 4 &&& F ≠ 0 then 8 else 0)
    (hd : dhB.length = if 8 &&& F ≠ 0 then 8 else 0)
    (h20 : 0x20 &&& F = 0) (h40 : 0x40 &&& F = 0) (h80 : 0x80 &&& F = 0) :
    TxKernel.load c val (F :: (cX ++ (nX ++ (kb ++ (feeB ++ (minB ++ (dhB ++ tail))))))) =
      .ok (TxKernel.mk ⟨cX, 1 &&& F⟩ ⟨⟨nX, if 0x10 &&& F ≠ 0 then 1 else 0⟩, ⟨kb⟩⟩
        (if 2 &&& F ≠ 0 then beValue feeB else 0)
        ⟨if 4 &&& F ≠ 0 then beValue minB else 0,
          if 8 &&& F ≠ 0 then ((if 4 &&& F ≠ 0 then beValue minB else 0) + beValue dhB) % 2 ^ 64
          else MaxHeight⟩
        val.m_pHashLock val.m_pRelativeLock val.m_vNested 0 val.m_CanEmbed, tail) := by
  obtain ⟨recurse, hr⟩ := TxKernel.load_eq_body c val
  rw [hr, TxKernel.load_Recursive_body_front c recurse 0 val F cX nX kb feeB minB dhB tail h1 h2
    h3 hk hf hm hd, if_neg (show ¬ (0x20 &&& F ≠ 0) from fun h => h h20), if_neg (show ¬ (0x40 &&& F ≠ 0) from fun h => h h40), if_neg (show ¬ (0x80 &&& F ≠ 0) from fun h => h h80)]
  rfl

/-- Decoding a stream whose flag byte announces nested kernels and whose count is
zero: the nested list of the result is empty. -/
theorem TxKernel.load_empty_nested (c : Consts) (hdepth : 1 ≤ c.s_MaxRecursionDepth)
    (val : TxKernel) (F : Nat) (cX nX kb feeB minB dhB tail : Bytes)
    (h1 : cX.length = nBytes) (h2 : nX.length = nBytes) (h3 : kb.length = nBytes)
    (hk : beValue kb < c.groupOrder)
    (hf : feeB.length = if 2 &&& F ≠ 0 then 8 else 0)
    (hm : minB.length = if 4 &&& F ≠ 0 then 8 else 0)
    (hd : dhB.length = if 8 &&& F ≠ 0 then 8 else 0)
    (h20 : 0x20 &&& F = 0) (h40 : 0x40 &&& F ≠ 0) (h80 : 0x80 &&& F = 0) :
    TxKernel.load c val
        (F :: (cX ++ (nX ++ (kb ++ (feeB ++ (minB ++ (dhB ++ (save_u32 0 ++ tail)))))))) =
      .ok (TxKernel.mk ⟨cX, 1 &&& F⟩ ⟨⟨nX, if 0x10 &&& F ≠ 0 then 1 else 0⟩, ⟨kb⟩⟩
        (if 2 &&& F ≠ 0 then beValue feeB else 0)
        ⟨if 4 &&& F ≠ 0 then beValue minB else 0,
          if 8 &&& F ≠ 0 then ((if 4 &&& F ≠ 0 then beValue minB else 0) + beValue dhB) % 2 ^ 64
          else MaxHeight⟩
        val.m_pHashLock val.m_pRelativeLock [] 0 val.m_CanEmbed, tail) := by
  obtain ⟨recurse, hr⟩ := TxKernel.load_eq_body c val
  rw [hr, TxKernel.load_Recursive_body_front c recurse 0 val F cX nX kb feeB minB dhB _ h1 h2
    h3 hk hf hm hd, if_neg (show ¬ (0x20 &&& F ≠ 0) from fun h => h h20), if_pos h40, if_neg (show ¬ (0x80 &&& F ≠ 0) from fun h => h h80),
    TxKernel.TestRecursion_ok (by norm_num; exact hdepth)]
  rfl

theorem Reader.pure_apply {α : Type} (x : α) (s : Bytes) :
    (Pure.pure x : Reader α) s = .ok (x, s) := rfl

/-- The extended block of the decoder on a second flag byte that announces neither
an asset emission nor a relative lock. -/
theorem TxKernel.load_ext_bare (val : TxKernel) (F2 : Nat) (tail : Bytes)
    (g1 : 1 &&& F2 = 0) (g2 : 2 &&& F2 = 0) :
    (do
      let nFlags2 ← load_u8
      let ae ← (if 1 &&& nFlags2 ≠ 0 then load_u64 else pure 0)
      let rl ← (if 2 &&& nFlags2 ≠ 0 then do
          let x ← RelativeLock.load
          pure (some x)
        else pure val.m_pRelativeLock)
      pure (ae, rl, if 4 &&& nFlags2 ≠ 0 then true else val.m_CanEmbed) :
        Reader (Nat × Option RelativeLock × Bool)) (F2 :: tail) =
      .ok ((0, val.m_pRelativeLock, if 4 &&& F2 ≠ 0 then true else val.m_CanEmbed), tail) := by
  have e0 : load_u8 (F2 :: tail) = .ok (F2, tail) := rfl
  rw [Reader.bind_ok e0, if_neg (show ¬ (1 &&& F2 ≠ 0) from fun h => h g1),
    if_neg (show ¬ (2 &&& F2 ≠ 0) from fun h => h g2)]
  rfl

/-- Decoding a stream whose flag byte announces an extended block, with a second
flag byte that announces neither an asset emission nor a relative lock. -/
theorem TxKernel.load_bare_ext (c : Consts) (val : TxKernel) (F F2 : Nat)
    (cX nX kb feeB minB dhB tail : Bytes)
    (h1 : cX.length = nBytes) (h2 : nX.length = nBytes) (h3 : kb.length = nBytes)
    (hk : beValue kb < c.groupOrder)
    (hf : feeB.length = if 2 &&& F ≠ 0 then 8 else 0)
    (hm : minB.length = if 4 &&& F ≠ 0 then 8 else 0)
    (hd : dhB.length = if 8 &&& F ≠ 0 then 8 else 0)
    (h20 : 0x20 &&& F = 0) (h40 : 0x40 &&& F = 0) (h80 : 0x80 &&& F ≠ 0)
    (g1 : 1 &&& F2 = 0) (g2 : 2 &&& F2 = 0) :
    TxKernel.load c val
        (F :: (cX ++ (nX ++ (kb ++ (feeB ++ (minB ++ (dhB ++ (F2 :: tail)))))))) =
      .ok (TxKernel.mk ⟨cX, 1 &&& F⟩ ⟨⟨nX, if 0x10 &&& F ≠ 0 then 1 else 0⟩, ⟨kb⟩⟩
        (if 2 &&& F ≠ 0 then beValue feeB else 0)
        ⟨if 4 &&& F ≠ 0 then beValue minB else 0,
          if 8 &&& F ≠ 0 then ((if 4 &&& F ≠ 0 then beValue minB else 0) + beValue dhB) % 2 ^ 64
          else MaxHeight⟩
        val.m_pHashLock val.m_pRelativeLock val.m_vNested 0
        (if 4 &&& F2 ≠ 0 then true else val.m_CanEmbed), tail) := by
  obtain ⟨recurse, hr⟩ := TxKernel.load_eq_body c val
  rw [hr, TxKernel.load_Recursive_body_front c recurse 0 val F cX nX kb feeB minB dhB _ h1 h2
    h3 hk hf hm hd, if_neg (show ¬ (0x20 &&& F ≠ 0) from fun h => h h20), if_neg (show ¬ (0x40 &&& F ≠ 0) from fun h => h h40), if_pos h80,
    Reader.bind_ok (Reader.pure_apply _ _), Reader.bind_ok (Reader.pure_apply _ _),
    Reader.bind_ok (TxKernel.load_ext_bare val F2 tail g1 g2)]
  rfl

/-! ## Non-canonical encodings -/

theorem beValue_zero32 : beValue (uintBig.zero nBytes) = 0 := by decide

/-! ## Destination independence -/

theorem Agree.same {α : Type} (r : Reader α) : Agree Eq r r :=
  fun _ => ⟨fun x _ h => ⟨x, h, rfl⟩, fun _ h => h⟩

theorem Agree.ret_rel {α β : Type} {R : α → β → Prop} {x : α} {y : β} (h : R x y) :
    Agree R (Pure.pure x : Reader α) (Pure.pure y : Reader β) := by
  intro s
  refine ⟨fun a s1 ha => ?_, fun e he => ?_⟩
  · have := Reader.ret_ok_inv ha
    simp only [Prod.mk.injEq] at this
    obtain ⟨rfl, rfl⟩ := this
    exact ⟨y, rfl, h⟩
  · cases he

theorem Agree.mono {α β : Type} {R Q : α → β → Prop} {r1 : Reader α} {r2 : Reader β}
    (h : Agree R r1 r2) (hq : ∀ x y, R x y → Q x y) : Agree Q r1 r2 := by
  intro s
  refine ⟨fun x s1 hx => ?_, (h s).2⟩
  obtain ⟨y, hy, hr⟩ := (h s).1 x s1 hx
  exact ⟨y, hy, hq x y hr⟩

theorem Agree.bind_rel {α1 α2 β1 β2 : Type} {R : α1 → α2 → Prop} {Q : β1 → β2 → Prop}
    {m1 : Reader α1} {m2 : Reader α2} {f1 : α1 → Reader β1} {f2 : α2 → Reader β2}
    (hm : Agree R m1 m2) (hf : ∀ x1 x2, R x1 x2 → Agree Q (f1 x1) (f2 x2)) :
    Agree Q (m1 >>= f1) (m2 >>= f2) := by
  intro s
  refine ⟨fun x s1 hx => ?_, fun e he => ?_⟩
  · obtain ⟨a, s0, ha, hfa⟩ := Reader.bind_ok_inv hx
    obtain ⟨b, hb, hr⟩ := (hm s).1 a s0 ha
    obtain ⟨y, hy, hq⟩ := (hf a b hr s0).1 x s1 hfa
    exact ⟨y, by rw [Reader.bind_ok hb]; exact hy, hq⟩
  · rw [Reader.bind_apply] at he
    cases h1 : m1 s with
    | error e1 =>
      rw [h1] at he
      cases he
      exact Reader.bind_error f2 ((hm s).2 _ h1)
    | ok r =>
      obtain ⟨a, s0⟩ := r
      rw [h1] at he
      obtain ⟨b, hb, hr⟩ := (hm s).1 a s0 h1
      rw [Reader.bind_ok hb]
      exact (hf a b hr s0).2 e he

theorem Agree.bind_eq {α β1 β2 : Type} {Q : β1 → β2 → Prop} {m : Reader α}
    {f1 : α → Reader β1} {f2 : α → Reader β2} (hf : ∀ x, Agree Q (f1 x) (f2 x)) :
    Agree Q (m >>= f1) (m >>= f2) :=
  Agree.bind_rel (Agree.same m) fun x1 _ h => h ▸ hf x1

theorem Agree.ite_rel {α β : Type} {R : α → β → Prop} {p : Prop} [Decidable p]
    {a1 b1 : Reader α} {a2 b2 : Reader β} (ha : Agree R a1 a2) (hb : Agree R b1 b2) :
    Agree R (if p then a1 else b1) (if p then a2 else b2) := by
  by_cases hp : p
  · rwa [if_pos hp, if_pos hp]
  · rwa [if_neg hp, if_neg hp]

/-- Decoding the same bytes into two destinations: same failure or same bytes left,
and the same commitment, signature, fee, height range and asset emission. -/
theorem TxKernel.load_Recursive_body_agree (c : Consts) (recurse : Nat → Reader TxKernel)
    (nRecusion : Nat) (val1 val2 : TxKernel) :
    Agree TxKernel.sameOverwritten (TxKernel.load_Recursive_body c recurse nRecusion val1)
      (TxKernel.load_Recursive_body c recurse nRecusion val2) := by
  unfold TxKernel.load_Recursive_body
  refine Agree.bind_eq fun nFlags => ?_
  refine Agree.bind_eq fun cX => ?_
  refine Agree.bind_eq fun nX => ?_
  refine Agree.bind_eq fun k => ?_
  refine Agree.bind_eq fun fee => ?_
  refine Agree.bind_eq fun hMin => ?_
  refine Agree.bind_eq fun hMax => ?_
  refine Agree.bind_rel (R := fun _ _ => True) (Agree.ite_rel
    ((Agree.same _).mono fun _ _ _ => trivial) (Agree.ret_rel trivial)) fun hl1 hl2 _ => ?_
  refine Agree.bind_rel (R := fun _ _ => True) (Agree.ite_rel
    ((Agree.same _).mono fun _ _ _ => trivial) (Agree.ret_rel trivial)) fun n1 n2 _ => ?_
  refine Agree.bind_rel (R := fun e1 e2 => e1.1 = e2.1) (Agree.ite_rel ?_ (Agree.ret_rel rfl))
    fun e1 e2 he => Agree.ret_rel ⟨rfl, rfl, rfl, rfl, he⟩
  refine Agree.bind_eq fun nFlags2 => ?_
  refine Agree.bind_eq fun ae => ?_
  exact Agree.bind_rel (R := fun _ _ => True) (Agree.ite_rel
    ((Agree.same _).mono fun _ _ _ => trivial) (Agree.ret_rel trivial))
    fun r1 r2 _ => Agree.ret_rel rfl

theorem TxKernel.load_agree (c : Consts) (val1 val2 : TxKernel) :
    Agree TxKernel.sameOverwritten (TxKernel.load c val1) (TxKernel.load c val2) := by
  unfold TxKernel.load
  cases c.s_MaxRecursionDepth with
  | zero => exact TxKernel.load_Recursive_body_agree c _ 0 val1 val2
  | succ n => exact TxKernel.load_Recursive_body_agree c _ 0 val1 val2

/-- The inversion of the decoder body, for `load`. -/
theorem TxKernel.load_inv (c : Consts) (val : TxKernel) (F : Nat) (t : Bytes) (k : TxKernel)
    (rest : Bytes) (h : TxKernel.load c val (F :: t) = .ok (k, rest)) :
    (2 &&& F = 0 → k.m_Fee = 0) ∧ (4 &&& F = 0 → k.m_Height.m_Min = 0) ∧
    (8 &&& F = 0 → k.m_Height.m_Max = MaxHeight) ∧
    (0x20 &&& F = 0 → k.m_pHashLock = val.m_pHashLock) ∧
    (0x40 &&& F = 0 → k.m_vNested = val.m_vNested) ∧
    (0x80 &&& F = 0 → k.m_pRelativeLock = val.m_pRelativeLock ∧
      k.m_CanEmbed = val.m_CanEmbed) ∧
    (0x80 &&& F = 0 → k.m_AssetEmission = 0) := by
  obtain ⟨recurse, hr⟩ := TxKernel.load_eq_body c val
  rw [hr] at h
  obtain ⟨h2, h4, h8, -, h20, h40, h80, hae⟩ :=
    TxKernel.load_Recursive_body_inv c recurse 0 val F t k rest h
  exact ⟨h2, h4, h8, h20, h40, h80, hae⟩

/-! ## Height delta wrap -/

theorem TxKernel.bounded_bit (k : TxKernel) :
    8 &&& k.nFlags ≠ 0 ↔ k.m_Height.m_Max ≠ MaxHeight := by
  have := (TxKernel.kernel_nFlags_eq k ▸ pack8_spec (decide (k.m_Commitment.m_Y ≠ 0))
    (decide (k.m_Fee ≠ 0)) (decide (k.m_Height.m_Min ≠ 0))
    (decide (k.m_Height.m_Max ≠ MaxHeight)) (decide (k.m_Signature.m_NoncePub.m_Y ≠ 0))
    k.m_pHashLock.isSome (!k.m_vNested.isEmpty) (decide (k.nFlags2 ≠ 0))).2.2.2.2.2.1
  simpa only [decide_eq_true_eq] using this

/-! ## Block bodies -/

theorem Body_load_decodes {c : Consts} (hc : c.WF) {bb : Body} (hb : bb.Valid c) :
    Decodes (Body.load c) (Body.save c bb) (bb.decoded c) := by
  obtain ⟨hil, hi, hol, ho, hkl, hk, hoff⟩ := hb
  unfold Body.load Body.save BodyBase.load BodyBase.save
  rw [List.append_assoc]
  refine Decodes.bind (Decodes.bind_ret BodyBase.mk (TxBase_load_decodes hoff)) ?_
  refine Decodes.bind (Perishable_load_decodes hc hil hi hol ho) ?_
  exact Decodes.bind_ret_eq _ (Eternal_load_decodes hc hkl hk) rfl

theorem load_VecPtr_zero_count {α : Type} (ld : Reader α) (rest : Bytes) :
    load_VecPtr ld ([0, 0, 0, 0] ++ rest) = .ok ([], rest) := by
  unfold load_VecPtr
  have e : uintBig.load 4 ([0, 0, 0, 0] ++ rest) = .ok ([0, 0, 0, 0], rest) :=
    load_bytes_append rfl rest
  rw [Reader.bind_ok e]
  rfl

/-- The transaction decoder on the encoding of `exampleBody`: it takes the first
twelve zero bytes of the offset for three empty collections and the 32 bytes that
follow for the offset. -/
theorem Transaction.load_exampleBody (c : Consts) :
    Transaction.load c (Body.save c exampleBody) =
      if c.groupOrder ≤ beValue exampleShiftedOffset then .error .InvalidScalar
      else .ok (⟨⟨[], []⟩, ⟨[]⟩, ⟨⟨exampleShiftedOffset⟩⟩⟩, []) := by
  have es : Body.save c exampleBody =
      [0, 0, 0, 0] ++ ([0, 0, 0, 0] ++ ([0, 0, 0, 0] ++ (exampleShiftedOffset ++ []))) := by
    rfl
  have ep : Perishable.load c
      ([0, 0, 0, 0] ++ ([0, 0, 0, 0] ++ ([0, 0, 0, 0] ++ (exampleShiftedOffset ++ [])))) =
      .ok (⟨[], []⟩, [0, 0, 0, 0] ++ (exampleShiftedOffset ++ [])) := by
    unfold Perishable.load
    rw [Reader.bind_ok (load_VecPtr_zero_count _ _), Reader.bind_ok (load_VecPtr_zero_count _ _)]
    rfl
  have ee : Eternal.load c ([0, 0, 0, 0] ++ (exampleShiftedOffset ++ [])) =
      .ok (⟨[]⟩, exampleShiftedOffset ++ []) := by
    unfold Eternal.load
    rw [Reader.bind_ok (load_VecPtr_zero_count _ _)]
    rfl
  rw [es]
  unfold Transaction.load
  rw [Reader.bind_ok ep, Reader.bind_ok ee]
  unfold TxBase.load
  rw [Reader.bind_apply, Reader.bind_apply, Scalar.load_append c (by decide) []]
  by_cases hg : c.groupOrder ≤ beValue exampleShiftedOffset
  · rw [if_pos hg, if_pos hg]
  · rw [if_neg hg, if_neg hg]
    rfl

/-! ## Zeroed objects -/

/-- `ZeroObject` on an inner product leaves arrays of the same sizes in which every
point has an all-zero X and Y sign 0 and every scalar is all-zero. -/
theorem InnerProduct.zeroed_eq (v : InnerProduct) :
    v.zeroed =
      ⟨List.replicate v.m_pLR.length
          (⟨List.replicate 32 0, 0⟩, ⟨List.replicate 32 0, 0⟩),
        List.replicate v.m_pCondensed.length ⟨List.replicate 32 0⟩⟩ := by
  unfold InnerProduct.zeroed
  rw [List.map_const', List.map_const']
  rfl

/-! ## Scalar validation in every decoder -/

theorem Scalar.load_bad (c : Consts) {bs : Bytes} (h : bs.length = nBytes)
    (hk : c.groupOrder ≤ beValue bs) (rest : Bytes) :
    Scalar.load c (bs ++ rest) = .error .InvalidScalar := by
  rw [Scalar.load_append c h rest, if_pos hk]

theorem Scalar.load_good (c : Consts) {bs : Bytes} (h : bs.length = nBytes)
    (hk : beValue bs < c.groupOrder) (rest : Bytes) :
    Scalar.load c (bs ++ rest) = .ok (⟨bs⟩, rest) := by
  rw [Scalar.load_append c h rest, if_neg (by omega)]

theorem Point_load_append {pX : Bytes} (h : pX.length = nBytes) (y : Nat) (rest : Bytes) :
    Point.load (pX ++ (y :: rest)) = .ok (⟨pX, y⟩, rest) := by
  unfold Point.load
  have e1 : uintBig.load nBytes (pX ++ (y :: rest)) = .ok (pX, y :: rest) :=
    load_bytes_append h _
  have e2 : load_u8 (y :: rest) = .ok (y, rest) := rfl
  rw [Reader.bind_ok e1, Reader.bind_ok e2]
  rfl

/-- The signature decoder validates the scalar `k` that follows the nonce point. -/
theorem Signature_load_append (c : Consts) {pX bs : Bytes} (h1 : pX.length = nBytes)
    (h2 : bs.length = nBytes) (y : Nat) (rest : Bytes) :
    Signature.load c (pX ++ (y :: (bs ++ rest))) =
      if c.groupOrder ≤ beValue bs then .error .InvalidScalar
      else .ok (⟨⟨pX, y⟩, ⟨bs⟩⟩, rest) := by
  unfold Signature.load
  rw [Reader.bind_ok (Point_load_append h1 y _)]
  by_cases hk : c.groupOrder ≤ beValue bs
  · rw [if_pos hk]
    exact Reader.bind_error _ (Scalar.load_bad c h2 hk rest)
  · rw [if_neg hk, Reader.bind_ok (Scalar.load_good c h2 (by omega) rest)]
    rfl

/-- The loop over the condensed scalars validates every one of them: it fails with
`InvalidScalar` exactly when one of the 32-byte chunks is at least the group order,
and otherwise returns the chunks as scalars. -/
theorem load_Condensed_chunks (c : Consts) (rest : Bytes) :
    ∀ (dst : List Scalar) (chunks : List Bytes), chunks.length = dst.length →
      (∀ ch ∈ chunks, ch.length = nBytes) →
      load_Condensed c dst (chunks.flatten ++ rest) =
        if ∃ ch ∈ chunks, c.groupOrder ≤ beValue ch then .error .InvalidScalar
        else .ok (chunks.map Scalar.mk, rest) := by
  intro dst
  induction dst with
  | nil =>
    intro chunks hlen _
    have : chunks = [] := List.length_eq_zero.mp hlen
    subst this
    rw [if_neg (by simp)]
    rfl
  | cons d ds ih =>
    intro chunks hlen hch
    cases chunks with
    | nil => cases hlen
    | cons ch chs =>
      have hl : chs.length = ds.length := by simpa using hlen
      have h0 := hch ch (List.mem_cons_self ch chs)
      have ih1 := ih chs hl (fun x hx => hch x (List.mem_cons_of_mem ch hx))
      rw [List.flatten_cons, List.append_assoc, load_Condensed]
      by_cases hk : c.groupOrder ≤ beValue ch
      · rw [if_pos ⟨ch, List.mem_cons_self ch chs, hk⟩]
        exact Reader.bind_error _ (Scalar.load_bad c h0 hk _)
      · rw [Reader.bind_ok (Scalar.load_good c h0 (by omega) _)]
        by_cases hr : ∃ x ∈ chs, c.groupOrder ≤ beValue x
        · obtain ⟨x, hx, hxk⟩ := hr
          rw [if_pos ⟨x, List.mem_cons_of_mem ch hx, hxk⟩]
          refine Reader.bind_error _ ?_
          rw [ih1, if_pos ⟨x, hx, hxk⟩]
        · have hnone : ¬ ∃ x ∈ ch :: chs, c.groupOrder ≤ beValue x := by
            rintro ⟨x, hx, hxk⟩
            rcases List.mem_cons.mp hx with rfl | hx
            · exact hk hxk
            · exact hr ⟨x, hx, hxk⟩
          rw [if_neg hnone]
          rw [if_neg hr] at ih1
          rw [Reader.bind_ok ih1]
          rfl

/-- The loop over the L/R points reads two 32-byte X coordinates per array cell and
cannot fail on enough bytes. -/
theorem load_LR_X_bytes : ∀ (dst : List (Point × Point)) (lrB : Bytes),
    lrB.length = 64 * dst.length →
    ∃ lr, lr.length = dst.length ∧ ∀ rest, load_LR_X dst (lrB ++ rest) = .ok (lr, rest) := by
  intro dst
  induction dst with
  | nil =>
    intro lrB hlen
    have : lrB = [] := List.length_eq_zero.mp (by simpa using hlen)
    subst this
    exact ⟨[], rfl, fun _ => rfl⟩
  | cons d ds ih =>
    intro lrB hlen
    rw [List.length_cons] at hlen
    have hx1 : (lrB.take 32).length = nBytes := by
      rw [List.length_take]
      show min 32 lrB.length = 32
      omega
    have hx2 : ((lrB.drop 32).take 32).length = nBytes := by
      rw [List.length_take, List.length_drop]
      show min 32 (lrB.length - 32) = 32
      omega
    have hr : ((lrB.drop 32).drop 32).length = 64 * ds.length := by
      rw [List.length_drop, List.length_drop]
      omega
    obtain ⟨lr, hlrlen, hlr⟩ := ih _ hr
    refine ⟨(⟨lrB.take 32, d.1.m_Y⟩, ⟨(lrB.drop 32).take 32, d.2.m_Y⟩) :: lr, by simp [hlrlen],
      fun rest => ?_⟩
    have e : lrB ++ rest =
        lrB.take 32 ++ ((lrB.drop 32).take 32 ++ ((lrB.drop 32).drop 32 ++ rest)) := by
      rw [← List.append_assoc ((lrB.drop 32).take 32), List.take_append_drop,
        ← List.append_assoc, List.take_append_drop]
    have e1 : uintBig.load nBytes
        (lrB.take 32 ++ ((lrB.drop 32).take 32 ++ ((lrB.drop 32).drop 32 ++ rest))) =
        .ok (lrB.take 32, (lrB.drop 32).take 32 ++ ((lrB.drop 32).drop 32 ++ rest)) :=
      load_bytes_append hx1 _
    have e2 : uintBig.load nBytes ((lrB.drop 32).take 32 ++ ((lrB.drop 32).drop 32 ++ rest)) =
        .ok ((lrB.drop 32).take 32, (lrB.drop 32).drop 32 ++ rest) :=
      load_bytes_append hx2 _
    rw [e, load_LR_X, Reader.bind_ok e1, Reader.bind_ok e2, Reader.bind_ok (hlr rest)]
    rfl

/-- The coordinate pass of the inner-product decoder on enough bytes: it fails with
`InvalidScalar` exactly when one of the condensed scalars is at least the group
order. -/
theorem load_nobits_bytes (c : Consts) (dst : InnerProduct) (lrB : Bytes) (chunks : List Bytes)
    (hlr : lrB.length = 64 * dst.m_pLR.length) (hch : chunks.length = dst.m_pCondensed.length)
    (hchl : ∀ ch ∈ chunks, ch.length = nBytes) :
    ∃ lr, lr.length = dst.m_pLR.length ∧
      ∀ rest, load_nobits c dst (lrB ++ (chunks.flatten ++ rest)) =
        if ∃ ch ∈ chunks, c.groupOrder ≤ beValue ch then .error .InvalidScalar
        else .ok (⟨lr, chunks.map Scalar.mk⟩, rest) := by
  obtain ⟨lr, hlen, hlrX⟩ := load_LR_X_bytes dst.m_pLR lrB hlr
  refine ⟨lr, hlen, fun rest => ?_⟩
  unfold load_nobits
  rw [Reader.bind_ok (hlrX _)]
  have hc := load_Condensed_chunks c rest dst.m_pCondensed chunks hch hchl
  by_cases hk : ∃ ch ∈ chunks, c.groupOrder ≤ beValue ch
  · rw [if_pos hk] at hc ⊢
    exact Reader.bind_error _ hc
  · rw [if_neg hk] at hc ⊢
    rw [Reader.bind_ok hc]
    rfl

/-- Recovery-only decoding of a confidential proof validates the blinding scalar. -/
theorem Confidential.load_recovery_bytes (c : Consts) (dst : Confidential)
    (a s t1 t2 mu : Bytes) (fl : Nat) (rest : Bytes)
    (ha : a.length = nBytes) (hs : s.length = nBytes) (ht1 : t1.length = nBytes)
    (ht2 : t2.length = nBytes) (hmu : mu.length = nBytes) :
    Confidential.load c dst true (a ++ (s ++ (t1 ++ (t2 ++ (mu ++ (fl :: rest)))))) =
      if c.groupOrder ≤ beValue mu then .error .InvalidScalar
      else .ok (⟨⟨⟨a, if 1 &&& fl ≠ 0 then 1 else 0⟩, ⟨s, if 2 &&& fl ≠ 0 then 1 else 0⟩⟩,
        ⟨⟨t1, if 4 &&& fl ≠ 0 then 1 else 0⟩, ⟨t2, if 8 &&& fl ≠ 0 then 1 else 0⟩⟩,
        ⟨Scalar.zero⟩, ⟨mu⟩, Scalar.zero, dst.m_P_Tag.zeroed⟩, rest) := by
  unfold Confidential.load
  have e1 : uintBig.load nBytes (a ++ (s ++ (t1 ++ (t2 ++ (mu ++ (fl :: rest)))))) =
      .ok (a, s ++ (t1 ++ (t2 ++ (mu ++ (fl :: rest))))) := load_bytes_append ha _
  have e2 : uintBig.load nBytes (s ++ (t1 ++ (t2 ++ (mu ++ (fl :: rest))))) =
      .ok (s, t1 ++ (t2 ++ (mu ++ (fl :: rest)))) := load_bytes_append hs _
  have e3 : uintBig.load nBytes (t1 ++ (t2 ++ (mu ++ (fl :: rest)))) =
      .ok (t1, t2 ++ (mu ++ (fl :: rest))) := load_bytes_append ht1 _
  have e4 : uintBig.load nBytes (t2 ++ (mu ++ (fl :: rest))) =
      .ok (t2, mu ++ (fl :: rest)) := load_bytes_append ht2 _
  rw [Reader.bind_ok e1, Reader.bind_ok e2, Reader.bind_ok e3, Reader.bind_ok e4]
  simp only [if_true]
  by_cases hk : c.groupOrder ≤ beValue mu
  · rw [if_pos hk]
    exact Reader.bind_error _ (Scalar.load_bad c hmu hk _)
  · have e6 : load_u8 (fl :: rest) = .ok (fl, rest) := rfl
    rw [if_neg hk, Reader.bind_ok (Scalar.load_good c hmu (by omega) _), Reader.bind_ok e6]
    rfl

/-- Full-mode decoding of a confidential proof validates TauX, the blinding scalar,
the evaluation scalar and every condensed scalar: on a stream that holds all the
fields it fails with `InvalidScalar` exactly when one of them is at least the
group order, and otherwise the decoded scalars are the bytes read. -/
theorem Confidential.load_full_bytes (c : Consts) (dst : Confidential)
    (a s t1 t2 tau mu td lrB : Bytes) (chunks : List Bytes) (fb : Bytes)
    (ha : a.length = nBytes) (hs : s.length = nBytes) (ht1 : t1.length = nBytes)
    (ht2 : t2.length = nBytes) (htau : tau.length = nBytes) (hmu : mu.length = nBytes)
    (htd : td.length = nBytes) (hlr : lrB.length = 64 * dst.m_P_Tag.m_pLR.length)
    (hch : chunks.length = dst.m_P_Tag.m_pCondensed.length)
    (hchl : ∀ ch ∈ chunks, ch.length = nBytes)
    (hfb : fb.length = InnerProductFlags.N_Max c >>> 3) :
    ∃ lr, ∀ rest,
      Confidential.load c dst false
          (a ++ (s ++ (t1 ++ (t2 ++ (tau ++ (mu ++ (td ++
            (lrB ++ (chunks.flatten ++ (fb ++ rest))))))))))  =
        if c.groupOrder ≤ beValue tau ∨ c.groupOrder ≤ beValue mu ∨ c.groupOrder ≤ beValue td ∨
            ∃ ch ∈ chunks, c.groupOrder ≤ beValue ch then .error .InvalidScalar
        else .ok (⟨⟨⟨a, InnerProductFlags.get fb ((InnerProductFlags.N c + 0) % 2 ^ 32)⟩,
              ⟨s, InnerProductFlags.get fb ((InnerProductFlags.N c + 1) % 2 ^ 32)⟩⟩,
            ⟨⟨t1, InnerProductFlags.get fb ((InnerProductFlags.N c + 2) % 2 ^ 32)⟩,
              ⟨t2, InnerProductFlags.get fb ((InnerProductFlags.N c + 3) % 2 ^ 32)⟩⟩,
            ⟨⟨tau⟩⟩, ⟨mu⟩, ⟨td⟩, InnerProductFlags.load fb ⟨lr, chunks.map Scalar.mk⟩⟩, rest) := by
  obtain ⟨lr, -, hnb⟩ := load_nobits_bytes c dst.m_P_Tag lrB chunks hlr hch hchl
  refine ⟨lr, fun rest => ?_⟩
  unfold Confidential.load
  have e1 : uintBig.load nBytes (a ++ (s ++ (t1 ++ (t2 ++ (tau ++ (mu ++ (td ++
      (lrB ++ (chunks.flatten ++ (fb ++ rest)))))))))) =
      .ok (a, s ++ (t1 ++ (t2 ++ (tau ++ (mu ++ (td ++
        (lrB ++ (chunks.flatten ++ (fb ++ rest))))))))) := load_bytes_append ha _
  have e2 : uintBig.load nBytes (s ++ (t1 ++ (t2 ++ (tau ++ (mu ++ (td ++
      (lrB ++ (chunks.flatten ++ (fb ++ rest))))))))) =
      .ok (s, t1 ++ (t2 ++ (tau ++ (mu ++ (td ++
        (lrB ++ (chunks.flatten ++ (fb ++ rest)))))))) := load_bytes_append hs _
  have e3 : uintBig.load nBytes (t1 ++ (t2 ++ (tau ++ (mu ++ (td ++
      (lrB ++ (chunks.flatten ++ (fb ++ rest)))))))) =
      .ok (t1, t2 ++ (tau ++ (mu ++ (td ++
        (lrB ++ (chunks.flatten ++ (fb ++ rest))))))) := load_bytes_append ht1 _
  have e4 : uintBig.load nBytes (t2 ++ (tau ++ (mu ++ (td ++
      (lrB ++ (chunks.flatten ++ (fb ++ rest))))))) =
      .ok (t2, tau ++ (mu ++ (td ++
        (lrB ++ (chunks.flatten ++ (fb ++ rest)))))) := load_bytes_append ht2 _
  rw [Reader.bind_ok e1, Reader.bind_ok e2, Reader.bind_ok e3, Reader.bind_ok e4]
  simp only [Bool.false_eq_true, if_false]
  by_cases k1 : c.groupOrder ≤ beValue tau
  · rw [if_pos (Or.inl k1)]
    exact Reader.bind_error _ (Scalar.load_bad c htau k1 _)
  rw [Reader.bind_ok (Scalar.load_good c htau (by omega) _)]
  by_cases k2 : c.groupOrder ≤ beValue mu
  · rw [if_pos (Or.inr (Or.inl k2))]
    exact Reader.bind_error _ (Scalar.load_bad c hmu k2 _)
  rw [Reader.bind_ok (Scalar.load_good c hmu (by omega) _)]
  by_cases k3 : c.groupOrder ≤ beValue td
  · rw [if_pos (Or.inr (Or.inr (Or.inl k3)))]
    exact Reader.bind_error _ (Scalar.load_bad c htd k3 _)
  rw [Reader.bind_ok (Scalar.load_good c htd (by omega) _)]
  have hn := hnb (fb ++ rest)
  by_cases k4 : ∃ ch ∈ chunks, c.groupOrder ≤ beValue ch
  · rw [if_pos (Or.inr (Or.inr (Or.inr k4)))]
    rw [if_pos k4] at hn
    exact Reader.bind_error _ hn
  · rw [if_neg k4] at hn
    have hf : load_bytes (InnerProductFlags.N_Max c >>> 3) (fb ++ rest) = .ok (fb, rest) :=
      load_bytes_append hfb rest
    rw [if_neg (by rintro (h | h | h | h) <;> contradiction), Reader.bind_ok hn,
      Reader.bind_ok hf]
    rfl

/-- The inner-product decoder of its own (`load(Archive&, ECC::InnerProduct&)`)
validates every condensed scalar. -/
theorem InnerProduct_load_chunks (c : Consts) (dst : InnerProduct) (lrB : Bytes)
    (chunks : List Bytes) (fb : Bytes)
    (hlr : lrB.length = 64 * dst.m_pLR.length) (hch : chunks.length = dst.m_pCondensed.length)
    (hchl : ∀ ch ∈ chunks, ch.length = nBytes)
    (hfb : fb.length = InnerProductFlags.N_Max c >>> 3) :
    ∃ lr, ∀ rest, InnerProduct.load c dst (lrB ++ (chunks.flatten ++ (fb ++ rest))) =
      if ∃ ch ∈ chunks, c.groupOrder ≤ beValue ch then .error .InvalidScalar
      else .ok (InnerProductFlags.load fb ⟨lr, chunks.map Scalar.mk⟩, rest) := by
  obtain ⟨lr, -, hnb⟩ := load_nobits_bytes c dst lrB chunks hlr hch hchl
  refine ⟨lr, fun rest => ?_⟩
  unfold InnerProduct.load
  have hn := hnb (fb ++ rest)
  by_cases k4 : ∃ ch ∈ chunks, c.groupOrder ≤ beValue ch
  · rw [if_pos k4] at hn ⊢
    exact Reader.bind_error _ hn
  · rw [if_neg k4] at hn ⊢
    have hf : load_bytes (InnerProductFlags.N_Max c >>> 3) (fb ++ rest) = .ok (fb, rest) :=
      load_bytes_append hfb rest
    rw [Reader.bind_ok hn, Reader.bind_ok hf]
    rfl

/-- The kernel decoder validates the signature scalar, into any destination. -/
theorem TxKernel.load_scalar_field (c : Consts) (dst : TxKernel) (F : Nat)
    (cX nX kb rest : Bytes) (h1 : cX.length = nBytes) (h2 : nX.length = nBytes)
    (h3 : kb.length = nBytes) :
    (c.groupOrder ≤ beValue kb →
      TxKernel.load c dst (F :: (cX ++ (nX ++ (kb ++ rest)))) = .error .InvalidScalar) ∧
    (∀ k r, TxKernel.load c dst (F :: (cX ++ (nX ++ (kb ++ rest)))) = .ok (k, r) →
      beValue kb < c.groupOrder ∧ k.m_Signature.m_k = ⟨kb⟩) := by
  obtain ⟨recurse, hr⟩ := TxKernel.load_eq_body c dst
  have e0 : load_u8 (F :: (cX ++ (nX ++ (kb ++ rest)))) = .ok (F, cX ++ (nX ++ (kb ++ rest))) :=
    rfl
  have e1 : uintBig.load nBytes (cX ++ (nX ++ (kb ++ rest))) = .ok (cX, nX ++ (kb ++ rest)) :=
    load_bytes_append h1 _
  have e2 : uintBig.load nBytes (nX ++ (kb ++ rest)) = .ok (nX, kb ++ rest) :=
    load_bytes_append h2 _
  have hbad : c.groupOrder ≤ beValue kb →
      TxKernel.load c dst (F :: (cX ++ (nX ++ (kb ++ rest)))) = .error .InvalidScalar := by
    intro hk
    rw [hr]
    unfold TxKernel.load_Recursive_body
    rw [Reader.bind_ok e0, Reader.bind_ok e1, Reader.bind_ok e2]
    exact Reader.bind_error _ (Scalar.load_bad c h3 hk rest)
  refine ⟨hbad, fun k r h => ?_⟩
  have hlt : beValue kb < c.groupOrder := by
    by_contra hge
    rw [hbad (by omega)] at h
    cases h
  refine ⟨hlt, ?_⟩
  rw [hr] at h
  unfold TxKernel.load_Recursive_body at h
  rw [Reader.bind_ok e0, Reader.bind_ok e1, Reader.bind_ok e2,
    Reader.bind_ok (Scalar.load_good c h3 hlt rest)] at h
  obtain ⟨fee, s4, -, h⟩ := Reader.bind_ok_inv h
  obtain ⟨hMin, s5, -, h⟩ := Reader.bind_ok_inv h
  obtain ⟨hMax, s6, -, h⟩ := Reader.bind_ok_inv h
  obtain ⟨hl, s7, -, h⟩ := Reader.bind_ok_inv h
  obtain ⟨nested, s8, -, h⟩ := Reader.bind_ok_inv h
  obtain ⟨ext, s9, -, h⟩ := Reader.bind_ok_inv h
  have hk := Reader.ret_ok_inv h
  simp only [Prod.mk.injEq] at hk
  obtain ⟨rfl, -⟩ := hk
  rfl

/-- The offset decoder validates the blinding offset. -/
theorem TxBase_load_append (c : Consts) {bs : Bytes} (h : bs.length = nBytes) (rest : Bytes) :
    TxBase.load c (bs ++ rest) =
      if c.groupOrder ≤ beValue bs then .error .InvalidScalar else .ok (⟨⟨bs⟩⟩, rest) := by
  unfold TxBase.load
  by_cases hk : c.groupOrder ≤ beValue bs
  · rw [if_pos hk]
    exact Reader.bind_error _ (Scalar.load_bad c h hk rest)
  · rw [if_neg hk, Reader.bind_ok (Scalar.load_good c h (by omega) rest)]
    rfl

/-- The transaction decoder validates the offset that follows valid collections. -/
theorem Transaction.load_offset (c : Consts) (hc : c.WF) (p : Perishable) (e : Eternal)
    (hil : p.m_vInputs.length < 2 ^ 32) (hi : ∀ i ∈ p.m_vInputs, i.Valid)
    (hol : p.m_vOutputs.length < 2 ^ 32) (ho : ∀ o ∈ p.m_vOutputs, o.Valid c)
    (hkl : e.m_vKernels.length < 2 ^ 32) (hk : ∀ k ∈ e.m_vKernels, k.Valid c)
    {bs : Bytes} (h : bs.length = nBytes) (rest : Bytes) :
    Transaction.load c (Perishable.save c p ++ (Eternal.save e ++ (bs ++ rest))) =
      if c.groupOrder ≤ beValue bs then .error .InvalidScalar
      else .ok (⟨⟨p.m_vInputs, p.m_vOutputs.map (Output.decoded c)⟩, e, ⟨⟨bs⟩⟩⟩, rest) := by
  unfold Transaction.load
  rw [Reader.bind_ok ((Perishable_load_decodes hc hil hi hol ho).1 _),
    Reader.bind_ok ((Eternal_load_decodes hc hkl hk).1 _)]
  have hb := TxBase_load_append c h rest
  by_cases hg : c.groupOrder ≤ beValue bs
  · rw [if_pos hg] at hb ⊢
    exact Reader.bind_error _ hb
  · rw [if_neg hg] at hb ⊢
    rw [Reader.bind_ok hb]
    rfl

/-- The body decoder validates the offset, its first field. -/
theorem Body.load_bad_offset (c : Consts) {bs : Bytes} (h : bs.length = nBytes)
    (hk : c.groupOrder ≤ beValue bs) (rest : Bytes) :
    Body.load c (bs ++ rest) = .error .InvalidScalar := by
  unfold Body.load BodyBase.load
  refine Reader.bind_error _ (Reader.bind_error _ ?_)
  rw [TxBase_load_append c h rest, if_pos hk]

/-- The full-mode decoder of a public proof validates the scalar of its signature. -/
theorem Public.load_sig_scalar (c : Consts) (vB pX bs rest : Bytes) (y : Nat)
    (hv : vB.length = 8) (h1 : pX.length = nBytes) (h2 : bs.length = nBytes) :
    (c.groupOrder ≤ beValue bs →
      Public.load c false (vB ++ (pX ++ (y :: (bs ++ rest)))) = .error .InvalidScalar) ∧
    (∀ p r, Public.load c false (vB ++ (pX ++ (y :: (bs ++ rest)))) = .ok (p, r) →
      beValue bs < c.groupOrder ∧ p.m_Signature = ⟨⟨pX, y⟩, ⟨bs⟩⟩) := by
  have hs := Signature_load_append c h1 h2 y rest
  have hbad : c.groupOrder ≤ beValue bs →
      Public.load c false (vB ++ (pX ++ (y :: (bs ++ rest)))) = .error .InvalidScalar := by
    intro hk
    unfold Public.load
    rw [Reader.bind_ok (load_u64_append hv _)]
    simp only [Bool.false_eq_true, if_false]
    rw [if_pos hk] at hs
    exact Reader.bind_error _ hs
  refine ⟨hbad, fun p r h => ?_⟩
  have hlt : beValue bs < c.groupOrder := by
    by_contra hge
    rw [hbad (by omega)] at h
    cases h
  refine ⟨hlt, ?_⟩
  unfold Public.load at h
  rw [Reader.bind_ok (load_u64_append hv _)] at h
  simp only [Bool.false_eq_true, if_false] at h
  rw [if_neg (by omega)] at hs
  rw [Reader.bind_ok hs] at h
  obtain ⟨idx, s1, -, h⟩ := Reader.bind_ok_inv h
  obtain ⟨ty, s2, -, h⟩ := Reader.bind_ok_inv h
  obtain ⟨sub, s3, -, h⟩ := Reader.bind_ok_inv h
  obtain ⟨cs, s4, -, h⟩ := Reader.bind_ok_inv h
  have hk := Reader.ret_ok_inv h
  simp only [Prod.mk.injEq] at hk
  obtain ⟨rfl, -⟩ := hk
  rfl

/-! ## Readers consume from the front -/

theorem Consumes.ret_nil {α : Type} (x : α) : Consumes (Pure.pure x : Reader α) := by
  intro s y s1 h
  have := Reader.ret_ok_inv h
  simp only [Prod.mk.injEq] at this
  exact ⟨[], by rw [this.2]; rfl⟩

theorem Consumes.fail_any {α : Type} (e : Err) : Consumes (Reader.fail e : Reader α) := by
  intro s y s1 h
  cases h

theorem Consumes.bind_both {α β : Type} {m : Reader α} {f : α → Reader β} (hm : Consumes m)
    (hf : ∀ x, Consumes (f x)) : Consumes (m >>= f) := by
  intro s y s2 h
  obtain ⟨x, s1, h1, h2⟩ := Reader.bind_ok_inv h
  obtain ⟨u1, e1⟩ := hm s x s1 h1
  obtain ⟨u2, e2⟩ := hf x s1 y s2 h2
  exact ⟨u1 ++ u2, by rw [e1, e2, List.append_assoc]⟩

theorem Consumes.ite_both {α : Type} {p : Prop} [Decidable p] {a b : Reader α}
    (ha : Consumes a) (hb : Consumes b) : Consumes (if p then a else b) := by
  by_cases hp : p
  · rwa [if_pos hp]
  · rwa [if_neg hp]

theorem load_bytes_inv {n : Nat} {s b s1 : Bytes} (h : load_bytes n s = .ok (b, s1)) :
    b.length = n ∧ s = b ++ s1 := by
  unfold load_bytes at h
  by_cases hl : s.length < n
  · rw [if_pos hl] at h
    cases h
  · rw [if_neg hl] at h
    simp only [Except.ok.injEq, Prod.mk.injEq] at h
    obtain ⟨rfl, rfl⟩ := h
    exact ⟨by rw [List.length_take]; omega, (List.take_append_drop n s).symm⟩

theorem load_bytes_consumes (n : Nat) : Consumes (load_bytes n) :=
  fun _ b _ h => ⟨b, (load_bytes_inv h).2⟩

theorem load_u8_inv {s s1 : Bytes} {x : Nat} (h : load_u8 s = .ok (x, s1)) : s = x :: s1 := by
  cases s with
  | nil => cases h
  | cons b r =>
    simp only [load_u8, Except.ok.injEq, Prod.mk.injEq] at h
    rw [h.1, h.2]

theorem load_u8_consumes : Consumes load_u8 :=
  fun _ x _ h => ⟨[x], load_u8_inv h⟩

theorem load_u64_inv {s s1 : Bytes} {x : Nat} (h : load_u64 s = .ok (x, s1)) :
    ∃ b, b.length = 8 ∧ s = b ++ s1 ∧ x = beValue b := by
  unfold load_u64 at h
  obtain ⟨b, s2, hb, hr⟩ := Reader.bind_ok_inv h
  have := Reader.ret_ok_inv hr
  simp only [Prod.mk.injEq] at this
  obtain ⟨rfl, rfl⟩ := this
  exact ⟨b, (load_bytes_inv hb).1, (load_bytes_inv hb).2, rfl⟩

theorem load_u64_consumes : Consumes load_u64 :=
  Consumes.bind_both (load_bytes_consumes 8) fun _ => Consumes.ret_nil _

theorem load_u32_consumes : Consumes load_u32 :=
  Consumes.bind_both (load_bytes_consumes 4) fun _ => Consumes.ret_nil _

theorem Scalar_load_consumes (c : Consts) : Consumes (Scalar.load c) := by
  unfold Scalar.load
  refine Consumes.bind_both (load_bytes_consumes nBytes) fun v => ?_
  refine Consumes.bind_both ?_ fun _ => Consumes.ret_nil _
  unfold Scalar.TestValid
  exact Consumes.ite_both (Consumes.ret_nil _) (Consumes.fail_any _)

theorem HashLock_load_consumes : Consumes HashLock.load :=
  Consumes.bind_both (load_bytes_consumes nBytes) fun _ => Consumes.ret_nil _

theorem RelativeLock_load_inv {s s1 : Bytes} {x : RelativeLock}
    (h : RelativeLock.load s = .ok (x, s1)) :
    ∃ idB hB, idB.length = nBytes ∧ hB.length = 8 ∧ s = idB ++ (hB ++ s1) ∧
      x = ⟨idB, beValue hB⟩ := by
  unfold RelativeLock.load at h
  obtain ⟨idB, s2, hid, h⟩ := Reader.bind_ok_inv h
  obtain ⟨hv, s3, hh, h⟩ := Reader.bind_ok_inv h
  have := Reader.ret_ok_inv h
  simp only [Prod.mk.injEq] at this
  obtain ⟨rfl, rfl⟩ := this
  obtain ⟨hB, hlen, hs, rfl⟩ := load_u64_inv hh
  exact ⟨idB, hB, (load_bytes_inv hid).1, hlen, by rw [(load_bytes_inv hid).2, hs], rfl⟩

theorem RelativeLock_load_consumes : Consumes RelativeLock.load :=
  Consumes.bind_both (load_bytes_consumes nBytes) fun _ =>
    Consumes.bind_both load_u64_consumes fun _ => Consumes.ret_nil _

theorem loadN_consumes {α : Type} {ld : Reader α} (h : Consumes ld) :
    ∀ n, Consumes (loadN ld n) := by
  intro n
  induction n with
  | zero => exact Consumes.ret_nil _
  | succ n ih =>
    rw [loadN]
    exact Consumes.bind_both h fun _ => Consumes.bind_both ih fun _ => Consumes.ret_nil _

theorem TxKernel.TestRecursion_consumes (c : Consts) (n : Nat) :
    Consumes (TxKernel.TestRecursion c n) := by
  unfold TxKernel.TestRecursion
  exact Consumes.ite_both (Consumes.fail_any _) (Consumes.ret_nil _)

/-- The reader of the nested kernels inside the kernel decoder. -/
theorem TxKernel.nested_consumes (c : Consts) (recurse : Nat → Reader TxKernel)
    (hrec : ∀ n, Consumes (recurse n)) (nRecusion F : Nat) (val : TxKernel) :
    Consumes (if 0x40 &&& F ≠ 0 then do
        TxKernel.TestRecursion c ((nRecusion + 1) % 2 ^ 32)
        let nCount ← load_u32
        loadN (recurse ((nRecusion + 1) % 2 ^ 32)) nCount
      else pure val.m_vNested) :=
  Consumes.ite_both
    (Consumes.bind_both (TxKernel.TestRecursion_consumes c _) fun _ =>
      Consumes.bind_both load_u32_consumes fun _ => loadN_consumes (hrec _) _)
    (Consumes.ret_nil _)

theorem TxKernel.load_Recursive_body_consumes (c : Consts) (recurse : Nat → Reader TxKernel)
    (hrec : ∀ n, Consumes (recurse n)) (nRecusion : Nat) (val : TxKernel) :
    Consumes (TxKernel.load_Recursive_body c recurse nRecusion val) := by
  unfold TxKernel.load_Recursive_body
  refine Consumes.bind_both load_u8_consumes fun nFlags => ?_
  refine Consumes.bind_both (load_bytes_consumes nBytes) fun cX => ?_
  refine Consumes.bind_both (load_bytes_consumes nBytes) fun nX => ?_
  refine Consumes.bind_both (Scalar_load_consumes c) fun k => ?_
  refine Consumes.bind_both (Consumes.ite_both load_u64_consumes (Consumes.ret_nil _))
    fun fee => ?_
  refine Consumes.bind_both (Consumes.ite_both load_u64_consumes (Consumes.ret_nil _))
    fun hMin => ?_
  refine Consumes.bind_both (Consumes.ite_both
    (Consumes.bind_both load_u64_consumes fun _ => Consumes.ret_nil _) (Consumes.ret_nil _))
    fun hMax => ?_
  refine Consumes.bind_both (Consumes.ite_both
    (Consumes.bind_both HashLock_load_consumes fun _ => Consumes.ret_nil _)
    (Consumes.ret_nil _)) fun hl => ?_
  refine Consumes.bind_both (TxKernel.nested_consumes c recurse hrec nRecusion nFlags val)
    fun nested => ?_
  refine Consumes.bind_both (Consumes.ite_both ?_ (Consumes.ret_nil _))
    fun ext => Consumes.ret_nil _
  refine Consumes.bind_both load_u8_consumes fun nFlags2 => ?_
  refine Consumes.bind_both (Consumes.ite_both load_u64_consumes (Consumes.ret_nil _))
    fun ae => ?_
  exact Consumes.bind_both (Consumes.ite_both
    (Consumes.bind_both RelativeLock_load_consumes fun _ => Consumes.ret_nil _)
    (Consumes.ret_nil _)) fun rl => Consumes.ret_nil _

theorem TxKernel.load_Recursive_consumes (c : Consts) :
    ∀ (fuel nRecusion : Nat) (val : TxKernel),
      Consumes (TxKernel.load_Recursive c fuel nRecusion val) := by
  intro fuel
  induction fuel with
  | zero =>
    intro n val
    exact TxKernel.load_Recursive_body_consumes c _ (fun _ => Consumes.fail_any _) n val
  | succ fuel ih =>
    intro n val
    exact TxKernel.load_Recursive_body_consumes c _ (fun m => ih m TxKernel.fresh) n val

/-- `load` is the decoder body over a recursive call that only consumes bytes. -/
theorem TxKernel.load_eq_body_consumes (c : Consts) (val : TxKernel) :
    ∃ recurse, (∀ n, Consumes (recurse n)) ∧
      TxKernel.load c val = TxKernel.load_Recursive_body c recurse 0 val := by
  unfold TxKernel.load
  cases c.s_MaxRecursionDepth with
  | zero => exact ⟨_, fun _ => Consumes.fail_any _, rfl⟩
  | succ n => exact ⟨_, fun m => TxKernel.load_Recursive_consumes c n m TxKernel.fresh, rfl⟩

/-! ## Extended block of the kernel decoder -/

theorem Scalar_load_inv {c : Consts} {s s1 : Bytes} {x : Scalar}
    (h : Scalar.load c s = .ok (x, s1)) : x.m_Value.length = nBytes ∧ s = x.m_Value ++ s1 := by
  unfold Scalar.load at h
  obtain ⟨v, s2, hv, h⟩ := Reader.bind_ok_inv h
  obtain ⟨u, s3, ht, h⟩ := Reader.bind_ok_inv h
  have hr := Reader.ret_ok_inv h
  simp only [Prod.mk.injEq] at hr
  obtain ⟨rfl, rfl⟩ := hr
  have e : s1 = s2 := by
    unfold Scalar.TestValid at ht
    by_cases hval : (⟨v⟩ : Scalar).IsValid c
    · rw [if_pos hval] at ht
      have := Reader.ret_ok_inv ht
      simp only [Prod.mk.injEq] at this
      exact this.2
    · rw [if_neg hval] at ht
      cases ht
  subst e
  exact load_bytes_inv hv

theorem load_u64_opt_inv {p : Prop} [Decidable p] {s s1 : Bytes} {x : Nat}
    (h : (if p then load_u64 else Pure.pure 0) s = .ok (x, s1)) :
    ∃ b, b.length = (if p then 8 else 0) ∧ s = b ++ s1 ∧ x = (if p then beValue b else 0) := by
  by_cases hp : p
  · rw [if_pos hp] at h
    obtain ⟨b, hlen, hs, hx⟩ := load_u64_inv h
    exact ⟨b, by rw [if_pos hp]; exact hlen, hs, by rw [if_pos hp]; exact hx⟩
  · obtain ⟨hx, hs⟩ := Reader.ite_ret_inv hp h
    exact ⟨[], by rw [if_neg hp]; rfl, by rw [hs]; rfl, by rw [if_neg hp]; exact hx⟩

theorem RelativeLock_opt_inv {p : Prop} [Decidable p] {d : Option RelativeLock} {s s1 : Bytes}
    {x : Option RelativeLock}
    (h : (if p then (RelativeLock.load >>= fun y => Pure.pure (some y)) else Pure.pure d) s =
      .ok (x, s1)) :
    ∃ b, b.length = (if p then 40 else 0) ∧ s = b ++ s1 ∧
      x = (if p then some ⟨b.take 32, beValue (b.drop 32)⟩ else d) := by
  by_cases hp : p
  · rw [if_pos hp] at h
    obtain ⟨y, s2, hy, hr⟩ := Reader.bind_ok_inv h
    have := Reader.ret_ok_inv hr
    simp only [Prod.mk.injEq] at this
    obtain ⟨rfl, rfl⟩ := this
    obtain ⟨idB, hB, hid, hh, hs, rfl⟩ := RelativeLock_load_inv hy
    have hid32 : idB.length = 32 := hid
    refine ⟨idB ++ hB, ?_, by rw [hs, List.append_assoc], ?_⟩
    · rw [if_pos hp, List.length_append, hid32, hh]
    · rw [if_pos hp, List.take_left' hid32, List.drop_left' hid32]
  · obtain ⟨hx, hs⟩ := Reader.ite_ret_inv hp h
    exact ⟨[], by rw [if_neg hp]; rfl, by rw [hs]; rfl, by rw [if_neg hp]; exact hx⟩

/-- What a successful decode tells about the extended block when the flag byte
announces one: the bytes consumed end with the second flag byte `F2`, then the
eight bytes of the asset emission when bit 0 of `F2` is set, then the forty bytes
of the relative lock when bit 1 is set; the asset emission is the value of those
eight bytes, or 0 when the bit is clear; the relative lock is read from those forty
bytes, or is the destination's when the bit is clear; the embeddable flag is set
when bit 2 is set and is the destination's otherwise. -/
theorem TxKernel.load_ext_inv (c : Consts) (val : TxKernel) (F : Nat) (t : Bytes)
    (k : TxKernel) (rest : Bytes) (h : TxKernel.load c val (F :: t) = .ok (k, rest))
    (h80 : 0x80 &&& F ≠ 0) :
    ∃ pre F2 aeB rlB, t = pre ++ (F2 :: (aeB ++ (rlB ++ rest))) ∧ 96 ≤ pre.length ∧
      aeB.length = (if 1 &&& F2 ≠ 0 then 8 else 0) ∧
      rlB.length = (if 2 &&& F2 ≠ 0 then 40 else 0) ∧
      k.m_AssetEmission = (if 1 &&& F2 ≠ 0 then beValue aeB else 0) ∧
      k.m_pRelativeLock =
        (if 2 &&& F2 ≠ 0 then some ⟨rlB.take 32, beValue (rlB.drop 32)⟩
          else val.m_pRelativeLock) ∧
      k.m_CanEmbed = (if 4 &&& F2 ≠ 0 then true else val.m_CanEmbed) := by
  obtain ⟨recurse, hrec, hr⟩ := TxKernel.load_eq_body_consumes c val
  rw [hr] at h
  unfold TxKernel.load_Recursive_body at h
  have e0 : load_u8 (F :: t) = .ok (F, t) := rfl
  rw [Reader.bind_ok e0] at h
  obtain ⟨cX, s1, hcx, h⟩ := Reader.bind_ok_inv h
  obtain ⟨nX, s2, hnx, h⟩ := Reader.bind_ok_inv h
  obtain ⟨sk, s3, hsk, h⟩ := Reader.bind_ok_inv h
  obtain ⟨fee, s4, hfee, h⟩ := Reader.bind_ok_inv h
  obtain ⟨hMin, s5, hmin, h⟩ := Reader.bind_ok_inv h
  obtain ⟨hMax, s6, hmaxr, h⟩ := Reader.bind_ok_inv h
  obtain ⟨hl, s7, hhl, h⟩ := Reader.bind_ok_inv h
  obtain ⟨nested, s8, hnested, h⟩ := Reader.bind_ok_inv h
  obtain ⟨ext, s9, hext, h⟩ := Reader.bind_ok_inv h
  have hk := Reader.ret_ok_inv h
  simp only [Prod.mk.injEq] at hk
  obtain ⟨rfl, rfl⟩ := hk
  simp only [TxKernel.m_pRelativeLock, TxKernel.m_CanEmbed, TxKernel.m_AssetEmission]
  obtain ⟨l1, f1⟩ := load_bytes_inv (show load_bytes nBytes t = _ from hcx)
  obtain ⟨l2, f2⟩ := load_bytes_inv (show load_bytes nBytes s1 = _ from hnx)
  obtain ⟨l3, f3⟩ := Scalar_load_inv hsk
  obtain ⟨u4, f4⟩ := Consumes.ite_both load_u64_consumes (Consumes.ret_nil _) _ _ _ hfee
  obtain ⟨u5, f5⟩ := Consumes.ite_both load_u64_consumes (Consumes.ret_nil _) _ _ _ hmin
  obtain ⟨u6, f6⟩ := Consumes.ite_both
    (Consumes.bind_both load_u64_consumes fun _ => Consumes.ret_nil _) (Consumes.ret_nil _)
    _ _ _ hmaxr
  obtain ⟨u7, f7⟩ := Consumes.ite_both
    (Consumes.bind_both HashLock_load_consumes fun _ => Consumes.ret_nil _)
    (Consumes.ret_nil _) _ _ _ hhl
  obtain ⟨u8, f8⟩ := TxKernel.nested_consumes c recurse hrec 0 F val _ _ _ hnested
  rw [if_pos h80] at hext
  obtain ⟨F2, t1, hF2, hext⟩ := Reader.bind_ok_inv hext
  obtain ⟨ae, t2, hae, hext⟩ := Reader.bind_ok_inv hext
  obtain ⟨rl, t3, hrl, hext⟩ := Reader.bind_ok_inv hext
  have he := Reader.ret_ok_inv hext
  simp only [Prod.mk.injEq] at he
  obtain ⟨rfl, rfl⟩ := he
  have g0 := load_u8_inv hF2
  obtain ⟨aeB, la, ga, va⟩ := load_u64_opt_inv hae
  obtain ⟨rlB, lr, gr, vr⟩ := RelativeLock_opt_inv hrl
  refine ⟨cX ++ (nX ++ (sk.m_Value ++ (u4 ++ (u5 ++ (u6 ++ (u7 ++ u8)))))), F2, aeB, rlB, ?_, ?_,
    la, lr, va, vr, rfl⟩
  · rw [f1, f2, f3, f4, f5, f6, f7, f8, g0, ga, gr]
    simp only [List.append_assoc]
  · have n1 : cX.length = 32 := l1
    have n2 : nX.length = 32 := l2
    have n3 : sk.m_Value.length = 32 := l3
    simp only [List.length_append, n1, n2, n3]
    omega

theorem HashLock_opt_append {p : Prop} [Decidable p] (d : Option HashLock) {bs : Bytes}
    (h : bs.length = if p then 32 else 0) (rest : Bytes) :
    (if p then (HashLock.load >>= fun x => Pure.pure (some x)) else Pure.pure d) (bs ++ rest) =
      .ok (if p then some ⟨bs⟩ else d, rest) := by
  by_cases hp : p
  · rw [if_pos hp] at h
    have e : HashLock.load (bs ++ rest) = .ok (⟨bs⟩, rest) := by
      unfold HashLock.load
      rw [Reader.bind_ok (show uintBig.load nBytes (bs ++ rest) = .ok (bs, rest) from
        load_bytes_append h rest)]
      rfl
    rw [if_pos hp, if_pos hp, Reader.bind_ok e]
    rfl
  · rw [if_neg hp] at h
    rw [if_neg hp, if_neg hp, List.length_eq_zero.mp h]
    rfl

theorem RelativeLock_opt_append {p : Prop} [Decidable p] (d : Option RelativeLock)
    {idB hB : Bytes} (h1 : idB.length = if p then 32 else 0)
    (h2 : hB.length = if p then 8 else 0) (rest : Bytes) :
    (if p then (RelativeLock.load >>= fun x => Pure.pure (some x)) else Pure.pure d)
        (idB ++ (hB ++ rest)) =
      .ok (if p then some ⟨idB, beValue hB⟩ else d, rest) := by
  by_cases hp : p
  · rw [if_pos hp] at h1 h2
    have e : RelativeLock.load (idB ++ (hB ++ rest)) = .ok (⟨idB, beValue hB⟩, rest) := by
      unfold RelativeLock.load
      rw [Reader.bind_ok (show uintBig.load nBytes (idB ++ (hB ++ rest)) = .ok (idB, hB ++ rest)
        from load_bytes_append h1 _), Reader.bind_ok (load_u64_append h2 rest)]
      rfl
    rw [if_pos hp, if_pos hp, Reader.bind_ok e]
    rfl
  · rw [if_neg hp] at h1 h2
    rw [if_neg hp, if_neg hp, List.length_eq_zero.mp h1, List.length_eq_zero.mp h2]
    rfl

/-- The extended block of the decoder on a second flag byte followed by the fields
it announces. -/
theorem TxKernel.load_ext_bytes (val : TxKernel) (F2 : Nat) (aeB idB hB tail : Bytes)
    (ha : aeB.length = if 1 &&& F2 ≠ 0 then 8 else 0)
    (hi : idB.length = if 2 &&& F2 ≠ 0 then 32 else 0)
    (hh : hB.length = if 2 &&& F2 ≠ 0 then 8 else 0) :
    (do
      let nFlags2 ← load_u8
      let ae ← (if 1 &&& nFlags2 ≠ 0 then load_u64 else pure 0)
      let rl ← (if 2 &&& nFlags2 ≠ 0 then do
          let x ← RelativeLock.load
          pure (some x)
        else pure val.m_pRelativeLock)
      pure (ae, rl, if 4 &&& nFlags2 ≠ 0 then true else val.m_CanEmbed) :
        Reader (Nat × Option RelativeLock × Bool)) (F2 :: (aeB ++ (idB ++ (hB ++ tail)))) =
      .ok ((if 1 &&& F2 ≠ 0 then beValue aeB else 0,
        if 2 &&& F2 ≠ 0 then some ⟨idB, beValue hB⟩ else val.m_pRelativeLock,
        if 4 &&& F2 ≠ 0 then true else val.m_CanEmbed), tail) := by
  have e0 : load_u8 (F2 :: (aeB ++ (idB ++ (hB ++ tail)))) =
      .ok (F2, aeB ++ (idB ++ (hB ++ tail))) := rfl
  rw [Reader.bind_ok e0, Reader.bind_ok (load_u64_opt_append ha _),
    Reader.bind_ok (RelativeLock_opt_append val.m_pRelativeLock hi hh tail)]
  rfl

/-- Decoding a stream without nested kernels whose flag byte announces an extended
block: the explicit result, into any destination. -/
theorem TxKernel.load_flat_ext (c : Consts) (val : TxKernel) (F F2 : Nat)
    (cX nX kb feeB minB dhB hlB aeB idB hB tail : Bytes)
    (h1 : cX.length = nBytes) (h2 : nX.length = nBytes) (h3 : kb.length = nBytes)
    (hk : beValue kb < c.groupOrder)
    (hf : feeB.length = if 2 &&& F ≠ 0 then 8 else 0)
    (hm : minB.length = if 4 &&& F ≠ 0 then 8 else 0)
    (hd : dhB.length = if 8 &&& F ≠ 0 then 8 else 0)
    (hhl : hlB.length = if 0x20 &&& F ≠ 0 then 32 else 0)
    (h40 : 0x40 &&& F = 0) (h80 : 0x80 &&& F ≠ 0)
    (ha : aeB.length = if 1 &&& F2 ≠ 0 then 8 else 0)
    (hi : idB.length = if 2 &&& F2 ≠ 0 then 32 else 0)
    (hh : hB.length = if 2 &&& F2 ≠ 0 then 8 else 0) :
    TxKernel.load c val
        (F :: (cX ++ (nX ++ (kb ++ (feeB ++ (minB ++ (dhB ++
          (hlB ++ (F2 :: (aeB ++ (idB ++ (hB ++ tail)))))))))))) =
      .ok (TxKernel.mk ⟨cX, 1 &&& F⟩ ⟨⟨nX, if 0x10 &&& F ≠ 0 then 1 else 0⟩, ⟨kb⟩⟩
        (if 2 &&& F ≠ 0 then beValue feeB else 0)
        ⟨if 4 &&& F ≠ 0 then beValue minB else 0,
          if 8 &&& F ≠ 0 then ((if 4 &&& F ≠ 0 then beValue minB else 0) + beValue dhB) % 2 ^ 64
          else MaxHeight⟩
        (if 0x20 &&& F ≠ 0 then some ⟨hlB⟩ else val.m_pHashLock)
        (if 2 &&& F2 ≠ 0 then some ⟨idB, beValue hB⟩ else val.m_pRelativeLock)
        val.m_vNested
        (if 1 &&& F2 ≠ 0 then beValue aeB else 0)
        (if 4 &&& F2 ≠ 0 then true else val.m_CanEmbed), tail) := by
  obtain ⟨recurse, hr⟩ := TxKernel.load_eq_body c val
  rw [hr, TxKernel.load_Recursive_body_front c recurse 0 val F cX nX kb feeB minB dhB _ h1 h2
    h3 hk hf hm hd, Reader.bind_ok (HashLock_opt_append val.m_pHashLock hhl _),
    if_neg (show ¬ (0x40 &&& F ≠ 0) from fun h => h h40), if_pos h80,
    Reader.bind_ok (Reader.pure_apply _ _),
    Reader.bind_ok (TxKernel.load_ext_bytes val F2 aeB idB hB tail ha hi hh)]
  rfl

/-! ## Settled claims -/

/-- C1: for every structurally valid kernel (valid scalars and Y signs, integers in
range, nested lists shorter than `2 ^ 32`, nesting depth within the recursion limit),
whatever optional fields it carries, decoding its encoding into a freshly constructed
kernel succeeds, consumes all the bytes and yields the same kernel. -/
theorem C1_kernel_roundtrip (c : Consts) (hmax : c.s_MaxRecursionDepth + 1 < 2 ^ 32)
    (k : TxKernel) (hk : k.Valid c) :
    TxKernel.load c TxKernel.fresh (TxKernel.save k) = .ok (k, []) :=
  (TxKernel.load_Recursive_decodes c hmax c.s_MaxRecursionDepth 0 k hk.1
    (by have := hk.2; omega) hk.2).ok0

theorem C1_kernel_roundtrip_witness :
    exampleConsts.s_MaxRecursionDepth + 1 < 2 ^ 32 ∧ exampleKernel2.Valid exampleConsts ∧
    TxKernel.load exampleConsts TxKernel.fresh (TxKernel.save exampleKernel2) =
      .ok (exampleKernel2, []) :=
  ⟨by decide, by decide, C1_kernel_roundtrip exampleConsts (by decide) exampleKernel2 (by decide)⟩

set_option maxRecDepth 100000 in
/-- C2 (as stated, refuted): a valid recovery-only output whose public proof has a
non-zero signature does not decode back to itself: the decoder returns the output
with the signature zeroed. -/
theorem C2_output_roundtrip_counterexample :
    exampleOutputR.Valid exampleConsts ∧
    Output.load exampleConsts Output.fresh (Output.save exampleConsts exampleOutputR) =
      .ok (exampleOutputRDecoded, []) ∧
    exampleOutputRDecoded ≠ exampleOutputR :=
  ⟨by decide, by rfl, by decide⟩

/-- C2 (amended): for every structurally valid output, decoding its encoding into a
freshly constructed output succeeds and yields the output with its proofs redacted
when the recovery-only flag is set (confidential proof: Part3, evaluation scalar and
inner product zero; public proof: signature zero); when the flag is clear, and also
when the output carries no proof, the result is the output itself. -/
theorem C2_output_roundtrip (c : Consts) (hc : c.WF) (o : Output) (ho : o.Valid c) :
    Output.load c Output.fresh (Output.save c o) = .ok (o.decoded c, []) ∧
    (o.m_RecoveryOnly = false → o.decoded c = o) ∧
    (o.m_pConfidential = none → o.m_pPublic = none → o.decoded c = o) := by
  refine ⟨(Output_load_decodes hc ho).ok0, fun h => ?_, fun h1 h2 => ?_⟩
  · unfold Output.decoded
    rw [h]
    rfl
  · unfold Output.decoded
    split
    · rw [h1, h2]
      cases o
      simp_all
    · rfl

theorem C2_output_roundtrip_witness :
    exampleConsts.WF ∧ exampleOutput.Valid exampleConsts ∧
    (Output.load exampleConsts Output.fresh (Output.save exampleConsts exampleOutput) =
      .ok (exampleOutput.decoded exampleConsts, []) ∧
    (exampleOutput.m_RecoveryOnly = false → exampleOutput.decoded exampleConsts = exampleOutput) ∧
    (exampleOutput.m_pConfidential = none → exampleOutput.m_pPublic = none →
      exampleOutput.decoded exampleConsts = exampleOutput)) :=
  ⟨by decide, by decide, C2_output_roundtrip exampleConsts (by decide) exampleOutput (by decide)⟩

/-- C3: for every kernel tree with valid fields, decoding its encoding succeeds when
the nesting depth along every branch is at most the recursion limit and fails with
`RecursionLimitExceeded` when some branch, at whatever child position and level,
nests past the limit. -/
theorem C3_recursion_bound (c : Consts) (hmax : c.s_MaxRecursionDepth + 1 < 2 ^ 32)
    (k : TxKernel) (hwf : k.wellFormed c = true) (rest : Bytes) :
    (k.depth ≤ c.s_MaxRecursionDepth →
      TxKernel.load c TxKernel.fresh (TxKernel.save k ++ rest) = .ok (k, rest)) ∧
    (c.s_MaxRecursionDepth < k.depth →
      TxKernel.load c TxKernel.fresh (TxKernel.save k ++ rest) =
        .error .RecursionLimitExceeded) :=
  ⟨fun hd => (TxKernel.load_Recursive_decodes c hmax c.s_MaxRecursionDepth 0 k hwf
      (by omega) hd).1 rest,
   fun hd => TxKernel.load_Recursive_fails c hmax c.s_MaxRecursionDepth 0 k hwf
      (Nat.zero_le _) (by omega) (by omega) rest⟩

theorem C3_recursion_bound_witness :
    exampleConsts.s_MaxRecursionDepth + 1 < 2 ^ 32 ∧
    exampleKernel3.wellFormed exampleConsts = true ∧
    exampleConsts.s_MaxRecursionDepth < exampleKernel3.depth ∧
    ((exampleKernel3.depth ≤ exampleConsts.s_MaxRecursionDepth →
      TxKernel.load exampleConsts TxKernel.fresh (TxKernel.save exampleKernel3 ++ []) =
        .ok (exampleKernel3, [])) ∧
    (exampleConsts.s_MaxRecursionDepth < exampleKernel3.depth →
      TxKernel.load exampleConsts TxKernel.fresh (TxKernel.save exampleKernel3 ++ []) =
        .error .RecursionLimitExceeded)) :=
  ⟨by decide, by decide, by decide,
    C3_recursion_bound exampleConsts (by decide) exampleKernel3 (by decide) []⟩

/-- C4: decoding a scalar from 32 bytes fails with `InvalidScalar` exactly when the
big-endian value of the bytes is at least the group order, and otherwise succeeds
with a scalar whose value is the bytes read, leaving the rest of the cursor.  The
same holds at every scalar field a decoder reaches: the scalar `k` of a signature
(signature decoder, full-mode public proof, kernel into any destination), the
blinding scalar Mu of a recovery-only confidential proof, the scalars TauX, Mu, tDot
and every condensed scalar of a full-mode confidential proof and of an inner
product, and the offset of a transaction and of a block body: on a stream that
holds the fields before it, the decoder fails with `InvalidScalar` when the 32
bytes at that field are at least the group order, and when it succeeds the decoded
field is those bytes. -/
theorem C4_scalar_validation (c : Consts) (bs rest : Bytes) (h : bs.length = nBytes) :
    (Scalar.load c (bs ++ rest) = .error .InvalidScalar ↔ c.groupOrder ≤ beValue bs) ∧
    (beValue bs < c.groupOrder → Scalar.load c (bs ++ rest) = .ok (⟨bs⟩, rest)) ∧
    (∀ (pX : Bytes) (y : Nat), pX.length = nBytes →
      Signature.load c (pX ++ (y :: (bs ++ rest))) =
        if c.groupOrder ≤ beValue bs then .error .InvalidScalar
        else .ok (⟨⟨pX, y⟩, ⟨bs⟩⟩, rest)) ∧
    (∀ (vB pX : Bytes) (y : Nat), vB.length = 8 → pX.length = nBytes →
      (c.groupOrder ≤ beValue bs →
        Public.load c false (vB ++ (pX ++ (y :: (bs ++ rest)))) = .error .InvalidScalar) ∧
      (∀ p r, Public.load c false (vB ++ (pX ++ (y :: (bs ++ rest)))) = .ok (p, r) →
        beValue bs < c.groupOrder ∧ p.m_Signature = ⟨⟨pX, y⟩, ⟨bs⟩⟩)) ∧
    (∀ (dst : TxKernel) (F : Nat) (cX nX : Bytes), cX.length = nBytes → nX.length = nBytes →
      (c.groupOrder ≤ beValue bs →
        TxKernel.load c dst (F :: (cX ++ (nX ++ (bs ++ rest)))) = .error .InvalidScalar) ∧
      (∀ k r, TxKernel.load c dst (F :: (cX ++ (nX ++ (bs ++ rest)))) = .ok (k, r) →
        beValue bs < c.groupOrder ∧ k.m_Signature.m_k = ⟨bs⟩)) ∧
    (∀ (dst : Confidential) (a s t1 t2 : Bytes) (fl : Nat), a.length = nBytes →
      s.length = nBytes → t1.length = nBytes → t2.length = nBytes →
      Confidential.load c dst true (a ++ (s ++ (t1 ++ (t2 ++ (bs ++ (fl :: rest)))))) =
        if c.groupOrder ≤ beValue bs then .error .InvalidScalar
        else .ok (⟨⟨⟨a, if 1 &&& fl ≠ 0 then 1 else 0⟩, ⟨s, if 2 &&& fl ≠ 0 then 1 else 0⟩⟩,
          ⟨⟨t1, if 4 &&& fl ≠ 0 then 1 else 0⟩, ⟨t2, if 8 &&& fl ≠ 0 then 1 else 0⟩⟩,
          ⟨Scalar.zero⟩, ⟨bs⟩, Scalar.zero, dst.m_P_Tag.zeroed⟩, rest)) ∧
    (∀ (dst : Confidential) (a s t1 t2 tau mu td lrB : Bytes) (chunks : List Bytes)
      (fb : Bytes), a.length = nBytes → s.length = nBytes → t1.length = nBytes →
      t2.length = nBytes → tau.length = nBytes → mu.length = nBytes → td.length = nBytes →
      lrB.length = 64 * dst.m_P_Tag.m_pLR.length →
      chunks.length = dst.m_P_Tag.m_pCondensed.length → (∀ ch ∈ chunks, ch.length = nBytes) →
      fb.length = InnerProductFlags.N_Max c >>> 3 →
      ∃ lr, ∀ rest1,
        Confidential.load c dst false
            (a ++ (s ++ (t1 ++ (t2 ++ (tau ++ (mu ++ (td ++
              (lrB ++ (chunks.flatten ++ (fb ++ rest1)))))))))) =
          if c.groupOrder ≤ beValue tau ∨ c.groupOrder ≤ beValue mu ∨
              c.groupOrder ≤ beValue td ∨ ∃ ch ∈ chunks, c.groupOrder ≤ beValue ch
          then .error .InvalidScalar
          else .ok (⟨⟨⟨a, InnerProductFlags.get fb ((InnerProductFlags.N c + 0) % 2 ^ 32)⟩,
                ⟨s, InnerProductFlags.get fb ((InnerProductFlags.N c + 1) % 2 ^ 32)⟩⟩,
              ⟨⟨t1, InnerProductFlags.get fb ((InnerProductFlags.N c + 2) % 2 ^ 32)⟩,
                ⟨t2, InnerProductFlags.get fb ((InnerProductFlags.N c + 3) % 2 ^ 32)⟩⟩,
              ⟨⟨tau⟩⟩, ⟨mu⟩, ⟨td⟩, InnerProductFlags.load fb ⟨lr, chunks.map Scalar.mk⟩⟩,
            rest1)) ∧
    (∀ (dst : InnerProduct) (lrB : Bytes) (chunks : List Bytes) (fb : Bytes),
      lrB.length = 64 * dst.m_pLR.length → chunks.length = dst.m_pCondensed.length →
      (∀ ch ∈ chunks, ch.length = nBytes) → fb.length = InnerProductFlags.N_Max c >>> 3 →
      ∃ lr, ∀ rest1, InnerProduct.load c dst (lrB ++ (chunks.flatten ++ (fb ++ rest1))) =
        if ∃ ch ∈ chunks, c.groupOrder ≤ beValue ch then .error .InvalidScalar
        else .ok (InnerProductFlags.load fb ⟨lr, chunks.map Scalar.mk⟩, rest1)) ∧
    (∀ (dst : List Scalar) (chunks : List Bytes), chunks.length = dst.length →
      (∀ ch ∈ chunks, ch.length = nBytes) →
      load_Condensed c dst (chunks.flatten ++ rest) =
        if ∃ ch ∈ chunks, c.groupOrder ≤ beValue ch then .error .InvalidScalar
        else .ok (chunks.map Scalar.mk, rest)) ∧
    TxBase.load c (bs ++ rest) =
      (if c.groupOrder ≤ beValue bs then .error .InvalidScalar else .ok (⟨⟨bs⟩⟩, rest)) ∧
    (c.WF → ∀ (p : Perishable) (e : Eternal), p.m_vInputs.length < 2 ^ 32 →
      (∀ i ∈ p.m_vInputs, i.Valid) → p.m_vOutputs.length < 2 ^ 32 →
      (∀ o ∈ p.m_vOutputs, o.Valid c) → e.m_vKernels.length < 2 ^ 32 →
      (∀ k ∈ e.m_vKernels, k.Valid c) →
      Transaction.load c (Perishable.save c p ++ (Eternal.save e ++ (bs ++ rest))) =
        if c.groupOrder ≤ beValue bs then .error .InvalidScalar
        else .ok (⟨⟨p.m_vInputs, p.m_vOutputs.map (Output.decoded c)⟩, e, ⟨⟨bs⟩⟩⟩, rest)) ∧
    (c.groupOrder ≤ beValue bs → Body.load c (bs ++ rest) = .error .InvalidScalar) := by
  refine ⟨?_, fun hlt => Scalar.load_good c h hlt rest,
    fun pX y h1 => Signature_load_append c h1 h y rest,
    fun vB pX y hv h1 => Public.load_sig_scalar c vB pX bs rest y hv h1 h,
    fun dst F cX nX h1 h2 => TxKernel.load_scalar_field c dst F cX nX bs rest h1 h2 h,
    fun dst a s t1 t2 fl ha hs ht1 ht2 =>
      Confidential.load_recovery_bytes c dst a s t1 t2 bs fl rest ha hs ht1 ht2 h,
    fun dst a s t1 t2 tau mu td lrB chunks fb ha hs ht1 ht2 htau hmu htd hlr hch hchl hfb =>
      Confidential.load_full_bytes c dst a s t1 t2 tau mu td lrB chunks fb ha hs ht1 ht2 htau
        hmu htd hlr hch hchl hfb,
    fun dst lrB chunks fb hlr hch hchl hfb =>
      InnerProduct_load_chunks c dst lrB chunks fb hlr hch hchl hfb,
    fun dst chunks hch hchl => load_Condensed_chunks c rest dst chunks hch hchl,
    TxBase_load_append c h rest,
    fun hc p e hil hi hol ho hkl hk =>
      Transaction.load_offset c hc p e hil hi hol ho hkl hk h rest,
    fun hk => Body.load_bad_offset c h hk rest⟩
  rw [Scalar.load_append c h rest]
  by_cases hv : c.groupOrder ≤ beValue bs
  · rw [if_pos hv]
    exact ⟨fun _ => hv, fun _ => rfl⟩
  · rw [if_neg hv]
    exact ⟨fun he => (by cases he), fun hge => absurd hge hv⟩

set_option maxRecDepth 100000 in
theorem C4_scalar_validation_witness :
    (List.replicate 32 255).length = nBytes ∧
    exampleConsts.groupOrder ≤ beValue (List.replicate 32 255) ∧
    (Scalar.load exampleConsts (List.replicate 32 255 ++ [1, 2]) = .error .InvalidScalar ↔
      exampleConsts.groupOrder ≤ beValue (List.replicate 32 255)) ∧
    Signature.load exampleConsts (exampleBig 1 ++ (1 :: (List.replicate 32 255 ++ [1, 2]))) =
      (if exampleConsts.groupOrder ≤ beValue (List.replicate 32 255) then .error .InvalidScalar
      else .ok (⟨⟨exampleBig 1, 1⟩, ⟨List.replicate 32 255⟩⟩, [1, 2])) ∧
    Signature.load exampleConsts (exampleBig 1 ++ (1 :: (List.replicate 32 255 ++ [1, 2]))) =
      .error .InvalidScalar ∧
    TxBase.load exampleConsts (List.replicate 32 255 ++ [1, 2]) =
      (if exampleConsts.groupOrder ≤ beValue (List.replicate 32 255) then .error .InvalidScalar
      else .ok (⟨⟨List.replicate 32 255⟩⟩, [1, 2])) :=
  ⟨by decide, by decide,
    (C4_scalar_validation exampleConsts (List.replicate 32 255) [1, 2] (by decide)).1,
    (C4_scalar_validation exampleConsts (List.replicate 32 255) [1, 2] (by decide)).2.2.1
      (exampleBig 1) 1 (by decide),
    by rfl,
    (C4_scalar_validation exampleConsts (List.replicate 32 255) [1, 2]
      (by decide)).2.2.2.2.2.2.2.2.2.1⟩

/-- C5: for every structurally valid confidential proof, encoding it in recovery-only
mode and decoding the result in recovery-only mode, whatever the destination held,
yields a proof whose Part3 (TauX) and evaluation scalar (tDot) are 32 zero bytes and
whose inner product is all-zero, every L and R point having 32 zero bytes as X and
Y sign 0 and every condensed scalar being 32 zero bytes, in arrays of the
destination's sizes, while the four outer commitments (X and Y sign) and the
blinding scalar are those of the original. -/
theorem C5_redaction_asymmetry (c : Consts) (dst v : Confidential) (hv : v.Valid c)
    (rest : Bytes) :
    Confidential.load c dst true (Confidential.save c v true ++ rest) =
      .ok (⟨v.m_Part1, v.m_Part2, ⟨⟨List.replicate 32 0⟩⟩, v.m_Mu, ⟨List.replicate 32 0⟩,
        ⟨List.replicate dst.m_P_Tag.m_pLR.length
            (⟨List.replicate 32 0, 0⟩, ⟨List.replicate 32 0, 0⟩),
          List.replicate dst.m_P_Tag.m_pCondensed.length ⟨List.replicate 32 0⟩⟩⟩, rest) ∧
    (∀ r, Confidential.load c dst true (Confidential.save c v true ++ rest) = .ok r →
      r.1.m_Part3.m_TauX.m_Value = List.replicate 32 0 ∧
      r.1.m_tDot.m_Value = List.replicate 32 0 ∧
      (∀ lr ∈ r.1.m_P_Tag.m_pLR, lr.1.m_X = List.replicate 32 0 ∧ lr.1.m_Y = 0 ∧
        lr.2.m_X = List.replicate 32 0 ∧ lr.2.m_Y = 0) ∧
      (∀ s ∈ r.1.m_P_Tag.m_pCondensed, s.m_Value = List.replicate 32 0) ∧
      r.1.m_P_Tag.m_pLR.length = dst.m_P_Tag.m_pLR.length ∧
      r.1.m_P_Tag.m_pCondensed.length = dst.m_P_Tag.m_pCondensed.length ∧
      r.1.m_Part1 = v.m_Part1 ∧ r.1.m_Part2 = v.m_Part2 ∧ r.1.m_Mu = v.m_Mu) := by
  have hmain : Confidential.load c dst true (Confidential.save c v true ++ rest) =
      .ok (⟨v.m_Part1, v.m_Part2, ⟨⟨List.replicate 32 0⟩⟩, v.m_Mu, ⟨List.replicate 32 0⟩,
        ⟨List.replicate dst.m_P_Tag.m_pLR.length
            (⟨List.replicate 32 0, 0⟩, ⟨List.replicate 32 0, 0⟩),
          List.replicate dst.m_P_Tag.m_pCondensed.length ⟨List.replicate 32 0⟩⟩⟩, rest) := by
    rw [(Confidential_load_recovery_decodes dst hv.1 hv.2.1 hv.2.2.1 hv.2.2.2.1
      hv.2.2.2.2.2.1).1 rest]
    unfold Confidential.redacted
    rw [InnerProduct.zeroed_eq]
    rfl
  refine ⟨hmain, fun r hr => ?_⟩
  rw [hmain] at hr
  cases hr
  refine ⟨rfl, rfl, fun lr hlr => ?_, fun s hs => ?_, List.length_replicate _ _,
    List.length_replicate _ _, rfl, rfl, rfl⟩
  · rw [List.eq_of_mem_replicate hlr]
    exact ⟨rfl, rfl, rfl, rfl⟩
  · rw [List.eq_of_mem_replicate hs]

set_option maxRecDepth 100000 in
theorem C5_redaction_asymmetry_witness :
    exampleConfidential.Valid exampleConsts ∧
    exampleConfidential.m_P_Tag ≠ ⟨List.replicate 6
      (⟨List.replicate 32 0, 0⟩, ⟨List.replicate 32 0, 0⟩), List.replicate 2 ⟨List.replicate 32 0⟩⟩ ∧
    Confidential.load exampleConsts exampleConfidential true
      (Confidential.save exampleConsts exampleConfidential true ++ [9]) =
      .ok (⟨exampleConfidential.m_Part1, exampleConfidential.m_Part2, ⟨⟨List.replicate 32 0⟩⟩,
        exampleConfidential.m_Mu, ⟨List.replicate 32 0⟩,
        ⟨List.replicate exampleConfidential.m_P_Tag.m_pLR.length
            (⟨List.replicate 32 0, 0⟩, ⟨List.replicate 32 0, 0⟩),
          List.replicate exampleConfidential.m_P_Tag.m_pCondensed.length
            ⟨List.replicate 32 0⟩⟩⟩, [9]) :=
  ⟨by decide, by decide,
    (C5_redaction_asymmetry exampleConsts exampleConfidential exampleConfidential
      (by decide) [9]).1⟩

/-- C6: for every structurally valid confidential proof, decoding in full mode the
bytes produced by encoding it in full mode, into a destination whose inner-product
arrays have the declared sizes, yields the same proof in every field, the Y signs of
the inner-product points and of the four outer commitments included. -/
theorem C6_confidential_full_roundtrip (c : Consts) (hc : c.WF) (dst v : Confidential)
    (hd : dst.m_P_Tag.Sized c) (hv : v.Valid c) (rest : Bytes) :
    Confidential.load c dst false (Confidential.save c v false ++ rest) = .ok (v, rest) :=
  (Confidential_load_full_decodes hc dst hd hv).1 rest

theorem C6_confidential_full_roundtrip_witness :
    exampleConsts.WF ∧ (Confidential.fresh exampleConsts).m_P_Tag.Sized exampleConsts ∧
    exampleConfidential.Valid exampleConsts ∧
    Confidential.load exampleConsts (Confidential.fresh exampleConsts) false
      (Confidential.save exampleConsts exampleConfidential false ++ [9]) =
      .ok (exampleConfidential, [9]) :=
  ⟨by decide, InnerProduct.fresh_sized exampleConsts, by decide,
    C6_confidential_full_roundtrip exampleConsts (by decide) (Confidential.fresh exampleConsts)
      exampleConfidential (InnerProduct.fresh_sized exampleConsts) (by decide) [9]⟩

/-- C7: for every structurally valid transaction and every proper initial segment of
its encoding, the empty one included, decoding the segment fails with `Truncated`. -/
theorem C7_truncated_rejected (c : Consts) (hc : c.WF) (tx : Transaction) (ht : tx.Valid c)
    (p q : Bytes) (h : Transaction.save c tx = p ++ q) (hq : q ≠ []) :
    Transaction.load c p = .error .Truncated :=
  (Transaction_load_decodes hc ht).2 p q h hq

set_option maxRecDepth 100000 in
theorem C7_truncated_rejected_witness :
    exampleConsts.WF ∧ exampleTransaction.Valid exampleConsts ∧
    (Transaction.save exampleConsts exampleTransaction).drop 200 ≠ [] ∧
    Transaction.load exampleConsts ((Transaction.save exampleConsts exampleTransaction).take 200) =
      .error .Truncated :=
  ⟨by decide, by decide, by decide,
    C7_truncated_rejected exampleConsts (by decide) exampleTransaction (by decide)
      ((Transaction.save exampleConsts exampleTransaction).take 200)
      ((Transaction.save exampleConsts exampleTransaction).drop 200)
      (List.take_append_drop 200 _).symm (by decide)⟩

set_option maxRecDepth 100000 in
/-- C9 (as stated, refuted): the one-element list `[exampleOutputR]` holds a
structurally valid output, yet decoding its `save_VecPtr` encoding returns the list
`[exampleOutputRDecoded]`, whose element has a zero signature in its public proof
and so differs from the original. -/
theorem C9_length_prefixed_collection_counterexample :
    [exampleOutputR].length < 2 ^ 32 ∧ (∀ o ∈ [exampleOutputR], o.Valid exampleConsts) ∧
    load_VecPtr (Output.load exampleConsts Output.fresh)
        (save_VecPtr (Output.save exampleConsts) [exampleOutputR]) =
      .ok ([exampleOutputRDecoded], []) ∧
    [exampleOutputRDecoded] ≠ [exampleOutputR] :=
  ⟨by decide, by decide, by rfl, by decide⟩

/-- C9 (amended): for every list of fewer than `2 ^ 32` elements, `save_VecPtr` emits
the element count as 4 big-endian bytes followed by the encodings of the elements in
list order; when decoding the encoding of each element into a fresh object yields
`g` of that element, `load_VecPtr` on those bytes returns the list of the `g x`,
as many as the original and in the same order, leaving the bytes that follow; the
empty list encodes to four zero bytes and decodes to the empty list.  For
structurally valid inputs and for structurally valid kernels `g` is the identity,
so the list decodes to itself; for structurally valid outputs `g` redacts the
proofs of the recovery-only outputs, so the list decodes to the list of the
redacted outputs, and to itself when no output is recovery-only. -/
theorem C9_length_prefixed_collection {α : Type} (ld : Reader α) (sv : α → Bytes) (g : α → α)
    (v : List α) (hlen : v.length < 2 ^ 32)
    (hv : ∀ x ∈ v, ∀ rest, ld (sv x ++ rest) = .ok (g x, rest)) (rest : Bytes) :
    save_VecPtr sv v =
      [v.length / 2 ^ 24 % 256, v.length / 2 ^ 16 % 256, v.length / 2 ^ 8 % 256,
        v.length % 256] ++ (v.map sv).flatten ∧
    load_VecPtr ld (save_VecPtr sv v ++ rest) = .ok (v.map g, rest) ∧
    (v.map g).length = v.length ∧
    ((∀ x ∈ v, g x = x) → load_VecPtr ld (save_VecPtr sv v ++ rest) = .ok (v, rest)) ∧
    save_VecPtr sv [] = [0, 0, 0, 0] ∧
    load_VecPtr ld ([0, 0, 0, 0] ++ rest) = .ok ([], rest) ∧
    (∀ ins : List Input, ins.length < 2 ^ 32 → (∀ i ∈ ins, i.Valid) →
      load_VecPtr Input.load (save_VecPtr Input.save ins ++ rest) = .ok (ins, rest)) ∧
    (∀ (c : Consts) (ks : List TxKernel), c.s_MaxRecursionDepth + 1 < 2 ^ 32 →
      ks.length < 2 ^ 32 → (∀ k ∈ ks, k.Valid c) →
      load_VecPtr (TxKernel.load c TxKernel.fresh) (save_VecPtr TxKernel.save ks ++ rest) =
        .ok (ks, rest)) ∧
    (∀ (c : Consts) (outs : List Output), c.WF → outs.length < 2 ^ 32 →
      (∀ o ∈ outs, o.Valid c) →
      load_VecPtr (Output.load c Output.fresh) (save_VecPtr (Output.save c) outs ++ rest) =
        .ok (outs.map (Output.decoded c), rest) ∧
      ((∀ o ∈ outs, o.m_RecoveryOnly = false) →
        load_VecPtr (Output.load c Output.fresh) (save_VecPtr (Output.save c) outs ++ rest) =
          .ok (outs, rest))) := by
  have hload : load_VecPtr ld (save_VecPtr sv v ++ rest) = .ok (v.map g, rest) := by
    have hd : ∀ x ∈ v, ∀ r, ld (sv x ++ r) = .ok (g x, r) := hv
    unfold load_VecPtr save_VecPtr
    simp only [Nat.mod_eq_of_lt hlen]
    rw [List.append_assoc, Reader.bind_ok ((uintBig_load_decodes (uintBigFrom_length _)).1 _),
      Export_uintBigFrom hlen]
    clear hlen hv
    induction v with
    | nil => rfl
    | cons x xs ih =>
      rw [List.length_cons, saveN, loadN, List.append_assoc,
        Reader.bind_ok (hd x (List.mem_cons_self x xs) _),
        Reader.bind_ok (ih fun y hy => hd y (List.mem_cons_of_mem x hy))]
      rfl
  refine ⟨?_, hload, List.length_map _ _, fun hg => ?_, ?_, ?_, fun ins hl hi => ?_,
    fun c ks hmax hl hk => ?_, fun c outs hc hl ho => ?_⟩
  · unfold save_VecPtr
    simp only [Nat.mod_eq_of_lt hlen, saveN_eq_flatten, uintBig.save, uintBigFrom, putBE]
    norm_num
  · rw [hload]
    congr 2
    exact (List.map_congr_left hg).trans (List.map_id v)
  · simp [save_VecPtr, uintBigFrom, uintBig.save, saveN, putBE]
  · have e0 : uintBig.load 4 ([0, 0, 0, 0] ++ rest) = .ok ([0, 0, 0, 0], rest) :=
      load_bytes_append rfl rest
    have e1 : uintBig.Export [0, 0, 0, 0] = 0 := by decide
    unfold load_VecPtr
    rw [Reader.bind_ok e0, e1]
    rfl
  · have h := (load_VecPtr_decodes (fun x : Input => x) ins hl
      (fun x hx => Input_load_decodes (hi x hx))).1 rest
    rwa [List.map_id'] at h
  · have h := (load_VecPtr_decodes (fun x : TxKernel => x) ks hl
      (fun x hx => TxKernel.load_Recursive_decodes c hmax c.s_MaxRecursionDepth 0 x (hk x hx).1
        (by have := (hk x hx).2; omega) (hk x hx).2)).1 rest
    rwa [List.map_id'] at h
  · have h := (load_VecPtr_decodes (Output.decoded c) outs hl
      (fun x hx => Output_load_decodes hc (ho x hx))).1 rest
    refine ⟨h, fun hr => ?_⟩
    rw [h]
    congr 2
    refine (List.map_congr_left fun o ho1 => ?_).trans (List.map_id outs)
    unfold Output.decoded
    rw [hr o ho1]
    rfl

set_option maxRecDepth 100000 in
theorem C9_length_prefixed_collection_witness :
    [exampleOutputR, exampleOutput].length < 2 ^ 32 ∧
    (∀ o ∈ [exampleOutputR, exampleOutput], o.Valid exampleConsts) ∧
    load_VecPtr (Output.load exampleConsts Output.fresh)
        (save_VecPtr (Output.save exampleConsts) [exampleOutputR, exampleOutput] ++ [5]) =
      .ok ([exampleOutputR, exampleOutput].map (Output.decoded exampleConsts), [5]) ∧
    [exampleOutputR, exampleOutput].map (Output.decoded exampleConsts) =
      [exampleOutputRDecoded, exampleOutput] ∧
    load_VecPtr Input.load (save_VecPtr Input.save [exampleInput, ⟨examplePoint 3 0⟩] ++ [5]) =
      .ok ([exampleInput, ⟨examplePoint 3 0⟩], [5]) :=
  ⟨by decide, by decide,
    (C9_length_prefixed_collection (Output.load exampleConsts Output.fresh)
      (Output.save exampleConsts) (Output.decoded exampleConsts) [exampleOutputR, exampleOutput]
      (by decide)
      (fun x hx rest => (Output_load_decodes (by decide)
        ((by decide : ∀ o ∈ [exampleOutputR, exampleOutput], o.Valid exampleConsts) x hx)).1
          rest) [5]).2.1,
    by decide,
    (C9_length_prefixed_collection (Output.load exampleConsts Output.fresh)
      (Output.save exampleConsts) (Output.decoded exampleConsts) [exampleOutputR, exampleOutput]
      (by decide)
      (fun x hx rest => (Output_load_decodes (by decide)
        ((by decide : ∀ o ∈ [exampleOutputR, exampleOutput], o.Valid exampleConsts) x hx)).1
          rest) [5]).2.2.2.2.2.2.1 [exampleInput, ⟨examplePoint 3 0⟩] (by decide) (by decide)⟩

/-- C10: the encoding of a transaction is the encoding of its perishable part
(inputs, then outputs), followed by the encoding of its eternal part (kernels),
followed by the encoding of the blinding offset, with no other byte; and decoding
reads a perishable part, then an eternal part from the bytes left, then the offset
from the bytes left, failing with the first failure. -/
theorem C10_transaction_composition (c : Consts) (tx : Transaction) :
    Transaction.save c tx =
      Perishable.save c tx.perishable ++ Eternal.save tx.eternal ++ TxBase.save tx.base ∧
    Transaction.save c tx =
      save_VecPtr Input.save tx.perishable.m_vInputs ++
        save_VecPtr (Output.save c) tx.perishable.m_vOutputs ++
        save_VecPtr TxKernel.save tx.eternal.m_vKernels ++ Scalar.save tx.base.m_Offset ∧
    (∀ s : Bytes, Transaction.load c s =
      match Perishable.load c s with
      | .error e => .error e
      | .ok (p, s1) =>
        match Eternal.load c s1 with
        | .error e => .error e
        | .ok (et, s2) =>
          match TxBase.load c s2 with
          | .error e => .error e
          | .ok (b, s3) => .ok (⟨p, et, b⟩, s3)) := by
  refine ⟨rfl, rfl, fun s => ?_⟩
  unfold Transaction.load
  rw [Reader.bind_apply]
  cases h1 : Perishable.load c s with
  | error e => rfl
  | ok r1 =>
    obtain ⟨p, s1⟩ := r1
    simp only
    rw [Reader.bind_apply]
    cases h2 : Eternal.load c s1 with
    | error e => rfl
    | ok r2 =>
      obtain ⟨et, s2⟩ := r2
      simp only
      rw [Reader.bind_apply]
      cases h3 : TxBase.load c s2 with
      | error e => rfl
      | ok r3 =>
        obtain ⟨b, s3⟩ := r3
        rfl

/-- C11: the encoding of a full header is the encoding of its prefix part followed
by the encoding of its element part, with no other byte; decoding a full header is
decoding a prefix and then an element from the bytes left; and for a valid header,
decoding a prefix from its encoding leaves exactly the element's encoding, from
which the element decodes, the two results being the parts of the header that the
full decoder returns. -/
theorem C11_full_header_concatenation (dst h : Full) (hv : Full.Valid dst h) (rest : Bytes) :
    Full.save h = Prefix.save h.toPrefix ++ Element.save h.toElement ∧
    (∀ s : Bytes, Full.load dst s =
      match Prefix.load s with
      | .error e => .error e
      | .ok (p, s1) =>
        match Element.load dst.toElement s1 with
        | .error e => .error e
        | .ok (e, s2) => .ok (⟨p, e⟩, s2)) ∧
    Prefix.load (Full.save h ++ rest) = .ok (h.toPrefix, Element.save h.toElement ++ rest) ∧
    Element.load dst.toElement (Element.save h.toElement ++ rest) = .ok (h.toElement, rest) ∧
    Full.load dst (Full.save h ++ rest) = .ok (h, rest) := by
  obtain ⟨h1, h2, h3, h4, h5, h6, h7, h8, h9⟩ := hv
  have hp := Prefix_load_decodes h1 h2 h3
  have he := Element_load_decodes dst.toElement h.toElement h4 h5 h6 h7 h8 h9
  have hfull : ∀ s : Bytes, Full.load dst s =
      match Prefix.load s with
      | .error e => .error e
      | .ok (p, s1) =>
        match Element.load dst.toElement s1 with
        | .error e => .error e
        | .ok (e, s2) => .ok (⟨p, e⟩, s2) := by
    intro s
    unfold Full.load
    rw [Reader.bind_apply]
    cases h1 : Prefix.load s with
    | error e => rfl
    | ok r1 =>
      obtain ⟨p, s1⟩ := r1
      simp only
      rw [Reader.bind_apply]
      cases h2 : Element.load dst.toElement s1 with
      | error e => rfl
      | ok r2 =>
        obtain ⟨e, s2⟩ := r2
        rfl
  refine ⟨rfl, hfull, ?_, he.1 rest, ?_⟩
  · unfold Full.save
    rw [List.append_assoc]
    exact hp.1 _
  · rw [hfull]
    unfold Full.save
    rw [List.append_assoc, hp.1 _]
    simp only
    rw [he.1 rest]

theorem C11_full_header_concatenation_witness :
    Full.Valid exampleFullDst exampleFull ∧
    (Full.save exampleFull =
      Prefix.save exampleFull.toPrefix ++ Element.save exampleFull.toElement ∧
    (∀ s : Bytes, Full.load exampleFullDst s =
      match Prefix.load s with
      | .error e => .error e
      | .ok (p, s1) =>
        match Element.load exampleFullDst.toElement s1 with
        | .error e => .error e
        | .ok (e, s2) => .ok (⟨p, e⟩, s2)) ∧
    Prefix.load (Full.save exampleFull ++ [1]) =
      .ok (exampleFull.toPrefix, Element.save exampleFull.toElement ++ [1]) ∧
    Element.load exampleFullDst.toElement (Element.save exampleFull.toElement ++ [1]) =
      .ok (exampleFull.toElement, [1]) ∧
    Full.load exampleFullDst (Full.save exampleFull ++ [1]) = .ok (exampleFull, [1])) :=
  ⟨by decide, C11_full_header_concatenation exampleFullDst exampleFull (by decide) [1]⟩

/-- C12: whenever decoding an output succeeds on bytes whose flag byte has the
asset-id-present bit (0x20) clear, the decoded output's asset id is the zero
sentinel, whatever the destination output held before. -/
theorem C12_asset_id_sentinel (c : Consts) (dst : Output) (F : Nat) (t : Bytes) (o : Output)
    (rest : Bytes) (h : Output.load c dst (F :: t) = .ok (o, rest)) (hbit : 0x20 &&& F = 0) :
    o.m_AssetID = uintBig.zero nBytes := by
  unfold Output.load at h
  have e0 : load_u8 (F :: t) = .ok (F, t) := rfl
  rw [Reader.bind_ok e0] at h
  obtain ⟨x, s1, -, h⟩ := Reader.bind_ok_inv h
  obtain ⟨conf, s2, -, h⟩ := Reader.bind_ok_inv h
  obtain ⟨pub, s3, -, h⟩ := Reader.bind_ok_inv h
  obtain ⟨inc, s4, -, h⟩ := Reader.bind_ok_inv h
  obtain ⟨a, s5, ha, h⟩ := Reader.bind_ok_inv h
  rw [if_neg (fun hne => hne hbit)] at ha
  have ha' := Reader.ret_ok_inv ha
  have ho := Reader.ret_ok_inv h
  simp only [Prod.mk.injEq] at ha' ho
  rw [ho.1]
  exact ha'.1

set_option maxRecDepth 100000 in
theorem C12_asset_id_sentinel_witness :
    Output.load exampleConsts exampleOutputDst (3 :: exampleBig 9) =
      .ok (⟨⟨exampleBig 9, 1⟩, true, false, none, none, 5, uintBig.zero nBytes⟩, []) ∧
    0x20 &&& 3 = 0 ∧
    (⟨⟨exampleBig 9, 1⟩, true, false, none, none, 5, uintBig.zero nBytes⟩ : Output).m_AssetID =
      uintBig.zero nBytes :=
  ⟨by rfl, by decide,
    C12_asset_id_sentinel exampleConsts exampleOutputDst 3 (exampleBig 9)
      ⟨⟨exampleBig 9, 1⟩, true, false, none, none, 5, uintBig.zero nBytes⟩ [] (by rfl)
      (by decide)⟩

/-- C13: whenever decoding a kernel succeeds on bytes whose primary flag byte has
the height-max-bounded bit (0x08) clear, the decoded height max is the open-ended
sentinel, the all-ones 64-bit value, whatever the destination held before;
likewise a clear fee bit (0x02) gives fee 0 and a clear height-min bit (0x04) gives
height min 0. -/
theorem C13_height_sentinel (c : Consts) (dst : TxKernel) (F : Nat) (t : Bytes) (k : TxKernel)
    (rest : Bytes) (h : TxKernel.load c dst (F :: t) = .ok (k, rest)) :
    (8 &&& F = 0 → k.m_Height.m_Max = 2 ^ 64 - 1) ∧
    (2 &&& F = 0 → k.m_Fee = 0) ∧
    (4 &&& F = 0 → k.m_Height.m_Min = 0) := by
  obtain ⟨recurse, hr⟩ := TxKernel.load_eq_body c dst
  rw [hr] at h
  obtain ⟨h2, h4, h8, -⟩ := TxKernel.load_Recursive_body_inv c recurse 0 dst F t k rest h
  exact ⟨h8, h2, h4⟩

set_option maxRecDepth 100000 in
theorem C13_height_sentinel_witness :
    TxKernel.load exampleConsts exampleKernel1 (1 :: (exampleBig 1 ++ exampleBig 2 ++ exampleBig 7)) =
      .ok (TxKernel.mk ⟨exampleBig 1, 1⟩ ⟨⟨exampleBig 2, 0⟩, exampleScalar 7⟩ 0 ⟨0, 2 ^ 64 - 1⟩
        (some ⟨exampleBig 9⟩) (some ⟨exampleBig 10, 9⟩) [exampleKernel0, exampleKernel0] 0 true,
        []) ∧
    ((8 &&& 1 = 0 → (TxKernel.mk ⟨exampleBig 1, 1⟩ ⟨⟨exampleBig 2, 0⟩, exampleScalar 7⟩ 0
        ⟨0, 2 ^ 64 - 1⟩ (some ⟨exampleBig 9⟩) (some ⟨exampleBig 10, 9⟩)
        [exampleKernel0, exampleKernel0] 0 true).m_Height.m_Max = 2 ^ 64 - 1) ∧
    (2 &&& 1 = 0 → (TxKernel.mk ⟨exampleBig 1, 1⟩ ⟨⟨exampleBig 2, 0⟩, exampleScalar 7⟩ 0
        ⟨0, 2 ^ 64 - 1⟩ (some ⟨exampleBig 9⟩) (some ⟨exampleBig 10, 9⟩)
        [exampleKernel0, exampleKernel0] 0 true).m_Fee = 0) ∧
    (4 &&& 1 = 0 → (TxKernel.mk ⟨exampleBig 1, 1⟩ ⟨⟨exampleBig 2, 0⟩, exampleScalar 7⟩ 0
        ⟨0, 2 ^ 64 - 1⟩ (some ⟨exampleBig 9⟩) (some ⟨exampleBig 10, 9⟩)
        [exampleKernel0, exampleKernel0] 0 true).m_Height.m_Min = 0)) :=
  ⟨by rfl,
    C13_height_sentinel exampleConsts exampleKernel1 1
      (exampleBig 1 ++ exampleBig 2 ++ exampleBig 7) _ [] (by rfl)⟩

/-- C14 (as stated, refuted): `exampleKernel0` has fee 0, height min 100, open height
max, no hash-lock, no nested kernel and no extended feature, and its commitment has
Y sign 1: its flag byte is 5, not 4. -/
theorem C14_kernel_example_counterexample :
    exampleKernel0.m_Fee = 0 ∧ exampleKernel0.m_Height = ⟨100, MaxHeight⟩ ∧
    exampleKernel0.m_pHashLock = none ∧ exampleKernel0.m_vNested = [] ∧
    exampleKernel0.m_AssetEmission = 0 ∧ exampleKernel0.m_pRelativeLock = none ∧
    exampleKernel0.m_CanEmbed = false ∧
    (TxKernel.save exampleKernel0).head? = some 5 :=
  ⟨rfl, rfl, rfl, rfl, rfl, rfl, rfl, by decide⟩

/-- C14 (amended): every kernel with fee 0, height min 100, open height max, no
hash-lock, no nested kernel and no extended feature encodes to a flag byte made of
the height-min bit (0x04) and the Y signs of the commitment (0x01) and of the nonce
(0x10), which is 0x04 when both signs are 0, followed by the commitment X, the nonce
X, the signature scalar, then the height-min value 100 as a 64-bit integer, and
nothing else. -/
theorem C14_kernel_example (com : Point) (sig : Signature) :
    TxKernel.save (TxKernel.mk com sig 0 ⟨100, MaxHeight⟩ none none [] 0 false) =
      [(if com.m_Y ≠ 0 then 1 else 0) ||| 4 ||| (if sig.m_NoncePub.m_Y ≠ 0 then 0x10 else 0)] ++
        com.m_X ++ sig.m_NoncePub.m_X ++ sig.m_k.m_Value ++ [0, 0, 0, 0, 0, 0, 0, 100] ∧
    (com.m_Y = 0 → sig.m_NoncePub.m_Y = 0 →
      TxKernel.save (TxKernel.mk com sig 0 ⟨100, MaxHeight⟩ none none [] 0 false) =
        [4] ++ com.m_X ++ sig.m_NoncePub.m_X ++ sig.m_k.m_Value ++ [0, 0, 0, 0, 0, 0, 0, 100]) := by
  have hmain : TxKernel.save (TxKernel.mk com sig 0 ⟨100, MaxHeight⟩ none none [] 0 false) =
      [(if com.m_Y ≠ 0 then 1 else 0) ||| 4 ||| (if sig.m_NoncePub.m_Y ≠ 0 then 0x10 else 0)] ++
        com.m_X ++ sig.m_NoncePub.m_X ++ sig.m_k.m_Value ++ [0, 0, 0, 0, 0, 0, 0, 100] := by
    rw [TxKernel.save]
    unfold TxKernel.save_body
    by_cases h1 : com.m_Y ≠ 0 <;> by_cases h2 : sig.m_NoncePub.m_Y ≠ 0 <;>
      simp [TxKernel.nFlags, TxKernel.nFlags2, TxKernel.m_Commitment, TxKernel.m_Fee,
        TxKernel.m_Height, TxKernel.m_Signature, TxKernel.m_pHashLock, TxKernel.m_vNested,
        TxKernel.m_AssetEmission, TxKernel.m_CanEmbed, TxKernel.m_pRelativeLock, MaxHeight,
        h1, h2, save_u8, save_u64, putBE, uintBig.save, Scalar.save] <;> decide
  refine ⟨hmain, fun h1 h2 => ?_⟩
  rw [hmain, h1, h2]
  rfl

theorem C14_kernel_example_witness :
    (examplePoint 1 0).m_Y = 0 ∧ (examplePoint 2 0).m_Y = 0 ∧
    TxKernel.save (TxKernel.mk (examplePoint 1 0) ⟨examplePoint 2 0, exampleScalar 7⟩ 0
        ⟨100, MaxHeight⟩ none none [] 0 false) =
      [4] ++ (examplePoint 1 0).m_X ++ (examplePoint 2 0).m_X ++ (exampleScalar 7).m_Value ++
        [0, 0, 0, 0, 0, 0, 0, 100] :=
  ⟨rfl, rfl,
    (C14_kernel_example (examplePoint 1 0) ⟨examplePoint 2 0, exampleScalar 7⟩).2 rfl rfl⟩

/-- C15 (as stated, refuted): in the two-byte bitfield `[1, 0]` bit 0 is set; setting
bit 0 to the value 0 and then getting it returns 1, not 0. -/
theorem C15_bitfield_set_get_counterexample :
    0 < InnerProductFlags.N_Max exampleConsts ∧
    [1, 0].length = InnerProductFlags.N_Max exampleConsts >>> 3 ∧
    InnerProductFlags.get (InnerProductFlags.set [1, 0] 0 0) 0 = 1 ∧
    InnerProductFlags.get (InnerProductFlags.set [1, 0] 0 0) 0 ≠ 0 :=
  ⟨by decide, by decide, by decide, by decide⟩

/-- C15 (amended): for every bitfield and every index `i` in range, setting bit `i`
to a non-zero value and then getting it returns 1, and setting it to 0 leaves the
bitfield as it was; so set-then-get returns the value set, 0 or 1, whenever bit `i`
was clear before.  Setting a bit changes no other bit, a zero-initialised bitfield
reads 0 everywhere, and so does any bit of it that was never set.  Bit `i` lives in
byte `i >> 3` under mask `1 << (i & 7)`. -/
theorem C15_bitfield_set_get (f : Bytes) (i b : Nat) (hi : i >>> 3 < f.length) :
    (b ≠ 0 → InnerProductFlags.get (InnerProductFlags.set f i b) i = 1) ∧
    (b = 0 → InnerProductFlags.set f i b = f) ∧
    (InnerProductFlags.get f i = 0 → b < 2 →
      InnerProductFlags.get (InnerProductFlags.set f i b) i = b) ∧
    (∀ j, j ≠ i →
      InnerProductFlags.get (InnerProductFlags.set f i b) j = InnerProductFlags.get f j) ∧
    (∀ n j, InnerProductFlags.get (List.replicate n 0) j = 0) ∧
    (∀ (n j : Nat) (ops : List (Nat × Nat)), (∀ op ∈ ops, op.1 ≠ j) →
      InnerProductFlags.get
        (ops.foldl (fun g op => InnerProductFlags.set g op.1 op.2) (List.replicate n 0)) j = 0) ∧
    (b ≠ 0 → InnerProductFlags.set f i b =
      f.set (i >>> 3) (f.getD (i >>> 3) 0 ||| 1 <<< (i &&& 7))) ∧
    InnerProductFlags.get f i =
      (if f.getD (i >>> 3) 0 &&& 1 <<< (i &&& 7) ≠ 0 then 1 else 0) := by
  have hmask : (1 <<< (i &&& 7)) % 256 = 1 <<< (i &&& 7) := by
    rw [flag_mask, Nat.one_shiftLeft, Nat.and_pow_two_sub_one_eq_mod i 3]
  refine ⟨InnerProductFlags.get_set_self f i b hi, fun hb => ?_, fun hg hb => ?_,
    fun j hj => InnerProductFlags.get_set_ne f i b j hj, InnerProductFlags.get_zero,
    fun n j ops => ?_, fun hb => ?_, ?_⟩
  · rw [hb, InnerProductFlags.set_zero]
  · by_cases h0 : b = 0
    · rw [h0, InnerProductFlags.set_zero, hg]
    · rw [InnerProductFlags.get_set_self f i b hi h0]
      omega
  · generalize hg : List.replicate n 0 = g
    have hz : InnerProductFlags.get g j = 0 := hg ▸ InnerProductFlags.get_zero n j
    clear hg
    induction ops generalizing g with
    | nil => exact fun _ => hz
    | cons op ops ih =>
      intro hops
      rw [List.foldl_cons]
      refine ih _ ?_ (fun x hx => hops x (List.mem_cons_of_mem op hx))
      rw [InnerProductFlags.get_set_ne _ _ _ _ (hops op (List.mem_cons_self op ops)).symm]
      exact hz
  · unfold InnerProductFlags.set
    rw [if_pos hb]
    simp only [hmask]
  · unfold InnerProductFlags.get
    simp only [hmask]

theorem C15_bitfield_set_get_witness :
    5 >>> 3 < [0, 0].length ∧
    ((1 ≠ 0 → InnerProductFlags.get (InnerProductFlags.set [0, 0] 5 1) 5 = 1) ∧
    (1 = 0 → InnerProductFlags.set [0, 0] 5 1 = [0, 0]) ∧
    (InnerProductFlags.get [0, 0] 5 = 0 → 1 < 2 →
      InnerProductFlags.get (InnerProductFlags.set [0, 0] 5 1) 5 = 1) ∧
    (∀ j, j ≠ 5 →
      InnerProductFlags.get (InnerProductFlags.set [0, 0] 5 1) j =
        InnerProductFlags.get [0, 0] j) ∧
    (∀ n j, InnerProductFlags.get (List.replicate n 0) j = 0) ∧
    (∀ (n j : Nat) (ops : List (Nat × Nat)), (∀ op ∈ ops, op.1 ≠ j) →
      InnerProductFlags.get
        (ops.foldl (fun g op => InnerProductFlags.set g op.1 op.2) (List.replicate n 0)) j = 0) ∧
    (1 ≠ 0 → InnerProductFlags.set [0, 0] 5 1 =
      [0, 0].set (5 >>> 3) ([0, 0].getD (5 >>> 3) 0 ||| 1 <<< (5 &&& 7))) ∧
    InnerProductFlags.get [0, 0] 5 =
      (if [0, 0].getD (5 >>> 3) 0 &&& 1 <<< (5 &&& 7) ≠ 0 then 1 else 0)) :=
  ⟨by decide, C15_bitfield_set_get [0, 0] 5 1 (by decide)⟩

/-- C16: for an inner-product proof with `R = nCycles` rounds the bit array has
`N_Max >> 3 = ceil(2R / 8)` bytes, both when zeroed and after the Y signs and the
four extra bits of a confidential proof have been written into it; under the static
assertion `N_Max - N == 4` this is also `ceil((2R + 4) / 8)`, the array holds exactly
`2R + 4` bits, and the indices `N .. N + 3` are in range. -/
theorem C16_bitfield_size (c : Consts) (hfit : c.nCycles * 2 + 7 < 2 ^ 32) (v : Confidential) :
    InnerProductFlags.N_Max c >>> 3 = (c.nCycles * 2 + 7) / 8 ∧
    (InnerProductFlags.zero c).length = (c.nCycles * 2 + 7) / 8 ∧
    (InnerProductFlags.save (InnerProductFlags.zero c) v.m_P_Tag).length =
      (c.nCycles * 2 + 7) / 8 ∧
    (v.flagBits c).length = (c.nCycles * 2 + 7) / 8 ∧
    (InnerProductFlags.N_Max c - InnerProductFlags.N c = 4 →
      (c.nCycles * 2 + 7) / 8 = (c.nCycles * 2 + 4 + 7) / 8 ∧
      8 * (v.flagBits c).length = c.nCycles * 2 + 4 ∧
      ∀ k, k < 4 → InnerProductFlags.N c + k < InnerProductFlags.N_Max c ∧
        (InnerProductFlags.N c + k) >>> 3 < (v.flagBits c).length) := by
  have hsz := InnerProductFlags.size_eq_ceil c hfit
  have hfl := Confidential.flagBits_length c v
  refine ⟨hsz, ?_, ?_, ?_, fun hsa => ?_⟩
  · rw [← hsz]
    simp [InnerProductFlags.zero]
  · rw [← hsz, InnerProductFlags.save, InnerProductFlags.length_saveLoop]
    simp [InnerProductFlags.zero]
  · rw [hfl, hsz]
  · have hN : InnerProductFlags.N c = c.nCycles * 2 := Nat.mod_eq_of_lt (by omega)
    have hmod : InnerProductFlags.N_Max c % 8 = 0 := and_mask_mod _
    have h8 : 8 * ((c.nCycles * 2 + 7) / 8) = c.nCycles * 2 + 4 := by omega
    refine ⟨by omega, by rw [hfl, hsz]; exact h8, fun k hk => ⟨by omega, ?_⟩⟩
    rw [hfl, hsz, Nat.shiftRight_eq_div_pow]
    have h23 : (InnerProductFlags.N c + k) / 2 ^ 3 = (InnerProductFlags.N c + k) / 8 := rfl
    rw [h23]
    omega

theorem C16_bitfield_size_witness :
    exampleConsts.nCycles * 2 + 7 < 2 ^ 32 ∧
    (InnerProductFlags.N_Max exampleConsts >>> 3 = (exampleConsts.nCycles * 2 + 7) / 8 ∧
    (InnerProductFlags.zero exampleConsts).length = (exampleConsts.nCycles * 2 + 7) / 8 ∧
    (InnerProductFlags.save (InnerProductFlags.zero exampleConsts)
      exampleConfidential.m_P_Tag).length = (exampleConsts.nCycles * 2 + 7) / 8 ∧
    (exampleConfidential.flagBits exampleConsts).length = (exampleConsts.nCycles * 2 + 7) / 8 ∧
    (InnerProductFlags.N_Max exampleConsts - InnerProductFlags.N exampleConsts = 4 →
      (exampleConsts.nCycles * 2 + 7) / 8 = (exampleConsts.nCycles * 2 + 4 + 7) / 8 ∧
      8 * (exampleConfidential.flagBits exampleConsts).length = exampleConsts.nCycles * 2 + 4 ∧
      ∀ k, k < 4 →
        InnerProductFlags.N exampleConsts + k < InnerProductFlags.N_Max exampleConsts ∧
        (InnerProductFlags.N exampleConsts + k) >>> 3 <
          (exampleConfidential.flagBits exampleConsts).length)) :=
  ⟨by decide, C16_bitfield_size exampleConsts (by decide) exampleConfidential⟩

/-- C17: in recovery-only mode a public proof encodes to its value followed by the
recovery metadata (key index, key type, key sub-index, checksum) with no signature
bytes, and decoding that in recovery-only mode yields the proof with a zero
signature and the same value and metadata; in full mode the signature is emitted
between the value and the metadata and decoding returns the proof itself. -/
theorem C17_public_proof_modes (c : Consts) (p : Public) (hp : p.Valid c) (rest : Bytes) :
    Public.save p true =
      save_u64 p.m_Value ++ (save_u64 p.m_Recovery.m_Kid.m_Idx ++
        (FourCC.save p.m_Recovery.m_Kid.m_Type ++
          (save_u32 p.m_Recovery.m_Kid.m_SubIdx ++ uintBig.save p.m_Recovery.m_Checksum))) ∧
    Public.load c true (Public.save p true ++ rest) =
      .ok (⟨p.m_Value, Signature.zero, p.m_Recovery⟩, rest) ∧
    Public.save p false =
      save_u64 p.m_Value ++ (Signature.save p.m_Signature ++
        (save_u64 p.m_Recovery.m_Kid.m_Idx ++ (FourCC.save p.m_Recovery.m_Kid.m_Type ++
          (save_u32 p.m_Recovery.m_Kid.m_SubIdx ++ uintBig.save p.m_Recovery.m_Checksum)))) ∧
    Public.load c false (Public.save p false ++ rest) = .ok (p, rest) := by
  refine ⟨?_, (Public_load_recovery_decodes hp).1 rest, ?_, (Public_load_full_decodes hp).1 rest⟩
  · simp [Public.save]
  · simp [Public.save]

theorem C17_public_proof_modes_witness :
    examplePublic.Valid exampleConsts ∧
    (Public.save examplePublic true =
      save_u64 examplePublic.m_Value ++ (save_u64 examplePublic.m_Recovery.m_Kid.m_Idx ++
        (FourCC.save examplePublic.m_Recovery.m_Kid.m_Type ++
          (save_u32 examplePublic.m_Recovery.m_Kid.m_SubIdx ++
            uintBig.save examplePublic.m_Recovery.m_Checksum))) ∧
    Public.load exampleConsts true (Public.save examplePublic true ++ [7]) =
      .ok (⟨examplePublic.m_Value, Signature.zero, examplePublic.m_Recovery⟩, [7]) ∧
    Public.save examplePublic false =
      save_u64 examplePublic.m_Value ++ (Signature.save examplePublic.m_Signature ++
        (save_u64 examplePublic.m_Recovery.m_Kid.m_Idx ++
          (FourCC.save examplePublic.m_Recovery.m_Kid.m_Type ++
            (save_u32 examplePublic.m_Recovery.m_Kid.m_SubIdx ++
              uintBig.save examplePublic.m_Recovery.m_Checksum)))) ∧
    Public.load exampleConsts false (Public.save examplePublic false ++ [7]) =
      .ok (examplePublic, [7])) :=
  ⟨by decide, C17_public_proof_modes exampleConsts examplePublic (by decide) [7]⟩

/-- C18: through the `unique_ptr` and `shared_ptr` adapters an absent value encodes
to the single presence boolean false, and a present value to the boolean true
followed by the payload's encoding; decoding a false boolean leaves the destination
empty whatever it held before, decoding a true one replaces it with the instance
decoded from the payload; so an optional value whose payload round-trips decodes to
itself. -/
theorem C18_owned_or_absent {α : Type} (ld : Reader α) (sv : α → Bytes) (p dst : Option α)
    (hp : ∀ x ∈ p, ∀ rest, ld (sv x ++ rest) = .ok (x, rest)) (rest : Bytes) :
    unique_ptr.save sv none = save_bool false ∧
    (∀ x, unique_ptr.save sv (some x) = save_bool true ++ sv x) ∧
    unique_ptr.load ld dst (save_bool false ++ rest) = .ok (none, rest) ∧
    (∀ x s s1, ld s = .ok (x, s1) →
      unique_ptr.load ld dst (save_bool true ++ s) = .ok (some x, s1)) ∧
    unique_ptr.load ld dst (unique_ptr.save sv p ++ rest) = .ok (p, rest) ∧
    shared_ptr.save sv none = save_bool false ∧
    (∀ x, shared_ptr.save sv (some x) = save_bool true ++ sv x) ∧
    shared_ptr.load ld dst (save_bool false ++ rest) = .ok (none, rest) ∧
    (∀ x s s1, ld s = .ok (x, s1) →
      shared_ptr.load ld dst (save_bool true ++ s) = .ok (some x, s1)) ∧
    shared_ptr.load ld dst (shared_ptr.save sv p ++ rest) = .ok (p, rest) := by
  have hu0 : unique_ptr.load ld dst (save_bool false ++ rest) = .ok (none, rest) := by
    unfold unique_ptr.load
    rw [Reader.bind_ok (load_bool_append false rest)]
    rfl
  have hu1 : ∀ x s s1, ld s = .ok (x, s1) →
      unique_ptr.load ld dst (save_bool true ++ s) = .ok (some x, s1) := by
    intro x s s1 h
    unfold unique_ptr.load
    rw [Reader.bind_ok (load_bool_append true s)]
    simp only [if_true]
    rw [Reader.bind_ok h]
    rfl
  have hs0 : shared_ptr.load ld dst (save_bool false ++ rest) = .ok (none, rest) := by
    unfold shared_ptr.load
    rw [Reader.bind_ok (load_bool_append false rest)]
    rfl
  have hs1 : ∀ x s s1, ld s = .ok (x, s1) →
      shared_ptr.load ld dst (save_bool true ++ s) = .ok (some x, s1) := by
    intro x s s1 h
    unfold shared_ptr.load
    rw [Reader.bind_ok (load_bool_append true s)]
    simp only [if_true]
    rw [Reader.bind_ok h]
    rfl
  refine ⟨rfl, fun _ => rfl, hu0, hu1, ?_, rfl, fun _ => rfl, hs0, hs1, ?_⟩
  · cases p with
    | none => exact hu0
    | some x =>
      show unique_ptr.load ld dst ((save_bool true ++ sv x) ++ rest) = _
      rw [List.append_assoc]
      exact hu1 x _ _ (hp x rfl rest)
  · cases p with
    | none => exact hs0
    | some x =>
      show shared_ptr.load ld dst ((save_bool true ++ sv x) ++ rest) = _
      rw [List.append_assoc]
      exact hs1 x _ _ (hp x rfl rest)

theorem C18_owned_or_absent_witness :
    unique_ptr.save HashLock.save none = save_bool false ∧
    (∀ x, unique_ptr.save HashLock.save (some x) = save_bool true ++ HashLock.save x) ∧
    unique_ptr.load HashLock.load (some ⟨exampleBig 1⟩) (save_bool false ++ [3]) =
      .ok (none, [3]) ∧
    (∀ x s s1, HashLock.load s = .ok (x, s1) →
      unique_ptr.load HashLock.load (some ⟨exampleBig 1⟩) (save_bool true ++ s) =
        .ok (some x, s1)) ∧
    unique_ptr.load HashLock.load (some ⟨exampleBig 1⟩)
      (unique_ptr.save HashLock.save (some ⟨exampleBig 9⟩) ++ [3]) =
        .ok (some ⟨exampleBig 9⟩, [3]) ∧
    shared_ptr.save HashLock.save none = save_bool false ∧
    (∀ x, shared_ptr.save HashLock.save (some x) = save_bool true ++ HashLock.save x) ∧
    shared_ptr.load HashLock.load (some ⟨exampleBig 1⟩) (save_bool false ++ [3]) =
      .ok (none, [3]) ∧
    (∀ x s s1, HashLock.load s = .ok (x, s1) →
      shared_ptr.load HashLock.load (some ⟨exampleBig 1⟩) (save_bool true ++ s) =
        .ok (some x, s1)) ∧
    shared_ptr.load HashLock.load (some ⟨exampleBig 1⟩)
      (shared_ptr.save HashLock.save (some ⟨exampleBig 9⟩) ++ [3]) =
        .ok (some ⟨exampleBig 9⟩, [3]) :=
  C18_owned_or_absent HashLock.load HashLock.save (some ⟨exampleBig 9⟩) (some ⟨exampleBig 1⟩)
    (fun x hx rest => by
      cases hx
      exact (HashLock_load_decodes (by decide)).1 rest) [3]

/-- C19: for every kernel whose height max is bounded, the encoder sets the
height-max-bounded bit (0x08) and emits, right after the optional fee and height
min, the difference `max - min` (modulo `2 ^ 64`) instead of the absolute max; the
decoder, when that bit is set, takes height max to be the decoded height min (0 when
the height-min bit is clear) plus the decoded delta, modulo `2 ^ 64`; and for a valid
kernel this gives back the original height max. -/
theorem C19_height_delta (c : Consts) (hmax : c.s_MaxRecursionDepth + 1 < 2 ^ 32)
    (k : TxKernel) (hk : k.Valid c) (hb : k.m_Height.m_Max ≠ MaxHeight) :
    8 &&& k.nFlags ≠ 0 ∧
    (∃ tail, TxKernel.save k =
      save_u8 k.nFlags ++ (uintBig.save k.m_Commitment.m_X ++
        (uintBig.save k.m_Signature.m_NoncePub.m_X ++ (Scalar.save k.m_Signature.m_k ++
          ((if k.m_Fee ≠ 0 then save_u64 k.m_Fee else []) ++
            ((if k.m_Height.m_Min ≠ 0 then save_u64 k.m_Height.m_Min else []) ++
              (save_u64 ((k.m_Height.m_Max % 2 ^ 64 + 2 ^ 64 - k.m_Height.m_Min % 2 ^ 64) %
                2 ^ 64) ++ tail))))))) ∧
    (k.m_Height.m_Min ≤ k.m_Height.m_Max →
      (k.m_Height.m_Max % 2 ^ 64 + 2 ^ 64 - k.m_Height.m_Min % 2 ^ 64) % 2 ^ 64 =
        k.m_Height.m_Max - k.m_Height.m_Min) ∧
    (∀ (dst : TxKernel) (F : Nat) (cX nX kb feeB minB dhB tail : Bytes) (k1 : TxKernel)
      (rest : Bytes), cX.length = nBytes → nX.length = nBytes → kb.length = nBytes →
      beValue kb < c.groupOrder → feeB.length = (if 2 &&& F ≠ 0 then 8 else 0) →
      minB.length = (if 4 &&& F ≠ 0 then 8 else 0) → dhB.length = 8 → 8 &&& F ≠ 0 →
      TxKernel.load c dst
        (F :: (cX ++ (nX ++ (kb ++ (feeB ++ (minB ++ (dhB ++ tail))))))) = .ok (k1, rest) →
      k1.m_Height.m_Min = (if 4 &&& F ≠ 0 then beValue minB else 0) ∧
      k1.m_Height.m_Max = (k1.m_Height.m_Min + beValue dhB) % 2 ^ 64) ∧
    (∃ k1, TxKernel.load c TxKernel.fresh (TxKernel.save k) = .ok (k1, []) ∧
      k1.m_Height.m_Max = k.m_Height.m_Max) := by
  obtain ⟨hbit, hlay⟩ := TxKernel.save_front k hb
  refine ⟨hbit, hlay, fun hle => ?_, ?_, ?_⟩
  · have hwf := hk.1
    cases k with
    | mk com sig fee h hl rl nested ae ce =>
      simp only [TxKernel.wellFormed, Bool.and_eq_true, decide_eq_true_eq] at hwf
      simp only [TxKernel.m_Height] at hle ⊢
      have h1 := hwf.1.2.2.2.1
      have h2 := hwf.1.2.2.2.2.1
      omega
  · intro dst F cX nX kb feeB minB dhB tail k1 rest h1 h2 h3 hkb hf hm hd h8 h
    exact (TxKernel.load_heights c dst F cX nX kb feeB minB dhB tail k1 rest h1 h2 h3 hkb hf hm
      hd h8 h).2
  · exact ⟨k, (TxKernel.load_Recursive_decodes c hmax c.s_MaxRecursionDepth 0 k hk.1
      (by have := hk.2; omega) hk.2).ok0, rfl⟩

theorem C19_height_delta_witness :
    exampleConsts.s_MaxRecursionDepth + 1 < 2 ^ 32 ∧ exampleKernel2.Valid exampleConsts ∧
    exampleKernel2.m_Height.m_Max ≠ MaxHeight ∧
    8 &&& exampleKernel2.nFlags ≠ 0 ∧
    (∃ k1, TxKernel.load exampleConsts TxKernel.fresh (TxKernel.save exampleKernel2) =
        .ok (k1, []) ∧ k1.m_Height.m_Max = exampleKernel2.m_Height.m_Max) :=
  ⟨by decide, by decide, by decide,
    (C19_height_delta exampleConsts (by decide) exampleKernel2 (by decide) (by decide)).1,
    (C19_height_delta exampleConsts (by decide) exampleKernel2 (by decide) (by decide)).2.2.2.2⟩

/-- C20: for every output the first encoded byte is the flag byte, which is below 128
(bit 7 clear) and has bit 0 set exactly when the commitment Y sign is set, bit 1 when
the output is a coinbase, bit 2 when a confidential proof is present, bit 3 when a
public proof is present, bit 4 when the incubation height is non-zero, bit 5 when the
asset id differs from the all-zero sentinel, and bit 6 when the output is
recovery-only; the encoding is that byte, the commitment X, and then exactly the
fields whose bit is set, in the order confidential proof, public proof, incubation
height, asset id, both proofs encoded in the mode of the recovery-only flag. -/
theorem C20_output_flag_byte_and_order (c : Consts) (o : Output) :
    o.nFlags < 128 ∧ 0x80 &&& o.nFlags = 0 ∧
    (1 &&& o.nFlags ≠ 0 ↔ o.m_Commitment.m_Y ≠ 0) ∧
    (2 &&& o.nFlags ≠ 0 ↔ o.m_Coinbase = true) ∧
    (4 &&& o.nFlags ≠ 0 ↔ o.m_pConfidential ≠ none) ∧
    (8 &&& o.nFlags ≠ 0 ↔ o.m_pPublic ≠ none) ∧
    (0x10 &&& o.nFlags ≠ 0 ↔ o.m_Incubation ≠ 0) ∧
    (0x20 &&& o.nFlags ≠ 0 ↔ o.m_AssetID ≠ uintBig.zero o.m_AssetID.length) ∧
    (0x40 &&& o.nFlags ≠ 0 ↔ o.m_RecoveryOnly = true) ∧
    Output.save c o =
      [o.nFlags] ++ uintBig.save o.m_Commitment.m_X ++
        (if 4 &&& o.nFlags ≠ 0 then
          (o.m_pConfidential.elim [] fun v => Confidential.save c v o.m_RecoveryOnly)
          else []) ++
        (if 8 &&& o.nFlags ≠ 0 then
          (o.m_pPublic.elim [] fun p => Public.save p o.m_RecoveryOnly)
          else []) ++
        (if 0x10 &&& o.nFlags ≠ 0 then save_u64 o.m_Incubation else []) ++
        (if 0x20 &&& o.nFlags ≠ 0 then uintBig.save o.m_AssetID else []) := by
  have hlt : o.nFlags < 128 := by
    rw [Output.output_nFlags_eq]
    exact pack8_lt_128 ..
  obtain ⟨-, -, h0, h1, h2, h3, h4, h5, h6, h7⟩ := Output.output_nFlags_eq o ▸ pack8_spec
    (decide (o.m_Commitment.m_Y ≠ 0)) o.m_Coinbase o.m_pConfidential.isSome
    o.m_pPublic.isSome (decide (o.m_Incubation ≠ 0)) (!uintBig.isZero o.m_AssetID)
    o.m_RecoveryOnly false
  simp only [decide_eq_true_eq] at h0 h4
  have h7' : 0x80 &&& o.nFlags = 0 := by
    by_contra hne
    exact absurd (h7.mp hne) (by decide)
  have h2' : 4 &&& o.nFlags ≠ 0 ↔ o.m_pConfidential ≠ none := by
    rw [h2, Option.isSome_iff_ne_none]
  have h3' : 8 &&& o.nFlags ≠ 0 ↔ o.m_pPublic ≠ none := by
    rw [h3, Option.isSome_iff_ne_none]
  have h5' : 0x20 &&& o.nFlags ≠ 0 ↔ o.m_AssetID ≠ uintBig.zero o.m_AssetID.length := by
    rw [h5, Ne, ← uintBig.isZero_iff o.m_AssetID]
    simp
  refine ⟨hlt, h7', h0, h1, h2', h3', h4, h5', h6, ?_⟩
  have hu8 : save_u8 o.nFlags = [o.nFlags] := by
    unfold save_u8
    rw [Nat.mod_eq_of_lt (by omega)]
  unfold Output.save
  rw [hu8]
  congr 1
  congr 1
  · congr 1
    · congr 1
      cases hc : o.m_pConfidential with
      | none => simp
      | some v =>
        rw [if_pos (h2'.mpr (by rw [hc]; exact Option.some_ne_none v))]
        rfl
    · cases hp : o.m_pPublic with
      | none => simp
      | some p =>
        rw [if_pos (h3'.mpr (by rw [hp]; exact Option.some_ne_none p))]
        rfl
  · by_cases hi : o.m_Incubation ≠ 0
    · rw [if_pos hi, if_pos (h4.mpr hi)]
    · rw [if_neg hi, if_neg (fun h => hi (h4.mp h))]

/-- C21: the encoder sets the extended-flags bit (0x80) of the primary flag byte
exactly when the extended flag byte is non-zero, which is exactly when the asset
emission is non-zero, a relative lock is present or the kernel is embeddable; the extended
flag byte has bit 0 for the asset emission, bit 1 for the relative lock and bit 2 for
the embeddable flag and no other bit; the encoding is the primary part, then the
nested kernels with their count, and then, only when the 0x80 bit is set, the
extended flag byte followed by the asset emission and the relative lock when
their bits are set. -/
theorem C21_extended_flag_byte (k : TxKernel) :
    (0x80 &&& k.nFlags ≠ 0 ↔
      (k.m_AssetEmission ≠ 0 ∨ k.m_pRelativeLock ≠ none ∨ k.m_CanEmbed = true)) ∧
    (k.nFlags2 ≠ 0 ↔
      (k.m_AssetEmission ≠ 0 ∨ k.m_pRelativeLock ≠ none ∨ k.m_CanEmbed = true)) ∧
    k.nFlags2 < 8 ∧
    (1 &&& k.nFlags2 ≠ 0 ↔ k.m_AssetEmission ≠ 0) ∧
    (2 &&& k.nFlags2 ≠ 0 ↔ k.m_pRelativeLock ≠ none) ∧
    (4 &&& k.nFlags2 ≠ 0 ↔ k.m_CanEmbed = true) ∧
    TxKernel.save k =
      [k.nFlags] ++ (uintBig.save k.m_Commitment.m_X ++
        (uintBig.save k.m_Signature.m_NoncePub.m_X ++ (Scalar.save k.m_Signature.m_k ++
          ((if 2 &&& k.nFlags ≠ 0 then save_u64 k.m_Fee else []) ++
            ((if 4 &&& k.nFlags ≠ 0 then save_u64 k.m_Height.m_Min else []) ++
              ((if 8 &&& k.nFlags ≠ 0 then
                  save_u64 ((k.m_Height.m_Max % 2 ^ 64 + 2 ^ 64 - k.m_Height.m_Min % 2 ^ 64) %
                    2 ^ 64)
                else []) ++
                ((if 0x20 &&& k.nFlags ≠ 0 then k.m_pHashLock.elim [] HashLock.save else []) ++
                  ((if 0x40 &&& k.nFlags ≠ 0 then
                      save_u32 (k.m_vNested.length % 2 ^ 32) ++
                        TxKernel.saveNested (k.m_vNested.length % 2 ^ 32) k.m_vNested
                    else []) ++
                    (if 0x80 &&& k.nFlags ≠ 0 then
                      [k.nFlags2] ++
                        ((if 1 &&& k.nFlags2 ≠ 0 then save_u64 k.m_AssetEmission else []) ++
                          (if 2 &&& k.nFlags2 ≠ 0 then
                            k.m_pRelativeLock.elim [] RelativeLock.save else []))
                    else []))))))))) := by
  obtain ⟨hlt, h1, h2, h4, hany, h80⟩ := TxKernel.nFlags2_bits k
  refine ⟨h80.trans hany, hany, hlt, h1, h2, h4, ?_⟩
  have hF : save_u8 k.nFlags = [k.nFlags] := by
    unfold save_u8
    rw [Nat.mod_eq_of_lt]
    rw [TxKernel.kernel_nFlags_eq]
    exact (pack8_spec ..).1
  have hF2 : save_u8 k.nFlags2 = [k.nFlags2] := by
    unfold save_u8
    rw [Nat.mod_eq_of_lt (by omega)]
  rw [TxKernel.save_layout k, hF, hF2]
  by_cases hx : k.nFlags2 ≠ 0
  · rw [if_pos hx, if_pos (h80.mpr hx)]
  · rw [if_neg hx, if_neg (fun h => hx (h80.mp h))]

/-- C22: in full mode the encoding of a confidential proof is the X coordinates of
A, S, T1, T2, then the scalars TauX, Mu and tDot, then the X coordinates of the
inner-product points in round order with L before R, then the condensed scalars,
then the bit array, which is the last segment and has `N_Max >> 3` bytes; for a
valid proof bit `2r` and bit `2r + 1` of that array are the Y bits of the L and R
points of round `r`, and bits `N`, `N + 1`, `N + 2`, `N + 3` with `N` twice the
number of rounds are the Y bits of A, S, T1, T2. -/
theorem C22_confidential_full_layout (c : Consts) (v : Confidential) :
    Confidential.save c v false =
      v.m_Part1.m_A.m_X ++ (v.m_Part1.m_S.m_X ++ (v.m_Part2.m_T1.m_X ++ (v.m_Part2.m_T2.m_X ++
        (Scalar.save v.m_Part3.m_TauX ++ (Scalar.save v.m_Mu ++ (Scalar.save v.m_tDot ++
          ((v.m_P_Tag.m_pLR.map fun lr => lr.1.m_X ++ lr.2.m_X).flatten ++
            ((v.m_P_Tag.m_pCondensed.map Scalar.save).flatten ++ v.flagBits c)))))))) ∧
    (v.flagBits c).length = InnerProductFlags.N_Max c >>> 3 ∧
    (c.WF → v.Valid c →
      8 * (v.flagBits c).length = 2 * c.nCycles + 4 ∧
      v.m_P_Tag.m_pLR.length = c.nCycles ∧
      (∀ (r : Nat) (lr : Point × Point), v.m_P_Tag.m_pLR[r]? = some lr →
        InnerProductFlags.get (v.flagBits c) (2 * r) = lr.1.m_Y ∧
        InnerProductFlags.get (v.flagBits c) (2 * r + 1) = lr.2.m_Y) ∧
      InnerProductFlags.N c = 2 * c.nCycles ∧
      InnerProductFlags.get (v.flagBits c) (2 * c.nCycles) = v.m_Part1.m_A.m_Y ∧
      InnerProductFlags.get (v.flagBits c) (2 * c.nCycles + 1) = v.m_Part1.m_S.m_Y ∧
      InnerProductFlags.get (v.flagBits c) (2 * c.nCycles + 2) = v.m_Part2.m_T1.m_Y ∧
      InnerProductFlags.get (v.flagBits c) (2 * c.nCycles + 3) = v.m_Part2.m_T2.m_Y) := by
  refine ⟨?_, Confidential.flagBits_length c v, fun hc hv => ?_⟩
  · unfold Confidential.save save_nobits
    simp only [Bool.false_eq_true, if_false, List.append_assoc, uintBig.save,
      save_LR_X_eq_flatten, save_Condensed_eq_flatten]
  obtain ⟨hflen, hfys, hf0, hf1, hf2, hf3⟩ := Confidential.flagBits_spec hc hv
  have hN : InnerProductFlags.N c = 2 * c.nCycles := by rw [hc.N_eq]; omega
  have hlen : v.m_P_Tag.m_pLR.length = c.nCycles := hv.2.2.2.2.2.2.2.1
  have hsz := hc.size_eq
  have hlt := hc.2.1
  rw [hN] at hf0 hf1 hf2 hf3
  rw [Nat.mod_eq_of_lt (by omega)] at hf0 hf1 hf2 hf3
  refine ⟨by rw [hflen]; omega, hlen, fun r lr hr => ?_, hN, hf0, hf1, hf2, hf3⟩
  have hr' : r < v.m_P_Tag.m_pLR.length := by
    by_contra hge
    rw [List.getElem?_eq_none (by omega)] at hr
    cases hr
  obtain ⟨y1, y2⟩ := ysOf_getD _ r lr hr
  have g1 := hfys (2 * r) (by omega)
  have g2 := hfys (2 * r + 1) (by omega)
  rw [Nat.zero_add] at g1 g2
  exact ⟨g1.trans y1, g2.trans y2⟩

set_option maxRecDepth 100000 in
theorem C22_confidential_full_layout_witness :
    exampleConsts.WF ∧ exampleConfidential.Valid exampleConsts ∧
    exampleConfidential.m_P_Tag.m_pLR.length = exampleConsts.nCycles ∧
    (∀ (r : Nat) (lr : Point × Point), exampleConfidential.m_P_Tag.m_pLR[r]? = some lr →
      InnerProductFlags.get (exampleConfidential.flagBits exampleConsts) (2 * r) = lr.1.m_Y ∧
      InnerProductFlags.get (exampleConfidential.flagBits exampleConsts) (2 * r + 1) =
        lr.2.m_Y) ∧
    InnerProductFlags.get (exampleConfidential.flagBits exampleConsts)
      (2 * exampleConsts.nCycles + 3) = exampleConfidential.m_Part2.m_T2.m_Y :=
  ⟨by decide, by decide,
    ((C22_confidential_full_layout exampleConsts exampleConfidential).2.2
      (by decide) (by decide)).2.1,
    ((C22_confidential_full_layout exampleConsts exampleConfidential).2.2
      (by decide) (by decide)).2.2.1,
    ((C22_confidential_full_layout exampleConsts exampleConfidential).2.2
      (by decide) (by decide)).2.2.2.2.2.2.2⟩

/-- C23: a kernel with nested kernels emits their count as a 4-byte fixed-width
integer immediately before the encodings of the nested kernels, which follow one
after the other, and `save_VecPtr` emits the length of a collection as a 4-byte
prefix immediately before its elements; for a nested list and a collection of the
same length the two count prefixes are the same four bytes. -/
theorem C23_count_encoding {α : Type} (sv : α → Bytes) (v : List α) (k : TxKernel)
    (hne : k.m_vNested ≠ []) (hlen : v.length = k.m_vNested.length) :
    0x40 &&& k.nFlags ≠ 0 ∧
    TxKernel.save k =
      save_u8 k.nFlags ++ (uintBig.save k.m_Commitment.m_X ++
        (uintBig.save k.m_Signature.m_NoncePub.m_X ++ (Scalar.save k.m_Signature.m_k ++
          ((if 2 &&& k.nFlags ≠ 0 then save_u64 k.m_Fee else []) ++
            ((if 4 &&& k.nFlags ≠ 0 then save_u64 k.m_Height.m_Min else []) ++
              ((if 8 &&& k.nFlags ≠ 0 then
                  save_u64 ((k.m_Height.m_Max % 2 ^ 64 + 2 ^ 64 - k.m_Height.m_Min % 2 ^ 64) %
                    2 ^ 64)
                else []) ++
                ((if 0x20 &&& k.nFlags ≠ 0 then k.m_pHashLock.elim [] HashLock.save else []) ++
                  ((save_u32 (k.m_vNested.length % 2 ^ 32) ++
                      saveN TxKernel.save (k.m_vNested.length % 2 ^ 32) k.m_vNested) ++
                    (if k.nFlags2 ≠ 0 then
                      save_u8 k.nFlags2 ++
                        ((if 1 &&& k.nFlags2 ≠ 0 then save_u64 k.m_AssetEmission else []) ++
                          (if 2 &&& k.nFlags2 ≠ 0 then
                            k.m_pRelativeLock.elim [] RelativeLock.save else []))
                    else []))))))))) ∧
    (k.m_vNested.length < 2 ^ 32 →
      saveN TxKernel.save (k.m_vNested.length % 2 ^ 32) k.m_vNested =
        (k.m_vNested.map TxKernel.save).flatten) ∧
    save_VecPtr sv v =
      uintBig.save (uintBigFrom (v.length % 2 ^ 32)) ++ saveN sv (v.length % 2 ^ 32) v ∧
    uintBig.save (uintBigFrom (v.length % 2 ^ 32)) = save_u32 (k.m_vNested.length % 2 ^ 32) ∧
    (save_u32 (k.m_vNested.length % 2 ^ 32)).length = 4 ∧
    save_u32 (k.m_vNested.length % 2 ^ 32) =
      [k.m_vNested.length % 2 ^ 32 / 2 ^ 24 % 256, k.m_vNested.length % 2 ^ 32 / 2 ^ 16 % 256,
        k.m_vNested.length % 2 ^ 32 / 2 ^ 8 % 256, k.m_vNested.length % 2 ^ 32 % 256] ∧
    (save_VecPtr sv v).take 4 = save_u32 (k.m_vNested.length % 2 ^ 32) := by
  have h40 : 0x40 &&& k.nFlags ≠ 0 := by
    have := (TxKernel.kernel_nFlags_eq k ▸ pack8_spec (decide (k.m_Commitment.m_Y ≠ 0))
      (decide (k.m_Fee ≠ 0)) (decide (k.m_Height.m_Min ≠ 0))
      (decide (k.m_Height.m_Max ≠ MaxHeight)) (decide (k.m_Signature.m_NoncePub.m_Y ≠ 0))
      k.m_pHashLock.isSome (!k.m_vNested.isEmpty) (decide (k.nFlags2 ≠ 0))).2.2.2.2.2.2.2.2.1
    refine this.mpr ?_
    cases hn : k.m_vNested with
    | nil => exact absurd hn hne
    | cons x xs => rfl
  have hcount : uintBig.save (uintBigFrom (v.length % 2 ^ 32)) =
      save_u32 (k.m_vNested.length % 2 ^ 32) := by
    rw [hlen]
    unfold uintBig.save uintBigFrom save_u32
    rw [Nat.mod_mod]
  have hfour : (save_u32 (k.m_vNested.length % 2 ^ 32)).length = 4 := putBE_length 4 _
  have hvec : save_VecPtr sv v =
      uintBig.save (uintBigFrom (v.length % 2 ^ 32)) ++ saveN sv (v.length % 2 ^ 32) v := rfl
  refine ⟨h40, ?_, fun hl => ?_, hvec, hcount, hfour, putBE_four _, ?_⟩
  · rw [TxKernel.save_layout k, if_pos h40, TxKernel.saveNested_eq]
  · rw [Nat.mod_eq_of_lt hl, saveN_eq_flatten]
  · rw [hvec, hcount, List.take_append_of_le_length (by rw [hfour]), List.take_of_length_le]
    rw [hfour]

set_option maxRecDepth 100000 in
theorem C23_count_encoding_witness :
    exampleKernel1.m_vNested ≠ [] ∧
    [exampleInput, exampleInput].length = exampleKernel1.m_vNested.length ∧
    (save_VecPtr Input.save [exampleInput, exampleInput]).take 4 = [0, 0, 0, 2] ∧
    save_u32 (exampleKernel1.m_vNested.length % 2 ^ 32) = [0, 0, 0, 2] ∧
    (save_VecPtr Input.save [exampleInput, exampleInput]).take 4 =
      save_u32 (exampleKernel1.m_vNested.length % 2 ^ 32) :=
  ⟨List.cons_ne_nil _ _, by decide, by decide, by decide,
    (C23_count_encoding Input.save [exampleInput, exampleInput] exampleKernel1
      (List.cons_ne_nil _ _) (by decide)).2.2.2.2.2.2.2⟩

/-- C24: for every structurally valid kernel `k` and every byte string `r`, decoding
the encoding of `k` followed by `r` into a freshly constructed kernel yields `k` and
leaves exactly `r`; every byte of the encoding is needed, since decoding any proper
initial segment of it fails as truncated; whatever the destination held, decoding
succeeds and leaves exactly `r`; and a sequence of valid kernels encoded back to back
without framing decodes one by one to the same kernels, leaving `r`. -/
theorem C24_exact_consumption (c : Consts) (hmax : c.s_MaxRecursionDepth + 1 < 2 ^ 32)
    (k : TxKernel) (hk : k.Valid c) (r : Bytes) :
    TxKernel.load c TxKernel.fresh (TxKernel.save k ++ r) = .ok (k, r) ∧
    (∀ p q, TxKernel.save k = p ++ q → q ≠ [] →
      TxKernel.load c TxKernel.fresh p = .error .Truncated) ∧
    (∀ dst, ∃ k1, TxKernel.load c dst (TxKernel.save k ++ r) = .ok (k1, r)) ∧
    (∀ ks : List TxKernel, (∀ x ∈ ks, x.Valid c) →
      loadN (TxKernel.load c TxKernel.fresh) ks.length
        ((ks.map TxKernel.save).flatten ++ r) = .ok (ks, r)) := by
  have hdec : ∀ x : TxKernel, x.Valid c →
      Decodes (TxKernel.load c TxKernel.fresh) (TxKernel.save x) x := fun x hx =>
    TxKernel.load_Recursive_decodes c hmax c.s_MaxRecursionDepth 0 x hx.1
      (by have := hx.2; omega) hx.2
  refine ⟨(hdec k hk).1 r, (hdec k hk).2, fun dst => ?_, fun ks hks => ?_⟩
  · exact (TxKernel.load_cursor c dst TxKernel.fresh).ok_of_ok ((hdec k hk).1 r)
  · rw [← saveN_eq_flatten]
    exact loadN_append ks (fun x hx => (hdec x (hks x hx)).1) r

set_option maxRecDepth 100000 in
theorem C24_exact_consumption_witness :
    exampleConsts.s_MaxRecursionDepth + 1 < 2 ^ 32 ∧ exampleKernel2.Valid exampleConsts ∧
    TxKernel.load exampleConsts TxKernel.fresh (TxKernel.save exampleKernel2 ++ [1, 2, 3]) =
      .ok (exampleKernel2, [1, 2, 3]) :=
  ⟨by decide, by decide,
    (C24_exact_consumption exampleConsts (by decide) exampleKernel2 (by decide) [1, 2, 3]).1⟩

set_option maxRecDepth 100000 in
/-- C25: kernel decoding is not canonical.  The zero kernel encodes to the flag
byte 0 and three zeroed fields, which decode back to it; yet five other byte
strings decode to the same kernel with all bytes consumed: flag byte with the fee
bit and a fee of 0, with the height-min bit and a height min of 0, with the
nested-kernels bit and a count of 0, with the extended-flags bit and a zero second
byte, and with the extended-flags bit and a second byte of undefined bits only.
Also a second flag byte `0x84` decodes like `0x04`, which is what the encoder
emits. -/
theorem C25_not_canonical (c : Consts) (hg : 0 < c.groupOrder)
    (hdepth : 1 ≤ c.s_MaxRecursionDepth) :
    TxKernel.save TxKernel.fresh = 0 :: zeroKernelFields [] ∧
    TxKernel.load c TxKernel.fresh (TxKernel.save TxKernel.fresh) = .ok (TxKernel.fresh, []) ∧
    (∀ b ∈ nonCanonicalZeroKernels,
      TxKernel.load c TxKernel.fresh b = .ok (TxKernel.fresh, []) ∧
      TxKernel.save TxKernel.fresh ≠ b) ∧
    TxKernel.load c TxKernel.fresh (0x80 :: zeroKernelFields [0x84]) =
      .ok (TxKernel.mk Point.zero Signature.zero 0 ⟨0, MaxHeight⟩ none none [] 0 true, []) ∧
    TxKernel.save (TxKernel.mk Point.zero Signature.zero 0 ⟨0, MaxHeight⟩ none none [] 0 true) =
      0x80 :: zeroKernelFields [4] ∧
    TxKernel.load c TxKernel.fresh (0x80 :: zeroKernelFields [4]) =
      .ok (TxKernel.mk Point.zero Signature.zero 0 ⟨0, MaxHeight⟩ none none [] 0 true, []) ∧
    (0x80 :: zeroKernelFields [0x84] : Bytes) ≠ 0x80 :: zeroKernelFields [4] := by
  have hk : beValue (uintBig.zero nBytes) < c.groupOrder := by
    rw [beValue_zero32]
    exact hg
  have hz : (uintBig.zero nBytes).length = nBytes := by decide
  have p0 := TxKernel.load_plain c TxKernel.fresh 0 (uintBig.zero nBytes) (uintBig.zero nBytes)
    (uintBig.zero nBytes) [] [] [] [] hz hz hz hk rfl rfl rfl rfl rfl rfl
  have p2 := TxKernel.load_plain c TxKernel.fresh 2 (uintBig.zero nBytes) (uintBig.zero nBytes)
    (uintBig.zero nBytes) (save_u64 0) [] [] [] hz hz hz hk rfl rfl rfl rfl rfl rfl
  have p4 := TxKernel.load_plain c TxKernel.fresh 4 (uintBig.zero nBytes) (uintBig.zero nBytes)
    (uintBig.zero nBytes) [] (save_u64 0) [] [] hz hz hz hk rfl rfl rfl rfl rfl rfl
  have p40 := TxKernel.load_empty_nested c hdepth TxKernel.fresh 0x40 (uintBig.zero nBytes)
    (uintBig.zero nBytes) (uintBig.zero nBytes) [] [] [] [] hz hz hz hk rfl rfl rfl rfl
    (by decide) rfl
  have p80 : ∀ F2 : Nat, 1 &&& F2 = 0 → 2 &&& F2 = 0 → _ := fun F2 g1 g2 =>
    TxKernel.load_bare_ext c TxKernel.fresh 0x80 F2 (uintBig.zero nBytes)
      (uintBig.zero nBytes) (uintBig.zero nBytes) [] [] [] [] hz hz hz hk rfl rfl rfl rfl rfl
      (by decide) g1 g2
  refine ⟨by rfl, p0, ?_, p80 0x84 rfl rfl, by rfl, p80 4 rfl rfl, by decide⟩
  intro b hb
  simp only [nonCanonicalZeroKernels, List.mem_cons, List.mem_singleton, List.not_mem_nil,
    or_false] at hb
  rcases hb with rfl | rfl | rfl | rfl | rfl
  · exact ⟨p2, by decide⟩
  · exact ⟨p4, by decide⟩
  · exact ⟨p40, by decide⟩
  · exact ⟨p80 0 rfl rfl, by decide⟩
  · exact ⟨p80 0xF8 rfl rfl, by decide⟩

set_option maxRecDepth 100000 in
theorem C25_not_canonical_witness :
    0 < exampleConsts.groupOrder ∧ 1 ≤ exampleConsts.s_MaxRecursionDepth ∧
    TxKernel.load exampleConsts TxKernel.fresh (2 :: zeroKernelFields (save_u64 0)) =
      .ok (TxKernel.fresh, []) ∧
    TxKernel.save TxKernel.fresh ≠ 2 :: zeroKernelFields (save_u64 0) :=
  ⟨by decide, by decide,
    ((C25_not_canonical exampleConsts (by decide) (by decide)).2.2.1 _
      (List.mem_cons_self _ _)).1,
    ((C25_not_canonical exampleConsts (by decide) (by decide)).2.2.1 _
      (List.mem_cons_self _ _)).2⟩

/-- C26: whenever decoding a kernel into the destination `dst` succeeds on bytes
with flag byte `F`: a clear hash-lock bit leaves the destination's hash-lock, a
clear nested-kernels bit its nested list, a clear extended-flags bit its relative
lock and embeddable flag; fee, height min, height max and asset emission are 0, 0,
the open sentinel and 0 when their bits are clear.  When the extended-flags bit is
set, the bytes consumed end with the second flag byte, the eight bytes of the asset
emission if its bit 0 is set and the forty bytes of the relative lock if its bit 1
is set: the asset emission is the value of those eight bytes, and 0 when bit 0 is
clear; the relative lock is read from those forty bytes, and is the destination's
when bit 1 is clear; the embeddable flag is set when bit 2 is set and is the
destination's otherwise.  On a stream without nested kernels that holds an
extended block, decoding into any destination succeeds with exactly that result.
Decoding the same bytes into any other destination also succeeds, leaves the same bytes and gives the same
commitment, signature, fee, height range and asset emission, but it gives another
kernel as soon as a field that is left alone differs between the destinations. -/
theorem C26_populated_destination (c : Consts) (dst : TxKernel) (F : Nat) (t : Bytes)
    (k : TxKernel) (rest : Bytes) (h : TxKernel.load c dst (F :: t) = .ok (k, rest)) :
    (0x20 &&& F = 0 → k.m_pHashLock = dst.m_pHashLock) ∧
    (0x40 &&& F = 0 → k.m_vNested = dst.m_vNested) ∧
    (0x80 &&& F = 0 → k.m_pRelativeLock = dst.m_pRelativeLock ∧
      k.m_CanEmbed = dst.m_CanEmbed) ∧
    (2 &&& F = 0 → k.m_Fee = 0) ∧ (4 &&& F = 0 → k.m_Height.m_Min = 0) ∧
    (8 &&& F = 0 → k.m_Height.m_Max = MaxHeight) ∧
    (0x80 &&& F = 0 → k.m_AssetEmission = 0) ∧
    (0x80 &&& F ≠ 0 → ∃ pre F2 aeB rlB,
      t = pre ++ (F2 :: (aeB ++ (rlB ++ rest))) ∧ 96 ≤ pre.length ∧
      aeB.length = (if 1 &&& F2 ≠ 0 then 8 else 0) ∧
      rlB.length = (if 2 &&& F2 ≠ 0 then 40 else 0) ∧
      k.m_AssetEmission = (if 1 &&& F2 ≠ 0 then beValue aeB else 0) ∧
      k.m_pRelativeLock =
        (if 2 &&& F2 ≠ 0 then some ⟨rlB.take 32, beValue (rlB.drop 32)⟩
          else dst.m_pRelativeLock) ∧
      k.m_CanEmbed = (if 4 &&& F2 ≠ 0 then true else dst.m_CanEmbed)) ∧
    (∀ (d : TxKernel) (G G2 : Nat) (cX nX kb feeB minB dhB hlB aeB idB hB tail : Bytes),
      cX.length = nBytes → nX.length = nBytes → kb.length = nBytes →
      beValue kb < c.groupOrder → feeB.length = (if 2 &&& G ≠ 0 then 8 else 0) →
      minB.length = (if 4 &&& G ≠ 0 then 8 else 0) →
      dhB.length = (if 8 &&& G ≠ 0 then 8 else 0) →
      hlB.length = (if 0x20 &&& G ≠ 0 then 32 else 0) → 0x40 &&& G = 0 → 0x80 &&& G ≠ 0 →
      aeB.length = (if 1 &&& G2 ≠ 0 then 8 else 0) →
      idB.length = (if 2 &&& G2 ≠ 0 then 32 else 0) →
      hB.length = (if 2 &&& G2 ≠ 0 then 8 else 0) →
      TxKernel.load c d
          (G :: (cX ++ (nX ++ (kb ++ (feeB ++ (minB ++ (dhB ++
            (hlB ++ (G2 :: (aeB ++ (idB ++ (hB ++ tail)))))))))))) =
        .ok (TxKernel.mk ⟨cX, 1 &&& G⟩ ⟨⟨nX, if 0x10 &&& G ≠ 0 then 1 else 0⟩, ⟨kb⟩⟩
          (if 2 &&& G ≠ 0 then beValue feeB else 0)
          ⟨if 4 &&& G ≠ 0 then beValue minB else 0,
            if 8 &&& G ≠ 0 then
              ((if 4 &&& G ≠ 0 then beValue minB else 0) + beValue dhB) % 2 ^ 64
            else MaxHeight⟩
          (if 0x20 &&& G ≠ 0 then some ⟨hlB⟩ else d.m_pHashLock)
          (if 2 &&& G2 ≠ 0 then some ⟨idB, beValue hB⟩ else d.m_pRelativeLock)
          d.m_vNested
          (if 1 &&& G2 ≠ 0 then beValue aeB else 0)
          (if 4 &&& G2 ≠ 0 then true else d.m_CanEmbed), tail)) ∧
    (∀ dst2, ∃ k2, TxKernel.load c dst2 (F :: t) = .ok (k2, rest) ∧
      k2.m_Commitment = k.m_Commitment ∧ k2.m_Signature = k.m_Signature ∧
      k2.m_Fee = k.m_Fee ∧ k2.m_Height = k.m_Height ∧
      k2.m_AssetEmission = k.m_AssetEmission ∧
      (0x20 &&& F = 0 → k2.m_pHashLock = dst2.m_pHashLock) ∧
      (0x40 &&& F = 0 → k2.m_vNested = dst2.m_vNested) ∧
      (0x80 &&& F = 0 → k2.m_pRelativeLock = dst2.m_pRelativeLock ∧
        k2.m_CanEmbed = dst2.m_CanEmbed)) ∧
    (∀ dst2, (0x20 &&& F = 0 ∧ dst2.m_pHashLock ≠ dst.m_pHashLock) ∨
        (0x40 &&& F = 0 ∧ dst2.m_vNested ≠ dst.m_vNested) ∨
        (0x80 &&& F = 0 ∧ (dst2.m_pRelativeLock ≠ dst.m_pRelativeLock ∨
          dst2.m_CanEmbed ≠ dst.m_CanEmbed)) →
      TxKernel.load c dst2 (F :: t) ≠ TxKernel.load c dst (F :: t)) := by
  obtain ⟨h2, h4, h8, h20, h40, h80, hae⟩ := TxKernel.load_inv c dst F t k rest h
  have hall : ∀ dst2, ∃ k2, TxKernel.load c dst2 (F :: t) = .ok (k2, rest) ∧
      k2.m_Commitment = k.m_Commitment ∧ k2.m_Signature = k.m_Signature ∧
      k2.m_Fee = k.m_Fee ∧ k2.m_Height = k.m_Height ∧
      k2.m_AssetEmission = k.m_AssetEmission ∧
      (0x20 &&& F = 0 → k2.m_pHashLock = dst2.m_pHashLock) ∧
      (0x40 &&& F = 0 → k2.m_vNested = dst2.m_vNested) ∧
      (0x80 &&& F = 0 → k2.m_pRelativeLock = dst2.m_pRelativeLock ∧
        k2.m_CanEmbed = dst2.m_CanEmbed) := by
    intro dst2
    obtain ⟨k2, hk2, e1, e2, e3, e4, e5⟩ := (TxKernel.load_agree c dst dst2 (F :: t)).1 k rest h
    obtain ⟨-, -, -, g20, g40, g80, -⟩ := TxKernel.load_inv c dst2 F t k2 rest hk2
    exact ⟨k2, hk2, e1.symm, e2.symm, e3.symm, e4.symm, e5.symm, g20, g40, g80⟩
  refine ⟨h20, h40, h80, h2, h4, h8, hae, TxKernel.load_ext_inv c dst F t k rest h,
    fun d G G2 cX nX kb feeB minB dhB hlB aeB idB hB tail h1 h2 h3 hk hf hm hd hhl g40 g80 ha
      hi hh => TxKernel.load_flat_ext c d G G2 cX nX kb feeB minB dhB hlB aeB idB hB tail h1 h2
        h3 hk hf hm hd hhl g40 g80 ha hi hh,
    hall, fun dst2 hne heq => ?_⟩
  obtain ⟨k2, hk2, -, -, -, -, -, g20, g40, g80⟩ := hall dst2
  rw [hk2, h] at heq
  have hkk : k2 = k := by
    simpa using heq
  subst hkk
  rcases hne with ⟨b, hd⟩ | ⟨b, hd⟩ | ⟨b, hd⟩
  · exact hd ((g20 b).symm.trans (h20 b))
  · exact hd ((g40 b).symm.trans (h40 b))
  · rcases hd with hd | hd
    · exact hd ((g80 b).1.symm.trans (h80 b).1)
    · exact hd ((g80 b).2.symm.trans (h80 b).2)

set_option maxRecDepth 100000 in
theorem C26_populated_destination_witness :
    TxKernel.load exampleConsts exampleKernel1
        (1 :: (exampleBig 1 ++ exampleBig 2 ++ exampleBig 7)) =
      .ok (TxKernel.mk ⟨exampleBig 1, 1⟩ ⟨⟨exampleBig 2, 0⟩, exampleScalar 7⟩ 0 ⟨0, MaxHeight⟩
        exampleKernel1.m_pHashLock exampleKernel1.m_pRelativeLock exampleKernel1.m_vNested 0
        exampleKernel1.m_CanEmbed, []) ∧
    TxKernel.load exampleConsts TxKernel.fresh
        (1 :: (exampleBig 1 ++ exampleBig 2 ++ exampleBig 7)) =
      .ok (TxKernel.mk ⟨exampleBig 1, 1⟩ ⟨⟨exampleBig 2, 0⟩, exampleScalar 7⟩ 0 ⟨0, MaxHeight⟩
        none none [] 0 false, []) ∧
    TxKernel.load exampleConsts TxKernel.fresh
        (1 :: (exampleBig 1 ++ exampleBig 2 ++ exampleBig 7)) ≠
      TxKernel.load exampleConsts exampleKernel1
        (1 :: (exampleBig 1 ++ exampleBig 2 ++ exampleBig 7)) ∧
    exampleKernel1.m_AssetEmission = 3 ∧
    TxKernel.load exampleConsts exampleKernel1
        (0x80 :: (exampleBig 1 ++ (exampleBig 2 ++ (exampleBig 7 ++ ([] ++ ([] ++ ([] ++
          ([] ++ (4 :: ([] ++ ([] ++ ([] ++ [])))))))))))) =
      .ok (TxKernel.mk ⟨exampleBig 1, 0⟩ ⟨⟨exampleBig 2, 0⟩, exampleScalar 7⟩ 0 ⟨0, MaxHeight⟩
        exampleKernel1.m_pHashLock exampleKernel1.m_pRelativeLock exampleKernel1.m_vNested 0
        true, []) :=
  ⟨by rfl, by rfl,
    (C26_populated_destination exampleConsts exampleKernel1 1
      (exampleBig 1 ++ exampleBig 2 ++ exampleBig 7) _ [] (by rfl)).2.2.2.2.2.2.2.2.2.2
      TxKernel.fresh (Or.inl ⟨by decide, by decide⟩),
    rfl,
    (C26_populated_destination exampleConsts exampleKernel1 1
      (exampleBig 1 ++ exampleBig 2 ++ exampleBig 7) _ [] (by rfl)).2.2.2.2.2.2.2.2.1
      exampleKernel1 0x80 4 (exampleBig 1) (exampleBig 2) (exampleBig 7) [] [] [] [] [] [] [] []
      (by decide) (by decide) (by decide) (by decide) (by decide) (by decide) (by decide)
      (by decide) (by decide) (by decide) (by decide) (by decide) (by decide)⟩

/-- C27: the height delta is handled modulo `2 ^ 64` and never makes the codec
fail.  Decoding a stream whose flag byte has the height-max-bounded bit set (and
announces no hash-lock, nested kernel or extended block) succeeds whatever the
delta is, with height max = (height min + delta) mod `2 ^ 64`; when that sum is
the all-ones value the decoded height max is the open sentinel and re-encoding
clears the bounded bit.  The same equation holds whenever decoding a stream with
the bounded bit set succeeds.  The encoder of a kernel with a bounded max emits
(max - min) mod `2 ^ 64`; for a valid kernel whose bounded max is below its min
that is `max + 2 ^ 64 - min`, adding it to min gives max back modulo `2 ^ 64`, and
the kernel decodes to itself. -/
theorem C27_delta_wraps (c : Consts) (hmax : c.s_MaxRecursionDepth + 1 < 2 ^ 32) :
    (∀ (dst : TxKernel) (F : Nat) (cX nX kb feeB minB dhB tail : Bytes),
      cX.length = nBytes → nX.length = nBytes → kb.length = nBytes →
      beValue kb < c.groupOrder → feeB.length = (if 2 &&& F ≠ 0 then 8 else 0) →
      minB.length = (if 4 &&& F ≠ 0 then 8 else 0) → dhB.length = 8 → 8 &&& F ≠ 0 →
      0x20 &&& F = 0 → 0x40 &&& F = 0 → 0x80 &&& F = 0 →
      ∃ k, TxKernel.load c dst
          (F :: (cX ++ (nX ++ (kb ++ (feeB ++ (minB ++ (dhB ++ tail))))))) = .ok (k, tail) ∧
        k.m_Height.m_Min = (if 4 &&& F ≠ 0 then beValue minB else 0) ∧
        k.m_Height.m_Max = (k.m_Height.m_Min + beValue dhB) % 2 ^ 64 ∧
        ((k.m_Height.m_Min + beValue dhB) % 2 ^ 64 = 2 ^ 64 - 1 →
          k.m_Height.m_Max = MaxHeight ∧ 8 &&& k.nFlags = 0)) ∧
    (∀ (dst : TxKernel) (F : Nat) (cX nX kb feeB minB dhB tail : Bytes) (k : TxKernel)
      (rest : Bytes), cX.length = nBytes → nX.length = nBytes → kb.length = nBytes →
      beValue kb < c.groupOrder → feeB.length = (if 2 &&& F ≠ 0 then 8 else 0) →
      minB.length = (if 4 &&& F ≠ 0 then 8 else 0) → dhB.length = 8 → 8 &&& F ≠ 0 →
      TxKernel.load c dst
        (F :: (cX ++ (nX ++ (kb ++ (feeB ++ (minB ++ (dhB ++ tail))))))) = .ok (k, rest) →
      k.m_Height.m_Max = (k.m_Height.m_Min + beValue dhB) % 2 ^ 64) ∧
    (∀ k : TxKernel, k.m_Height.m_Max ≠ MaxHeight →
      8 &&& k.nFlags ≠ 0 ∧
      ∃ tail, TxKernel.save k =
        save_u8 k.nFlags ++ (uintBig.save k.m_Commitment.m_X ++
          (uintBig.save k.m_Signature.m_NoncePub.m_X ++ (Scalar.save k.m_Signature.m_k ++
            ((if k.m_Fee ≠ 0 then save_u64 k.m_Fee else []) ++
              ((if k.m_Height.m_Min ≠ 0 then save_u64 k.m_Height.m_Min else []) ++
                (save_u64 ((k.m_Height.m_Max % 2 ^ 64 + 2 ^ 64 - k.m_Height.m_Min % 2 ^ 64) %
                  2 ^ 64) ++ tail))))))) ∧
    (∀ k : TxKernel, k.Valid c → k.m_Height.m_Max ≠ MaxHeight →
      k.m_Height.m_Max < k.m_Height.m_Min →
      (k.m_Height.m_Max % 2 ^ 64 + 2 ^ 64 - k.m_Height.m_Min % 2 ^ 64) % 2 ^ 64 =
        k.m_Height.m_Max + 2 ^ 64 - k.m_Height.m_Min ∧
      (k.m_Height.m_Min + (k.m_Height.m_Max + 2 ^ 64 - k.m_Height.m_Min)) % 2 ^ 64 =
        k.m_Height.m_Max ∧
      TxKernel.load c TxKernel.fresh (TxKernel.save k) = .ok (k, [])) := by
  refine ⟨?_, ?_, fun k hb => TxKernel.save_front k hb, ?_⟩
  · intro dst F cX nX kb feeB minB dhB tail h1 h2 h3 hk hf hm hd h8 h20 h40 h80
    have hp := TxKernel.load_plain c dst F cX nX kb feeB minB dhB tail h1 h2 h3 hk hf hm
      (by rw [if_pos h8]; exact hd) h20 h40 h80
    have key : ∀ K : TxKernel, K.m_Height = ⟨if 4 &&& F ≠ 0 then beValue minB else 0,
        if 8 &&& F ≠ 0 then ((if 4 &&& F ≠ 0 then beValue minB else 0) + beValue dhB) % 2 ^ 64
        else MaxHeight⟩ →
        K.m_Height.m_Min = (if 4 &&& F ≠ 0 then beValue minB else 0) ∧
        K.m_Height.m_Max = (K.m_Height.m_Min + beValue dhB) % 2 ^ 64 ∧
        ((K.m_Height.m_Min + beValue dhB) % 2 ^ 64 = 2 ^ 64 - 1 →
          K.m_Height.m_Max = MaxHeight ∧ 8 &&& K.nFlags = 0) := by
      intro K hK
      have e1 : K.m_Height.m_Min = (if 4 &&& F ≠ 0 then beValue minB else 0) := by rw [hK]
      have e2 : K.m_Height.m_Max = (K.m_Height.m_Min + beValue dhB) % 2 ^ 64 := by
        rw [e1, hK]
        exact if_pos h8
      refine ⟨e1, e2, fun hs => ?_⟩
      have e3 : K.m_Height.m_Max = MaxHeight := e2.trans hs
      refine ⟨e3, ?_⟩
      by_contra hne
      exact (TxKernel.bounded_bit K).mp hne e3
    exact ⟨_, hp, key _ rfl⟩
  · intro dst F cX nX kb feeB minB dhB tail k rest h1 h2 h3 hk hf hm hd h8 h
    exact (TxKernel.load_heights c dst F cX nX kb feeB minB dhB tail k rest h1 h2 h3 hk hf hm
      hd h8 h).2.2
  · intro k hk hb hlt
    have hwf := hk.1
    have hdec := (TxKernel.load_Recursive_decodes c hmax c.s_MaxRecursionDepth 0 k hk.1
      (by have := hk.2; omega) hk.2).ok0
    refine ⟨?_, ?_, hdec⟩
    all_goals
      cases k with
      | mk com sig fee h hl rl nested ae ce =>
        simp only [TxKernel.wellFormed, Bool.and_eq_true, decide_eq_true_eq] at hwf
        simp only [TxKernel.m_Height] at hlt ⊢
        have g1 := hwf.1.2.2.2.1
        have g2 := hwf.1.2.2.2.2.1
        omega

set_option maxRecDepth 100000 in
theorem C27_delta_wraps_witness :
    exampleConsts.s_MaxRecursionDepth + 1 < 2 ^ 32 ∧
    TxKernel.load exampleConsts TxKernel.fresh
        (12 :: (exampleBig 1 ++ (exampleBig 2 ++ (exampleBig 7 ++
          ([] ++ (save_u64 100 ++ (save_u64 (2 ^ 64 - 50) ++ []))))))) =
      .ok (TxKernel.mk ⟨exampleBig 1, 0⟩ ⟨⟨exampleBig 2, 0⟩, exampleScalar 7⟩ 0 ⟨100, 50⟩
        none none [] 0 false, []) ∧
    TxKernel.load exampleConsts TxKernel.fresh
        (8 :: (exampleBig 1 ++ (exampleBig 2 ++ (exampleBig 7 ++
          ([] ++ ([] ++ (save_u64 (2 ^ 64 - 1) ++ []))))))) =
      .ok (TxKernel.mk ⟨exampleBig 1, 0⟩ ⟨⟨exampleBig 2, 0⟩, exampleScalar 7⟩ 0 ⟨0, MaxHeight⟩
        none none [] 0 false, []) ∧
    (∃ k, TxKernel.load exampleConsts TxKernel.fresh
        (8 :: (exampleBig 1 ++ (exampleBig 2 ++ (exampleBig 7 ++
          ([] ++ ([] ++ (save_u64 (2 ^ 64 - 1) ++ []))))))) = .ok (k, []) ∧
      k.m_Height.m_Min = (if 4 &&& 8 ≠ 0 then beValue [] else 0) ∧
      k.m_Height.m_Max = (k.m_Height.m_Min + beValue (save_u64 (2 ^ 64 - 1))) % 2 ^ 64 ∧
      ((k.m_Height.m_Min + beValue (save_u64 (2 ^ 64 - 1))) % 2 ^ 64 = 2 ^ 64 - 1 →
        k.m_Height.m_Max = MaxHeight ∧ 8 &&& k.nFlags = 0)) ∧
    (exampleKernel1.Valid exampleConsts ∧ exampleKernel1.m_Height.m_Max ≠ MaxHeight ∧
      exampleKernel1.m_Height.m_Max < exampleKernel1.m_Height.m_Min ∧
      TxKernel.load exampleConsts TxKernel.fresh (TxKernel.save exampleKernel1) =
        .ok (exampleKernel1, [])) :=
  ⟨by decide, by rfl, by rfl,
    (C27_delta_wraps exampleConsts (by decide)).1 TxKernel.fresh 8 (exampleBig 1)
      (exampleBig 2) (exampleBig 7) [] [] (save_u64 (2 ^ 64 - 1)) [] (by decide) (by decide)
      (by decide) (by decide) (by decide) (by decide) (by decide) (by decide) (by decide)
      (by decide) (by decide),
    by decide, by decide, by decide,
    ((C27_delta_wraps exampleConsts (by decide)).2.2.2 exampleKernel1 (by decide) (by decide)
      (by decide)).2.2⟩

/-- C28: a block body encodes to the blinding offset first, then the perishable
part (inputs, then outputs), then the eternal part (kernels), and decoding reads
them in that order; the transaction that holds the same inputs, outputs, kernels
and offset encodes to the same three segments with the offset last; a valid body
decodes from its encoding with every byte consumed; and the two layouts are not
interchangeable: the transaction decoder, given the encoding of a body with offset
7 and no element, either fails or returns another offset. -/
theorem C28_body_field_order (c : Consts) (b : Body) :
    Body.save c b =
      TxBase.save b.base.toTxBase ++ (Perishable.save c b.perishable ++ Eternal.save b.eternal) ∧
    Body.save c b =
      Scalar.save b.base.toTxBase.m_Offset ++
        (save_VecPtr Input.save b.perishable.m_vInputs ++
          (save_VecPtr (Output.save c) b.perishable.m_vOutputs ++
            save_VecPtr TxKernel.save b.eternal.m_vKernels)) ∧
    Transaction.save c b.asTransaction =
      (Perishable.save c b.perishable ++ Eternal.save b.eternal) ++ TxBase.save b.base.toTxBase ∧
    (∀ s : Bytes, Body.load c s =
      match TxBase.load c s with
      | .error e => .error e
      | .ok (o, s1) =>
        match Perishable.load c s1 with
        | .error e => .error e
        | .ok (p, s2) =>
          match Eternal.load c s2 with
          | .error e => .error e
          | .ok (et, s3) => .ok (⟨⟨o⟩, p, et⟩, s3)) ∧
    (c.WF → b.Valid c → ∀ rest,
      Body.load c (Body.save c b ++ rest) = .ok (b.decoded c, rest) ∧
      Transaction.load c (Transaction.save c b.asTransaction ++ rest) =
        .ok ((b.decoded c).asTransaction, rest)) ∧
    (∀ r, Transaction.load c (Body.save c exampleBody) ≠ .ok (exampleBody.asTransaction, r)) ∧
    (beValue exampleShiftedOffset < c.groupOrder →
      Transaction.load c (Body.save c exampleBody) =
        .ok (⟨⟨[], []⟩, ⟨[]⟩, ⟨⟨exampleShiftedOffset⟩⟩⟩, [])) := by
  refine ⟨?_, ?_, rfl, fun s => ?_, fun hc hb rest => ?_, fun r => ?_, fun hg => ?_⟩
  · unfold Body.save BodyBase.save
    rw [List.append_assoc]
  · unfold Body.save BodyBase.save TxBase.save Perishable.save Eternal.save
    simp only [List.append_assoc]
  · unfold Body.load BodyBase.load
    rw [Reader.bind_apply, Reader.bind_apply]
    cases h1 : TxBase.load c s with
    | error e => rfl
    | ok r1 =>
      obtain ⟨o, s1⟩ := r1
      simp only
      rw [Reader.pure_apply]
      simp only
      rw [Reader.bind_apply]
      cases h2 : Perishable.load c s1 with
      | error e => rfl
      | ok r2 =>
        obtain ⟨p, s2⟩ := r2
        simp only
        rw [Reader.bind_apply]
        cases h3 : Eternal.load c s2 with
        | error e => rfl
        | ok r3 =>
          obtain ⟨et, s3⟩ := r3
          rfl
  · exact ⟨(Body_load_decodes hc hb).1 rest, (Transaction_load_decodes hc hb).1 rest⟩
  · rw [Transaction.load_exampleBody]
    by_cases hg : c.groupOrder ≤ beValue exampleShiftedOffset
    · rw [if_pos hg]
      intro h
      cases h
    · rw [if_neg hg]
      intro h
      have h1 : (⟨⟨exampleShiftedOffset⟩⟩ : TxBase) = exampleBody.asTransaction.base := by
        injection h with h
        injection h with h _
        exact congrArg Transaction.base h
      exact absurd h1 (by decide)
  · rw [Transaction.load_exampleBody, if_neg (by omega)]

set_option maxRecDepth 100000 in
theorem C28_body_field_order_witness :
    exampleConsts.WF ∧ exampleBody1.Valid exampleConsts ∧
    Body.load exampleConsts (Body.save exampleConsts exampleBody1 ++ [5]) =
      .ok (exampleBody1.decoded exampleConsts, [5]) ∧
    Transaction.load exampleConsts
        (Transaction.save exampleConsts exampleBody1.asTransaction ++ [5]) =
      .ok ((exampleBody1.decoded exampleConsts).asTransaction, [5]) :=
  ⟨by decide, by decide,
    ((C28_body_field_order exampleConsts exampleBody1).2.2.2.2.1 (by decide) (by decide) [5]).1,
    ((C28_body_field_order exampleConsts exampleBody1).2.2.2.2.1 (by decide) (by decide) [5]).2⟩

end Grimm
